import Mathlib

/-!
# Verification of the nrbf-parser MS-NRBF codec

Shallow embedding of the `nrbf-parser` Rust crate (decoder, encoder and
interleaved JSON projection for the .NET Remoting Binary Format), together
with proofs of the specification's testable properties.

Modelling conventions:
* a byte stream is a `List Nat`; reading a byte reduces it modulo 256
  (the Rust reader only ever yields `u8` values);
* Rust `i32`/`i64` values are `Int` with explicit two's-complement
  conversions at the byte boundary (`toSigned32`, `wrap32`);
* Rust `f32`/`f64` values are carried as their raw little-endian bit
  patterns (`Nat`), which is exactly how the codec treats them: it never
  interprets them numerically;
* Rust `String` is the list of its UTF-8 bytes; `String::from_utf8` is
  modelled by the executable validator `isValidUtf8`;
* the decoder's recursion is bounded by an explicit fuel argument; running
  out of fuel yields the distinguished error `Err.fuelOut`, which the
  termination theorem shows is never produced when the fuel exceeds the
  input length.
-/

namespace Nrbf

/-- ASCII string literal as a byte list (all literals used are ASCII). -/
def s2b (s : String) : List Nat := s.data.map Char.toNat

/-- Two's-complement reading of a 32-bit pattern, as done by
`i32::from_le_bytes`. -/
def toSigned32 (n : Nat) : Int :=
  if n % 4294967296 < 2147483648 then (n % 4294967296 : Int)
  else (n % 4294967296 : Int) - 4294967296

/-- Two's-complement 32-bit pattern of an integer, as produced by
`i32::to_le_bytes`. -/
def wrap32 (v : Int) : Nat := (v % 4294967296).toNat

/-- Little-endian byte decomposition of a 32-bit pattern. -/
def leBytes4 (n : Nat) : List Nat :=
  [n % 256, n / 256 % 256, n / 65536 % 256, n / 16777216 % 256]

/-- Little-endian byte decomposition of a 64-bit pattern. -/
def leBytes8 (n : Nat) : List Nat :=
  [n % 256, n / 256 % 256, n / 65536 % 256, n / 16777216 % 256,
   n / 4294967296 % 256, n / 1099511627776 % 256,
   n / 281474976710656 % 256, n / 72057594037927936 % 256]

/-- Little-endian byte decomposition of a 16-bit pattern. -/
def leBytes2 (n : Nat) : List Nat := [n % 256, n / 256 % 256]

/-- `i32::to_le_bytes`. -/
def i32Bytes (v : Int) : List Nat := leBytes4 (wrap32 v)

/-- `i64`/`u64::to_le_bytes` (two's complement for the signed case). -/
def i64Bytes (v : Int) : List Nat := leBytes8 ((v % 18446744073709551616).toNat)

/-- `i16`/`u16::to_le_bytes` (two's complement for the signed case). -/
def i16Bytes (v : Int) : List Nat := leBytes2 ((v % 65536).toNat)

theorem toSigned32_wrap32 (v : Int) (h1 : -2147483648 ≤ v) (h2 : v < 2147483648) :
    toSigned32 (wrap32 v) = v := by
  unfold toSigned32 wrap32
  split <;> omega

/-! ## Error taxonomy (`src/error.rs`)

`Err.io` stands for any underlying IO error (in the list model: running out
of input mid-record). `Err.fuelOut` is an artifact of the fuel-bounded
embedding and corresponds to no behaviour of the source; the termination
theorem shows it is unreachable with sufficient fuel. `Err.custom` keeps
the source's message strings, except that formatted interpolations of
runtime values are dropped. -/

inductive Err where
  | io : Err
  | invalidRecordType (b : Nat) : Err
  | invalidBinaryType (b : Nat) : Err
  | invalidPrimitiveType (b : Nat) : Err
  | invalidUtf8 : Err
  | invalidStringLength (n : Int) : Err
  | custom (msg : String) : Err
  | fuelOut : Err
deriving DecidableEq, Repr

/-! ## Tag enumerations (`src/records.rs`) -/

inductive RecordType where
  | serializedStreamHeader | classWithId | systemClassWithMembers
  | classWithMembers | systemClassWithMembersAndTypes | classWithMembersAndTypes
  | binaryObjectString | binaryArray | memberPrimitiveTyped | memberReference
  | objectNull | messageEnd | binaryLibrary | objectNullMultiple256
  | objectNullMultiple | arraySinglePrimitive | arraySingleObject
  | arraySingleString | binaryMethodCall | binaryMethodReturn
deriving DecidableEq, Repr

/-- The explicit numeric discriminant of `RecordType` (`RecordType as u8`). -/
def RecordType.val : RecordType → Nat
  | .serializedStreamHeader => 0
  | .classWithId => 1
  | .systemClassWithMembers => 2
  | .classWithMembers => 3
  | .systemClassWithMembersAndTypes => 4
  | .classWithMembersAndTypes => 5
  | .binaryObjectString => 6
  | .binaryArray => 7
  | .memberPrimitiveTyped => 8
  | .memberReference => 9
  | .objectNull => 10
  | .messageEnd => 11
  | .binaryLibrary => 12
  | .objectNullMultiple256 => 13
  | .objectNullMultiple => 14
  | .arraySinglePrimitive => 15
  | .arraySingleObject => 16
  | .arraySingleString => 17
  | .binaryMethodCall => 21
  | .binaryMethodReturn => 22

/-- `impl TryFrom<u8> for RecordType` (decoder.rs uses it on the tag byte). -/
def RecordType.fromByte (value : Nat) : Except Err RecordType :=
  match value with
  | 0 => .ok .serializedStreamHeader
  | 1 => .ok .classWithId
  | 2 => .ok .systemClassWithMembers
  | 3 => .ok .classWithMembers
  | 4 => .ok .systemClassWithMembersAndTypes
  | 5 => .ok .classWithMembersAndTypes
  | 6 => .ok .binaryObjectString
  | 7 => .ok .binaryArray
  | 8 => .ok .memberPrimitiveTyped
  | 9 => .ok .memberReference
  | 10 => .ok .objectNull
  | 11 => .ok .messageEnd
  | 12 => .ok .binaryLibrary
  | 13 => .ok .objectNullMultiple256
  | 14 => .ok .objectNullMultiple
  | 15 => .ok .arraySinglePrimitive
  | 16 => .ok .arraySingleObject
  | 17 => .ok .arraySingleString
  | 21 => .ok .binaryMethodCall
  | 22 => .ok .binaryMethodReturn
  | _ => .error (.invalidRecordType value)

inductive BinaryType where
  | primitive | string | object | systemClass | classType
  | objectArray | stringArray | primitiveArray
deriving DecidableEq, Repr

/-- Numeric discriminant of `BinaryType`. -/
def BinaryType.val : BinaryType → Nat
  | .primitive => 0
  | .string => 1
  | .object => 2
  | .systemClass => 3
  | .classType => 4
  | .objectArray => 5
  | .stringArray => 6
  | .primitiveArray => 7

/-- `impl TryFrom<u8> for BinaryType`. -/
def BinaryType.fromByte (value : Nat) : Except Err BinaryType :=
  match value with
  | 0 => .ok .primitive
  | 1 => .ok .string
  | 2 => .ok .object
  | 3 => .ok .systemClass
  | 4 => .ok .classType
  | 5 => .ok .objectArray
  | 6 => .ok .stringArray
  | 7 => .ok .primitiveArray
  | _ => .error (.invalidBinaryType value)

inductive PrimitiveType where
  | boolean | byte | char | decimal | double | int16 | int32 | int64
  | sbyte | single | timeSpan | dateTime | uint16 | uint32 | uint64
  | null | string
deriving DecidableEq, Repr

/-- Numeric discriminant of `PrimitiveType`. -/
def PrimitiveType.val : PrimitiveType → Nat
  | .boolean => 1
  | .byte => 2
  | .char => 3
  | .decimal => 5
  | .double => 6
  | .int16 => 7
  | .int32 => 8
  | .int64 => 9
  | .sbyte => 10
  | .single => 11
  | .timeSpan => 12
  | .dateTime => 13
  | .uint16 => 14
  | .uint32 => 15
  | .uint64 => 16
  | .null => 17
  | .string => 18

/-- `impl TryFrom<u8> for PrimitiveType`. -/
def PrimitiveType.fromByte (value : Nat) : Except Err PrimitiveType :=
  match value with
  | 1 => .ok .boolean
  | 2 => .ok .byte
  | 3 => .ok .char
  | 5 => .ok .decimal
  | 6 => .ok .double
  | 7 => .ok .int16
  | 8 => .ok .int32
  | 9 => .ok .int64
  | 10 => .ok .sbyte
  | 11 => .ok .single
  | 12 => .ok .timeSpan
  | 13 => .ok .dateTime
  | 14 => .ok .uint16
  | 15 => .ok .uint32
  | 16 => .ok .uint64
  | 17 => .ok .null
  | 18 => .ok .string
  | _ => .error (.invalidPrimitiveType value)

/-! ## UTF-8 validation and hex coding

`String::from_utf8` succeeds exactly on well-formed UTF-8 (RFC 3629:
no overlong forms, no surrogates, code points ≤ U+10FFFF); `isValidUtf8`
is that check. `hex::encode` produces lowercase hex; `hex::decode` accepts
both cases and requires even length. -/

/-- Is `b` a UTF-8 continuation byte (`0x80..=0xBF`)? -/
def isCont (b : Nat) : Bool := 128 ≤ b && b ≤ 191

def isValidUtf8 : List Nat → Bool
  | [] => true
  | b :: rest =>
    if b < 128 then isValidUtf8 rest
    else if 194 ≤ b && b ≤ 223 then
      match rest with
      | c :: r => isCont c && isValidUtf8 r
      | [] => false
    else if b = 224 then
      match rest with
      | c :: d :: r => (160 ≤ c && c ≤ 191) && isCont d && isValidUtf8 r
      | _ => false
    else if (225 ≤ b && b ≤ 236) || b = 238 || b = 239 then
      match rest with
      | c :: d :: r => isCont c && isCont d && isValidUtf8 r
      | _ => false
    else if b = 237 then
      match rest with
      | c :: d :: r => (128 ≤ c && c ≤ 159) && isCont d && isValidUtf8 r
      | _ => false
    else if b = 240 then
      match rest with
      | c :: d :: e :: r => (144 ≤ c && c ≤ 191) && isCont d && isCont e && isValidUtf8 r
      | _ => false
    else if b = 241 || b = 242 || b = 243 then
      match rest with
      | c :: d :: e :: r => isCont c && isCont d && isCont e && isValidUtf8 r
      | _ => false
    else if b = 244 then
      match rest with
      | c :: d :: e :: r => (128 ≤ c && c ≤ 143) && isCont d && isCont e && isValidUtf8 r
      | _ => false
    else false

/-- Lowercase hex digit of a value `< 16`. -/
def hexDigit (n : Nat) : Nat := if n < 10 then 48 + n else 87 + n

/-- Value of a hex digit byte, if it is one (`hex` accepts both cases). -/
def hexDigitVal (c : Nat) : Option Nat :=
  if 48 ≤ c ∧ c ≤ 57 then some (c - 48)
  else if 97 ≤ c ∧ c ≤ 102 then some (c - 87)
  else if 65 ≤ c ∧ c ≤ 70 then some (c - 55)
  else none

/-- `hex::encode`: lowercase hex string (as bytes) of a byte list. -/
def hexEncode : List Nat → List Nat
  | [] => []
  | b :: rest => hexDigit (b % 256 / 16) :: hexDigit (b % 16) :: hexEncode rest

/-- `hex::decode`: bytes of a hex string; fails on odd length or non-digits. -/
def hexDecode : List Nat → Option (List Nat)
  | [] => some []
  | [_] => none
  | c :: d :: rest => do
    let hi ← hexDigitVal c
    let lo ← hexDigitVal d
    let tail ← hexDecode rest
    pure ((hi * 16 + lo) :: tail)

theorem hexDigitVal_hexDigit (n : Nat) (h : n < 16) :
    hexDigitVal (hexDigit n) = some n := by
  unfold hexDigit hexDigitVal
  rcases Nat.lt_or_ge n 10 with h10 | h10
  · rw [if_pos h10, if_pos (by omega : 48 ≤ 48 + n ∧ 48 + n ≤ 57)]
    congr 1
    omega
  · rw [if_neg (Nat.not_lt.mpr h10), if_neg (by omega : ¬(48 ≤ 87 + n ∧ 87 + n ≤ 57)),
      if_pos (by omega : 97 ≤ 87 + n ∧ 87 + n ≤ 102)]
    congr 1
    omega

theorem hexDecode_hexEncode (bs : List Nat) (h : ∀ b ∈ bs, b < 256) :
    hexDecode (hexEncode bs) = some bs := by
  induction bs with
  | nil => rfl
  | cons b rest ih =>
    have hb : b < 256 := h b (by simp)
    have hrest := ih (fun x hx => h x (by simp [hx]))
    have hb16 : b % 256 = b := Nat.mod_eq_of_lt hb
    simp only [hexEncode, hexDecode, hb16]
    rw [hexDigitVal_hexDigit _ (by omega), hexDigitVal_hexDigit _ (by omega), hrest]
    simp only [bind, Option.bind]
    have hbeq : b / 16 * 16 + b % 16 = b := by omega
    rw [hbeq]
    rfl

/-! ## Record model (`src/records.rs`)

The named Rust sub-structs whose only recursive field is a
`Vec<ObjectValue>` (`ClassWithMembersAndTypes`, `BinaryArray`, …) are
flattened into the `Record` constructor arguments, in field order, so the
mutual inductive stays well-formed; all other structs are kept as
structures. `PrimitiveValue::Decimal` carries the hex string (byte list)
exactly like the source. -/

structure SerializationHeaderRec where
  root_id : Int
  header_id : Int
  major_version : Int
  minor_version : Int
deriving DecidableEq, Repr

structure BinaryLibraryRec where
  library_id : Int
  library_name : List Nat
deriving DecidableEq, Repr

structure ClassInfo where
  object_id : Int
  name : List Nat
  member_count : Int
  member_names : List (List Nat)
deriving DecidableEq, Repr

structure ClassTypeInfo where
  type_name : List Nat
  library_id : Int
deriving DecidableEq, Repr

inductive AdditionalTypeInfo where
  | primitive (pt : PrimitiveType)
  | systemClass (s : List Nat)
  | classType (c : ClassTypeInfo)
  | none
deriving DecidableEq, Repr

structure MemberTypeInfo where
  binary_type_enums : List BinaryType
  additional_infos : List AdditionalTypeInfo
deriving DecidableEq, Repr

/-- `PrimitiveValue`. `char` is the code point of the Rust `char`;
`single`/`double` carry the IEEE bit patterns; `decimal` carries the hex
string bytes; `dateTime` carries the `u64` bits. -/
inductive PrimitiveValue where
  | boolean (b : Bool)
  | byte (n : Nat)
  | char (c : Nat)
  | decimal (s : List Nat)
  | double (bits : Nat)
  | int16 (v : Int)
  | int32 (v : Int)
  | int64 (v : Int)
  | sbyte (v : Int)
  | single (bits : Nat)
  | timeSpan (v : Int)
  | dateTime (u : Nat)
  | uint16 (n : Nat)
  | uint32 (n : Nat)
  | uint64 (n : Nat)
  | string (s : List Nat)
  | null
deriving DecidableEq, Repr

mutual
inductive Record where
  | serializationHeader (h : SerializationHeaderRec)
  | binaryLibrary (l : BinaryLibraryRec)
  | classWithMembersAndTypes (class_info : ClassInfo) (member_type_info : MemberTypeInfo)
      (library_id : Int) (member_values : List ObjectValue)
  | systemClassWithMembersAndTypes (class_info : ClassInfo) (member_type_info : MemberTypeInfo)
      (member_values : List ObjectValue)
  | systemClassWithMembers (class_info : ClassInfo) (member_values : List ObjectValue)
  | classWithMembers (class_info : ClassInfo) (library_id : Int)
      (member_values : List ObjectValue)
  | classWithId (object_id : Int) (metadata_id : Int) (member_values : List ObjectValue)
  | binaryObjectString (object_id : Int) (value : List Nat)
  | binaryArray (object_id : Int) (binary_array_type_enum : Nat) (rank : Int)
      (lengths : List Int) (lower_bounds : Option (List Int)) (type_enum : BinaryType)
      (additional_type_info : AdditionalTypeInfo) (element_values : List ObjectValue)
  | arraySingleObject (object_id : Int) (length : Int) (element_values : List ObjectValue)
  | arraySinglePrimitive (object_id : Int) (length : Int)
      (primitive_type_enum : PrimitiveType) (element_values : List PrimitiveValue)
  | arraySingleString (object_id : Int) (length : Int) (element_values : List ObjectValue)
  | memberPrimitiveTyped (primitive_type_enum : PrimitiveType) (value : PrimitiveValue)
  | memberReference (id_ref : Int)
  | objectNull
  | objectNullMultiple (null_count : Int)
  | objectNullMultiple256 (null_count : Nat)
  | messageEnd

inductive ObjectValue where
  | primitive (p : PrimitiveValue)
  | record (r : Record)
end

/-- `ClassInfoWithTypes`: registry entry of the decoder. -/
structure ClassInfoWithTypes where
  class_info : ClassInfo
  member_type_info : Option MemberTypeInfo
  library_id : Option Int
deriving Repr

/-! ## Decoder state and monad (`src/decoder.rs`)

The `HashMap` registries are modelled as association lists where insertion
conses and lookup takes the first match, which has the same lookup
semantics as `HashMap::insert`/`get`. The byte offset field is not
modelled (no claim mentions it). -/

structure DecSt where
  input : List Nat
  metadataRegistry : List (Int × ClassInfoWithTypes)
  libraryRegistry : List (Int × List Nat)

/-- `HashMap::insert` on the association-list model. -/
def regInsert {α : Type} (k : Int) (v : α) (reg : List (Int × α)) : List (Int × α) :=
  (k, v) :: reg

/-- `HashMap::get` on the association-list model. -/
def regGet {α : Type} (k : Int) (reg : List (Int × α)) : Option α :=
  match reg with
  | [] => .none
  | (k', v) :: rest => if k' = k then some v else regGet k rest

/-- The decoder monad: state passing over `DecSt` with typed errors. -/
def Dec (α : Type) : Type := DecSt → Except Err (α × DecSt)

instance : Monad Dec where
  pure a := fun st => .ok (a, st)
  bind m f := fun st =>
    match m st with
    | .error e => .error e
    | .ok (a, st') => f a st'

/-- `bind` unfolded, for rewriting. -/
theorem Dec.bind_def {α β : Type} (m : Dec α) (f : α → Dec β) (st : DecSt) :
    (m >>= f) st =
      match m st with
      | .error e => .error e
      | .ok (a, st') => f a st' := rfl

/-- `pure` unfolded, for rewriting. -/
theorem Dec.pure_def {α : Type} (a : α) (st : DecSt) :
    (pure a : Dec α) st = .ok (a, st) := rfl

/-- `pure`-then-`bind` collapses. -/
theorem Dec.pure_bind {α β : Type} (a : α) (f : α → Dec β) (st : DecSt) :
    ((pure a : Dec α) >>= f) st = f a st := rfl

/-- Raise an error. -/
def throwE {α : Type} (e : Err) : Dec α := fun _ => .error e

/-- Lift a pure `Except` computation (e.g. a `TryFrom` conversion). -/
def liftE {α : Type} (x : Except Err α) : Dec α := fun st =>
  match x with
  | .error e => .error e
  | .ok a => .ok (a, st)

/-- `read_u8`: one byte from the stream (reduced mod 256: the stream is a
byte stream). Running out of input is an IO error. -/
def readU8 : Dec Nat := fun st =>
  match st.input with
  | [] => .error .io
  | b :: rest => .ok (b % 256, { st with input := rest })

/-- `read_i32`: four little-endian bytes as a signed 32-bit integer. -/
def readI32 : Dec Int := do
  let b0 ← readU8
  let b1 ← readU8
  let b2 ← readU8
  let b3 ← readU8
  pure (toSigned32 (b0 + 256 * b1 + 65536 * b2 + 16777216 * b3))

/-- Read `n` raw bytes (mod 256), as `read_exact` into an `n`-byte buffer. -/
def readBytes (n : Nat) : Dec (List Nat) :=
  match n with
  | 0 => pure []
  | n + 1 => do
    let b ← readU8
    let rest ← readBytes n
    pure (b :: rest)

/-- Little-endian value of a byte list. -/
def leVal : List Nat → Nat
  | [] => 0
  | b :: rest => b + 256 * leVal rest

/-- Two's-complement reading of a bit pattern modulo `m` (`m` a power of
two): used for `i16`/`i64`/`i8::from_le_bytes`. -/
def toSigned (m : Nat) (n : Nat) : Int :=
  if n % m < m / 2 then ((n % m : Nat) : Int) else (n % m : Int) - m

/-- `read_variable_length_int`, one loop iteration per call.
`value` holds the 32-bit accumulator bits; the 7-bit group is shifted into
place with the wrapping `i32` shift of the source (`% 2^32`). -/
def readVLIAux (value : Nat) (shift : Nat) : Dec Int := fun st =>
  (do
    let b ← readU8
    let value' := value ||| b % 128 * 2 ^ shift % 4294967296
    if b < 128 then
      pure (toSigned32 value')
    else if h : 35 ≤ shift + 7 then
      throwE (Err.custom "Variable length int too long")
    else
      readVLIAux value' (shift + 7)) st
termination_by 35 - shift

/-- `read_variable_length_int`. -/
def readVLI : Dec Int := readVLIAux 0 0

/-- `write_variable_length_int`. For `v ≤ 0` the arithmetic shift keeps the
value non-positive, so exactly one byte is emitted, as in the source. -/
def writeVLI (v : Int) : List Nat :=
  let b := (v % 128).toNat
  let v' := v / 128
  if h : 0 < v' then (b + 128) :: writeVLI v'
  else [b]
termination_by v.toNat
decreasing_by
  simp_wf
  omega

/-- `read_length_prefixed_string` (the string is kept as its UTF-8 bytes). -/
def readLengthPrefixedString : Dec (List Nat) := do
  let length ← readVLI
  if length < 0 then
    throwE (.invalidStringLength length)
  else if length = 0 then
    pure []
  else do
    let buf ← readBytes length.toNat
    if isValidUtf8 buf then pure buf else throwE .invalidUtf8

/-- `for _ in 0..count` reading loop (`count.toNat` iterations, matching
the empty Rust range for non-positive counts). -/
def readListN {α : Type} (m : Dec α) : Nat → Dec (List α)
  | 0 => pure []
  | n + 1 => do
    let x ← m
    let rest ← readListN m n
    pure (x :: rest)

/-- `read_serialization_header`. -/
def readSerializationHeader : Dec SerializationHeaderRec := do
  let root_id ← readI32
  let header_id ← readI32
  let major_version ← readI32
  let minor_version ← readI32
  pure ⟨root_id, header_id, major_version, minor_version⟩

/-- `read_binary_library`. -/
def readBinaryLibrary : Dec BinaryLibraryRec := do
  let library_id ← readI32
  let library_name ← readLengthPrefixedString
  pure ⟨library_id, library_name⟩

/-- `read_class_info`. -/
def readClassInfo : Dec ClassInfo := do
  let object_id ← readI32
  let name ← readLengthPrefixedString
  let member_count ← readI32
  let member_names ← readListN readLengthPrefixedString member_count.toNat
  pure ⟨object_id, name, member_count, member_names⟩

/-- The per-entry `AdditionalTypeInfo` read, shared by
`read_member_type_info` and `read_binary_array_full`. -/
def readAdditionalInfo (bt : BinaryType) : Dec AdditionalTypeInfo :=
  match bt with
  | .primitive => do
    let pt ← liftE (PrimitiveType.fromByte (← readU8))
    pure (.primitive pt)
  | .systemClass => do
    let s ← readLengthPrefixedString
    pure (.systemClass s)
  | .classType => do
    let type_name ← readLengthPrefixedString
    let library_id ← readI32
    pure (.classType ⟨type_name, library_id⟩)
  | _ => pure .none

/-- Second loop of `read_member_type_info`: the source indexes
`binary_type_enums[i]` for `i in 0..count` over the vector it has just
built with exactly `count` entries, which is iteration over that list. -/
def readAdditionalInfos : List BinaryType → Dec (List AdditionalTypeInfo)
  | [] => pure []
  | bt :: rest => do
    let i ← readAdditionalInfo bt
    let is' ← readAdditionalInfos rest
    pure (i :: is')

/-- `read_member_type_info`. -/
def readMemberTypeInfo (count : Int) : Dec MemberTypeInfo := do
  let binary_type_enums ← readListN (do liftE (BinaryType.fromByte (← readU8))) count.toNat
  let additional_infos ← readAdditionalInfos binary_type_enums
  pure ⟨binary_type_enums, additional_infos⟩

/-- `read_primitive_value`. As in the source, `TimeSpan` and `DateTime`
are read into the `Int64` variant. -/
def readPrimitiveValue (pt : PrimitiveType) : Dec PrimitiveValue :=
  match pt with
  | .boolean => do
    let b ← readU8
    pure (.boolean (b != 0))
  | .byte => do
    let b ← readU8
    pure (.byte b)
  | .char => do
    let b ← readU8
    pure (.char b)
  | .int16 => do
    let bs ← readBytes 2
    pure (.int16 (toSigned 65536 (leVal bs)))
  | .int32 => do
    let v ← readI32
    pure (.int32 v)
  | .int64 => do
    let bs ← readBytes 8
    pure (.int64 (toSigned 18446744073709551616 (leVal bs)))
  | .timeSpan => do
    let bs ← readBytes 8
    pure (.int64 (toSigned 18446744073709551616 (leVal bs)))
  | .dateTime => do
    let bs ← readBytes 8
    pure (.int64 (toSigned 18446744073709551616 (leVal bs)))
  | .sbyte => do
    let b ← readU8
    pure (.sbyte (toSigned 256 b))
  | .single => do
    let bs ← readBytes 4
    pure (.single (leVal bs))
  | .double => do
    let bs ← readBytes 8
    pure (.double (leVal bs))
  | .decimal => do
    let bs ← readBytes 16
    pure (.decimal (hexEncode bs))
  | .uint16 => do
    let bs ← readBytes 2
    pure (.uint16 (leVal bs))
  | .uint32 => do
    let bs ← readBytes 4
    pure (.uint32 (leVal bs))
  | .uint64 => do
    let bs ← readBytes 8
    pure (.uint64 (leVal bs))
  | .string => do
    let s ← readLengthPrefixedString
    pure (.string s)
  | .null => pure .null

/-- Update the decoder state (registry insertions). -/
def modifySt (g : DecSt → DecSt) : Dec Unit := fun st => .ok ((), g st)

/-- Registry lookup of `read_class_with_id`; a missing id is fatal. -/
def getRegistryEntry (id : Int) : Dec ClassInfoWithTypes := fun st =>
  match regGet id st.metadataRegistry with
  | some m => .ok (m, st)
  | .none => .error (.custom "Metadata ID not found")

/-- `i32` multiplication with the wrapping overflow semantics of a release
build, used by `lengths.iter().product()`. -/
def mul32 (a b : Int) : Int := toSigned32 (wrap32 (a * b))

/-- `lengths.iter().product::<i32>()`. -/
def wrapProduct (ls : List Int) : Int := ls.foldl mul32 1

/-! ## The record parser (`Decoder::decode_next` and friends)

The mutual recursion is bounded by the `fuel` argument, decremented at
each nested `decode_next`; the element loop of `read_all_elements` carries
its own iteration bound `slotFuel`, chosen at the call site as
`input length + slot count + 1` (shown sufficient by the termination
theorem). Exhaustion yields `Err.fuelOut`, which corresponds to no source
behaviour.

In `readAllMemberValuesAux` the source's panicking index expressions
`binary_type_enums[i]` / `additional_infos[i]` are modelled with `List.getD`;
the default is unreachable because every `MemberTypeInfo` that reaches the
registry is built by `read_member_type_info` with exactly `member_count`
entries. -/

mutual

/-- `Decoder::decode_next`. A short read on the leading tag byte (empty
input) is clean end-of-stream (`none`); the method dispatches on the tag. -/
def decodeNext (fuel : Nat) : Dec (Option Record) :=
  match fuel with
  | 0 => fun _ => .error .fuelOut
  | f + 1 => fun st =>
    match st.input with
    | [] => .ok (.none, st)
    | _ => (do
      let b ← readU8
      let rt ← liftE (RecordType.fromByte b)
      match rt with
      | .serializedStreamHeader => do
        let r ← readSerializationHeader
        pure (some (Record.serializationHeader r))
      | .binaryLibrary => do
        let lib ← readBinaryLibrary
        modifySt (fun s =>
          { s with libraryRegistry := (regInsert lib.library_id lib.library_name
              s.libraryRegistry) })
        pure (some (Record.binaryLibrary lib))
      | .classWithMembersAndTypes => do
        let r ← readClassWithMembersAndTypes f
        pure (some r)
      | .systemClassWithMembersAndTypes => do
        let r ← readSystemClassWithMembersAndTypes f
        pure (some r)
      | .systemClassWithMembers => do
        let r ← readSystemClassWithMembers f
        pure (some r)
      | .classWithMembers => do
        let r ← readClassWithMembers f
        pure (some r)
      | .classWithId => do
        let r ← readClassWithId f
        pure (some r)
      | .binaryObjectString => do
        let object_id ← readI32
        let value ← readLengthPrefixedString
        pure (some (Record.binaryObjectString object_id value))
      | .binaryArray => do
        let r ← readBinaryArrayFull f
        pure (some r)
      | .memberPrimitiveTyped => do
        let pt ← liftE (PrimitiveType.fromByte (← readU8))
        let value ← readPrimitiveValue pt
        pure (some (Record.memberPrimitiveTyped pt value))
      | .memberReference => do
        let id_ref ← readI32
        pure (some (Record.memberReference id_ref))
      | .objectNull => pure (some Record.objectNull)
      | .objectNullMultiple256 => do
        let c ← readU8
        pure (some (Record.objectNullMultiple256 c))
      | .objectNullMultiple => do
        let c ← readI32
        pure (some (Record.objectNullMultiple c))
      | .arraySinglePrimitive => do
        let object_id ← readI32
        let length ← readI32
        let pt ← liftE (PrimitiveType.fromByte (← readU8))
        let values ← readListN (readPrimitiveValue pt) length.toNat
        pure (some (Record.arraySinglePrimitive object_id length pt values))
      | .arraySingleObject => do
        let object_id ← readI32
        let length ← readI32
        let values ← readAllElements f length BinaryType.object AdditionalTypeInfo.none
        pure (some (Record.arraySingleObject object_id length values))
      | .arraySingleString => do
        let object_id ← readI32
        let length ← readI32
        let values ← readAllElements f length BinaryType.string AdditionalTypeInfo.none
        pure (some (Record.arraySingleString object_id length values))
      | .messageEnd => pure (some Record.messageEnd)
      | _ => throwE (.custom "Unimplemented record type")) st
termination_by (fuel, 0, 0)

/-- `read_class_with_members_and_types`: registers the class before
reading member values. -/
def readClassWithMembersAndTypes (f : Nat) : Dec Record := do
  let class_info ← readClassInfo
  let member_type_info ← readMemberTypeInfo class_info.member_count
  let library_id ← readI32
  modifySt (fun s =>
    { s with metadataRegistry := (regInsert class_info.object_id
        (ClassInfoWithTypes.mk class_info (some member_type_info) (some library_id))
        s.metadataRegistry) })
  let member_values ← readAllMemberValues f class_info (some member_type_info)
  pure (Record.classWithMembersAndTypes class_info member_type_info library_id member_values)
termination_by (f, 4, 0)

/-- `read_system_class_with_members_and_types`. -/
def readSystemClassWithMembersAndTypes (f : Nat) : Dec Record := do
  let class_info ← readClassInfo
  let member_type_info ← readMemberTypeInfo class_info.member_count
  modifySt (fun s =>
    { s with metadataRegistry := (regInsert class_info.object_id
        (ClassInfoWithTypes.mk class_info (some member_type_info) Option.none)
        s.metadataRegistry) })
  let member_values ← readAllMemberValues f class_info (some member_type_info)
  pure (Record.systemClassWithMembersAndTypes class_info member_type_info member_values)
termination_by (f, 4, 0)

/-- `read_system_class_with_members`. -/
def readSystemClassWithMembers (f : Nat) : Dec Record := do
  let class_info ← readClassInfo
  modifySt (fun s =>
    { s with metadataRegistry := (regInsert class_info.object_id
        (ClassInfoWithTypes.mk class_info Option.none Option.none)
        s.metadataRegistry) })
  let member_values ← readAllMemberValues f class_info .none
  pure (Record.systemClassWithMembers class_info member_values)
termination_by (f, 4, 0)

/-- `read_class_with_members`. -/
def readClassWithMembers (f : Nat) : Dec Record := do
  let class_info ← readClassInfo
  let library_id ← readI32
  modifySt (fun s =>
    { s with metadataRegistry := (regInsert class_info.object_id
        (ClassInfoWithTypes.mk class_info Option.none (some library_id))
        s.metadataRegistry) })
  let member_values ← readAllMemberValues f class_info .none
  pure (Record.classWithMembers class_info library_id member_values)
termination_by (f, 4, 0)

/-- `read_class_with_id`: object-id, metadata-id, registry lookup (missing
is fatal), then member values per the stored layout. -/
def readClassWithId (f : Nat) : Dec Record := do
  let object_id ← readI32
  let metadata_id ← readI32
  let meta ← getRegistryEntry metadata_id
  let member_values ← readAllMemberValues f meta.class_info meta.member_type_info
  pure (Record.classWithId object_id metadata_id member_values)
termination_by (f, 4, 0)

/-- `read_binary_array_full`. -/
def readBinaryArrayFull (f : Nat) : Dec Record := do
  let object_id ← readI32
  let binary_array_type_enum ← readU8
  let rank ← readI32
  let lengths ← readListN readI32 rank.toNat
  let lower_bounds ←
    if binary_array_type_enum = 3 ∨ binary_array_type_enum = 4 ∨ binary_array_type_enum = 5 then do
      let bounds ← readListN readI32 rank.toNat
      pure (some bounds)
    else
      pure Option.none
  let type_enum ← liftE (BinaryType.fromByte (← readU8))
  let additional_type_info ← readAdditionalInfo type_enum
  let total_elements := wrapProduct lengths
  let element_values ← readAllElements f total_elements type_enum additional_type_info
  pure (Record.binaryArray object_id binary_array_type_enum rank lengths lower_bounds
    type_enum additional_type_info element_values)
termination_by (f, 4, 0)

/-- `read_object_value`. -/
def readObjectValue (f : Nat) (bt : BinaryType) (ai : AdditionalTypeInfo) : Dec ObjectValue :=
  match bt with
  | .primitive =>
    match ai with
    | .primitive pt => do
      let p ← readPrimitiveValue pt
      pure (ObjectValue.primitive p)
    | _ => throwE (.custom "Expected primitive type info")
  | _ => do
    match (← decodeNext f) with
    | some r => pure (ObjectValue.record r)
    | .none => throwE (.custom "Expected record for object value")
termination_by (f, 1, 0)

/-- `read_all_member_values`. -/
def readAllMemberValues (f : Nat) (ci : ClassInfo) (mti : Option MemberTypeInfo) :
    Dec (List ObjectValue) :=
  readAllMemberValuesAux f mti 0 ci.member_count.toNat
termination_by (f, 3, 0)

/-- One member per iteration, `member_count` iterations. -/
def readAllMemberValuesAux (f : Nat) (mti : Option MemberTypeInfo) (i : Nat) (k : Nat) :
    Dec (List ObjectValue) :=
  match k with
  | 0 => pure []
  | k + 1 => do
    let v ←
      match mti with
      | some m =>
        readObjectValue f (m.binary_type_enums.getD i BinaryType.primitive)
          (m.additional_infos.getD i AdditionalTypeInfo.none)
      | .none => do
        match (← decodeNext f) with
        | some r => pure (ObjectValue.record r)
        | .none => throwE (.custom "Expected record for member value")
    let rest ← readAllMemberValuesAux f mti (i + 1) k
    pure (v :: rest)
termination_by (f, 2, k)

/-- `read_all_elements`, with the loop bound picked from the current
state. -/
def readAllElements (f : Nat) (count : Int) (bt : BinaryType) (ai : AdditionalTypeInfo) :
    Dec (List ObjectValue) := fun st =>
  readAllElementsAux f (st.input.length + count.toNat + 1) count 0 bt ai st
termination_by (f, 3, 0)

/-- The `while i < count` loop of `read_all_elements`, including the
null-run expansion. -/
def readAllElementsAux (f : Nat) (slotFuel : Nat) (count : Int) (i : Int)
    (bt : BinaryType) (ai : AdditionalTypeInfo) : Dec (List ObjectValue) :=
  if i < count then
    match slotFuel with
    | 0 => throwE .fuelOut
    | sf + 1 => do
      let val ← readObjectValue f bt ai
      match val with
      | .record (.objectNullMultiple c) => do
        let rest ← readAllElementsAux f sf count (i + (c.toNat : Int)) bt ai
        pure (List.replicate c.toNat (ObjectValue.primitive .null) ++ rest)
      | .record (.objectNullMultiple256 c) => do
        let rest ← readAllElementsAux f sf count (i + (c : Int)) bt ai
        pure (List.replicate c (ObjectValue.primitive .null) ++ rest)
      | .record .objectNull => do
        let rest ← readAllElementsAux f sf count (i + 1) bt ai
        pure (ObjectValue.primitive .null :: rest)
      | v => do
        let rest ← readAllElementsAux f sf count (i + 1) bt ai
        pure (v :: rest)
  else
    pure []
termination_by (f, 2, slotFuel)

end

/-- Initial decoder state on a byte stream (`Decoder::new`). -/
def mkSt (bytes : List Nat) : DecSt := ⟨bytes, [], []⟩

/-- The `parse` convenience iterator, collected: repeatedly `decode_next`
until clean end-of-stream or error. The outer fuel only bounds the number
of records; every produced record consumes at least its tag byte, so
`length + 1` suffices. -/
def decodeAll (fuel : Nat) (st : DecSt) : Except Err (List Record) :=
  match fuel with
  | 0 => .error .fuelOut
  | f + 1 =>
    match decodeNext (st.input.length + 1) st with
    | .error e => .error e
    | .ok (.none, _) => .ok []
    | .ok (some r, st') =>
      match decodeAll f st' with
      | .error e => .error e
      | .ok rs => .ok (r :: rs)

/-- Decode a whole byte stream into its record sequence. -/
def parseStream (bytes : List Nat) : Except Err (List Record) :=
  decodeAll (bytes.length + 1) (mkSt bytes)

/-! ## Encoder (`src/encoder.rs`)

The encoder is modelled as pure functions returning the written bytes;
only `write_primitive_value` on a `Decimal` can fail (bad hex). -/

/-- `write_length_prefixed_string` (`bytes.len() as i32` then the bytes). -/
def writeLengthPrefixedString (s : List Nat) : List Nat :=
  writeVLI (toSigned32 s.length) ++ s

/-- `write_class_info`. -/
def writeClassInfo (info : ClassInfo) : List Nat :=
  i32Bytes info.object_id ++ writeLengthPrefixedString info.name ++
    i32Bytes info.member_count ++ (info.member_names.map writeLengthPrefixedString).flatten

/-- The `AdditionalTypeInfo` emission shared by `write_member_type_info`
and `write_binary_array`. -/
def writeAdditionalInfo : AdditionalTypeInfo → List Nat
  | .primitive pt => [pt.val]
  | .systemClass s => writeLengthPrefixedString s
  | .classType c => writeLengthPrefixedString c.type_name ++ i32Bytes c.library_id
  | .none => []

/-- `write_member_type_info`. -/
def writeMemberTypeInfo (info : MemberTypeInfo) : List Nat :=
  info.binary_type_enums.map BinaryType.val ++
    (info.additional_infos.map writeAdditionalInfo).flatten

/-- `write_primitive_value`. `byte`, `char` and `sbyte` emit the low byte
(`as u8`); the zero-width `Null` writes nothing. -/
def writePrimitiveValue : PrimitiveValue → Except Err (List Nat)
  | .boolean b => .ok [if b then 1 else 0]
  | .byte n => .ok [n % 256]
  | .char c => .ok [c % 256]
  | .int16 v => .ok (i16Bytes v)
  | .int32 v => .ok (i32Bytes v)
  | .int64 v => .ok (i64Bytes v)
  | .sbyte v => .ok [(v % 256).toNat]
  | .single bits => .ok (leBytes4 bits)
  | .double bits => .ok (leBytes8 bits)
  | .timeSpan v => .ok (i64Bytes v)
  | .dateTime u => .ok (leBytes8 u)
  | .uint16 n => .ok (leBytes2 n)
  | .uint32 n => .ok (leBytes4 n)
  | .uint64 n => .ok (leBytes8 n)
  | .string s => .ok (writeLengthPrefixedString s)
  | .decimal s =>
    match hexDecode s with
    | Option.none => .error (.custom "Invalid hex for Decimal")
    | some bytes =>
      if bytes.length = 16 then .ok bytes
      else .error (.custom "Decimal must be 16 bytes")
  | .null => .ok []

/-- Element loop of `ArraySinglePrimitive` emission. -/
def encodePrimitiveValues : List PrimitiveValue → Except Err (List Nat)
  | [] => .ok []
  | p :: rest => do
    let hd ← writePrimitiveValue p
    let tl ← encodePrimitiveValues rest
    pure (hd ++ tl)

mutual

/-- `Encoder::encode`: tag byte followed by the fields in read order. -/
def encodeRecord : Record → Except Err (List Nat)
  | .serializationHeader h =>
    .ok ([0] ++ i32Bytes h.root_id ++ i32Bytes h.header_id ++
      i32Bytes h.major_version ++ i32Bytes h.minor_version)
  | .binaryLibrary l =>
    .ok ([12] ++ i32Bytes l.library_id ++ writeLengthPrefixedString l.library_name)
  | .classWithMembersAndTypes ci mti lid vals => do
    let tail ← encodeObjectValues vals
    pure ([5] ++ writeClassInfo ci ++ writeMemberTypeInfo mti ++ i32Bytes lid ++ tail)
  | .systemClassWithMembersAndTypes ci mti vals => do
    let tail ← encodeObjectValues vals
    pure ([4] ++ writeClassInfo ci ++ writeMemberTypeInfo mti ++ tail)
  | .systemClassWithMembers ci vals => do
    let tail ← encodeObjectValues vals
    pure ([2] ++ writeClassInfo ci ++ tail)
  | .classWithMembers ci lid vals => do
    let tail ← encodeObjectValues vals
    pure ([3] ++ writeClassInfo ci ++ i32Bytes lid ++ tail)
  | .classWithId oid mid vals => do
    let tail ← encodeObjectValues vals
    pure ([1] ++ i32Bytes oid ++ i32Bytes mid ++ tail)
  | .binaryObjectString oid v =>
    .ok ([6] ++ i32Bytes oid ++ writeLengthPrefixedString v)
  | .binaryArray oid bate rank lengths lb te ati elems => do
    let tail ← encodeObjectValues elems
    pure ([7] ++ i32Bytes oid ++ [bate % 256] ++ i32Bytes rank ++
      (lengths.map i32Bytes).flatten ++
      (match lb with
       | some bs => (bs.map i32Bytes).flatten
       | Option.none => []) ++
      [te.val] ++ writeAdditionalInfo ati ++ tail)
  | .arraySingleObject oid len vals => do
    let tail ← encodeObjectValues vals
    pure ([16] ++ i32Bytes oid ++ i32Bytes len ++ tail)
  | .arraySinglePrimitive oid len pt elems => do
    let tail ← encodePrimitiveValues elems
    pure ([15] ++ i32Bytes oid ++ i32Bytes len ++ [pt.val] ++ tail)
  | .arraySingleString oid len vals => do
    let tail ← encodeObjectValues vals
    pure ([17] ++ i32Bytes oid ++ i32Bytes len ++ tail)
  | .memberPrimitiveTyped pt v => do
    let tail ← writePrimitiveValue v
    pure ([8] ++ [pt.val] ++ tail)
  | .memberReference idr => .ok ([9] ++ i32Bytes idr)
  | .objectNull => .ok [10]
  | .objectNullMultiple c => .ok ([14] ++ i32Bytes c)
  | .objectNullMultiple256 c => .ok ([13] ++ [c % 256])
  | .messageEnd => .ok [11]

/-- `write_object_value`: a bare `Primitive(Null)` is written as an
`ObjectNull` record tag; other primitives as raw bytes; records recursively. -/
def encodeObjectValue : ObjectValue → Except Err (List Nat)
  | .primitive .null => .ok [10]
  | .primitive p => writePrimitiveValue p
  | .record r => encodeRecord r

/-- Member/element emission loops. -/
def encodeObjectValues : List ObjectValue → Except Err (List Nat)
  | [] => .ok []
  | v :: rest => do
    let hd ← encodeObjectValue v
    let tl ← encodeObjectValues rest
    pure (hd ++ tl)

end

/-- Encode a record sequence (the `round_trip` CLI writes records one
after another). -/
def encodeRecords : List Record → Except Err (List Nat)
  | [] => .ok []
  | r :: rest => do
    let hd ← encodeRecord r
    let tl ← encodeRecords rest
    pure (hd ++ tl)

/-! ## Symbolic execution helpers -/

theorem Dec.bind_ok {α β : Type} {m : Dec α} {f : α → Dec β} {st : DecSt} {a : α}
    {st' : DecSt} (h : m st = .ok (a, st')) : (m >>= f) st = f a st' := by
  show (Bind.bind m f) st = f a st'
  simp only [Bind.bind, Monad.toBind, instMonadDec, h]

theorem Dec.bind_error {α β : Type} {m : Dec α} {f : α → Dec β} {st : DecSt} {e : Err}
    (h : m st = .error e) : (m >>= f) st = .error e := by
  show (Bind.bind m f) st = .error e
  simp only [Bind.bind, Monad.toBind, instMonadDec, h]

theorem readU8_cons (b : Nat) (rest : List Nat) (m : List (Int × ClassInfoWithTypes))
    (l : List (Int × List Nat)) :
    readU8 ⟨b :: rest, m, l⟩ = .ok (b % 256, ⟨rest, m, l⟩) := rfl

theorem readU8_nil (m : List (Int × ClassInfoWithTypes)) (l : List (Int × List Nat)) :
    readU8 ⟨[], m, l⟩ = .error .io := rfl

theorem wrap32_lt (v : Int) : wrap32 v < 4294967296 := by
  unfold wrap32
  omega

/-- Reading back four little-endian bytes of an in-range `i32`. -/
theorem readI32_bytes (v : Int) (h1 : -2147483648 ≤ v) (h2 : v < 2147483648)
    (rest : List Nat) (m : List (Int × ClassInfoWithTypes)) (l : List (Int × List Nat)) :
    readI32 ⟨i32Bytes v ++ rest, m, l⟩ = .ok (v, ⟨rest, m, l⟩) := by
  have hw := wrap32_lt v
  simp only [readI32, i32Bytes, leBytes4, List.cons_append, List.nil_append]
  rw [Dec.bind_ok (readU8_cons ..), Dec.bind_ok (readU8_cons ..),
    Dec.bind_ok (readU8_cons ..), Dec.bind_ok (readU8_cons ..), Dec.pure_def]
  have he : wrap32 v % 256 % 256 + 256 * (wrap32 v / 256 % 256 % 256) +
      65536 * (wrap32 v / 65536 % 256 % 256) +
      16777216 * (wrap32 v / 16777216 % 256 % 256) = wrap32 v := by
    omega
  rw [he, toSigned32_wrap32 v h1 h2]

theorem toSigned32_small (n : Nat) (h : n < 2147483648) : toSigned32 n = (n : Int) := by
  unfold toSigned32
  split <;> omega

/-- Round-trip of the LEB128 loop, generalised over the accumulator. -/
theorem readVLIAux_writeVLI (x : Nat) :
    ∀ (shift value : Nat) (rest : List Nat) (m : List (Int × ClassInfoWithTypes))
      (l : List (Int × List Nat)),
      value < 2 ^ shift → value + x * 2 ^ shift < 2147483648 →
      readVLIAux value shift ⟨writeVLI (x : Int) ++ rest, m, l⟩ =
        .ok (((value + x * 2 ^ shift : Nat) : Int), ⟨rest, m, l⟩) := by
  induction x using Nat.strong_induction_on with
  | _ x ih =>
    intro shift value rest m l hv hx
    have hxmod : ((x : Int) % 128).toNat = x % 128 := by omega
    have hxdiv : (x : Int) / 128 = ((x / 128 : Nat) : Int) := by omega
    rw [writeVLI]
    simp only [hxmod, hxdiv]
    rcases Nat.lt_or_ge x 128 with hx128 | hx128
    · have hdivz : ¬(0 : Int) < ((x / 128 : Nat) : Int) := by
        have : x / 128 = 0 := Nat.div_eq_of_lt hx128
        omega
      rw [dif_neg hdivz]
      have hxm : x % 128 = x := Nat.mod_eq_of_lt hx128
      rw [hxm]
      rw [readVLIAux]
      simp only [List.cons_append, List.nil_append]
      rw [Dec.bind_ok (readU8_cons ..)]
      have hx256 : x % 256 = x := Nat.mod_eq_of_lt (by omega)
      simp only [hx256, hxm]
      have hxs : x * 2 ^ shift % 4294967296 = x * 2 ^ shift :=
        Nat.mod_eq_of_lt (by omega)
      rw [hxs, if_pos hx128, Dec.pure_def]
      have hlor : value ||| x * 2 ^ shift = value + x * 2 ^ shift := by
        rw [Nat.lor_comm, Nat.mul_comm x (2 ^ shift), ← Nat.mul_add_lt_is_or hv x]
        omega
      rw [hlor, toSigned32_small _ hx]
    · have hdivp : (0 : Int) < ((x / 128 : Nat) : Int) := by
        have : 1 ≤ x / 128 := Nat.one_le_div_iff (by omega) |>.mpr hx128
        omega
      rw [dif_pos hdivp]
      rw [readVLIAux]
      simp only [List.cons_append]
      rw [Dec.bind_ok (readU8_cons ..)]
      have hb256 : (x % 128 + 128) % 256 = x % 128 + 128 := Nat.mod_eq_of_lt (by omega)
      simp only [hb256]
      have hb128 : (x % 128 + 128) % 128 = x % 128 := by omega
      rw [hb128]
      rw [if_neg (by omega : ¬(x % 128 + 128 < 128))]
      have hshift : 2 ^ (shift + 7) ≤ x * 2 ^ shift := by
        calc 2 ^ (shift + 7) = 128 * 2 ^ shift := by rw [Nat.pow_add]; ring
        _ ≤ x * 2 ^ shift := Nat.mul_le_mul_right _ hx128
      have hshlt : shift + 7 < 31 := by
        have h1 : 2 ^ (shift + 7) < 2 ^ 31 := by
          calc 2 ^ (shift + 7) ≤ x * 2 ^ shift := hshift
          _ < 2147483648 := by omega
          _ = 2 ^ 31 := by norm_num
        exact (Nat.pow_lt_pow_iff_right (by omega)).mp h1
      rw [dif_neg (by omega : ¬ 35 ≤ shift + 7)]
      have hmod : x % 128 * 2 ^ shift % 4294967296 = x % 128 * 2 ^ shift := by
        apply Nat.mod_eq_of_lt
        have : x % 128 * 2 ^ shift ≤ x * 2 ^ shift := Nat.mul_le_mul_right _ (by omega)
        omega
      rw [hmod]
      have hlor : value ||| x % 128 * 2 ^ shift = value + x % 128 * 2 ^ shift := by
        rw [Nat.lor_comm, Nat.mul_comm (x % 128) (2 ^ shift),
          ← Nat.mul_add_lt_is_or hv (x % 128)]
        omega
      rw [hlor]
      have hpow7 : (2 : Nat) ^ (shift + 7) = 2 ^ shift * 128 := by
        rw [Nat.pow_add]
      have hxsplit : x % 128 * 2 ^ shift + x / 128 * (2 ^ shift * 128) = x * 2 ^ shift := by
        have hx' : x % 128 + x / 128 * 128 = x := by omega
        calc x % 128 * 2 ^ shift + x / 128 * (2 ^ shift * 128)
            = (x % 128 + x / 128 * 128) * 2 ^ shift := by ring
        _ = x * 2 ^ shift := by rw [hx']
      have ih' := ih (x / 128) (Nat.div_lt_self (by omega) (by omega)) (shift + 7)
        (value + x % 128 * 2 ^ shift) rest m l ?_ ?_
      · rw [ih']
        congr 2
        rw [hpow7]
        omega
      · rw [hpow7]
        have h2 : x % 128 * 2 ^ shift ≤ 127 * 2 ^ shift :=
          Nat.mul_le_mul_right _ (by omega)
        have h3 : (0 : Nat) < 2 ^ shift := Nat.pos_pow_of_pos _ (by omega)
        calc value + x % 128 * 2 ^ shift < 2 ^ shift + 127 * 2 ^ shift := by omega
        _ = 2 ^ shift * 128 := by ring
      · rw [hpow7]
        omega

/-- A continuation byte advances the VLQ loop when the shift stays in range. -/
theorem readVLIAux_cont_step (value shift b : Nat) (rest : List Nat)
    (m : List (Int × ClassInfoWithTypes)) (l : List (Int × List Nat))
    (hb : 128 ≤ b) (hb' : b < 256) (hs : shift + 7 < 35) :
    readVLIAux value shift ⟨b :: rest, m, l⟩ =
      readVLIAux (value ||| b % 128 * 2 ^ shift % 4294967296) (shift + 7) ⟨rest, m, l⟩ := by
  rw [readVLIAux]
  rw [Dec.bind_ok (readU8_cons ..), Nat.mod_eq_of_lt hb']
  rw [if_neg (by omega : ¬ b < 128), dif_neg (by omega : ¬ 35 ≤ shift + 7)]

/-- A continuation byte at shift 28 exhausts the five-byte budget. -/
theorem readVLIAux_cont_last (value shift b : Nat) (rest : List Nat)
    (m : List (Int × ClassInfoWithTypes)) (l : List (Int × List Nat))
    (hb : 128 ≤ b) (hb' : b < 256) (hs : 35 ≤ shift + 7) :
    readVLIAux value shift ⟨b :: rest, m, l⟩ =
      .error (.custom "Variable length int too long") := by
  rw [readVLIAux]
  rw [Dec.bind_ok (readU8_cons ..), Nat.mod_eq_of_lt hb']
  rw [if_neg (by omega : ¬ b < 128), dif_pos hs]
  rfl

/-- C6: `write_variable_length_int` followed by `read_variable_length_int`
is the identity on every non-negative `i32` below `2^31`, for any registry
state and any following bytes; and the reader fails with the
"too long" error as soon as a fifth byte carries the continuation bit
(which would demand a sixth byte). -/
theorem c6_vlq_roundtrip :
    (∀ (x : Int) (rest : List Nat) (m : List (Int × ClassInfoWithTypes))
      (l : List (Int × List Nat)), 0 ≤ x → x < 2147483648 →
      readVLI ⟨writeVLI x ++ rest, m, l⟩ = .ok (x, ⟨rest, m, l⟩)) ∧
    (∀ (b0 b1 b2 b3 b4 : Nat) (rest : List Nat) (m : List (Int × ClassInfoWithTypes))
      (l : List (Int × List Nat)),
      128 ≤ b0 → b0 < 256 → 128 ≤ b1 → b1 < 256 → 128 ≤ b2 → b2 < 256 →
      128 ≤ b3 → b3 < 256 → 128 ≤ b4 → b4 < 256 →
      readVLI ⟨b0 :: b1 :: b2 :: b3 :: b4 :: rest, m, l⟩ =
        .error (.custom "Variable length int too long")) := by
  constructor
  · intro x rest m l hx0 hx31
    have hx : x = ((x.toNat : Nat) : Int) := by omega
    rw [hx]
    unfold readVLI
    have h := readVLIAux_writeVLI x.toNat 0 0 rest m l (by norm_num) (by omega)
    rw [h, show (0 + x.toNat * 2 ^ 0 : Nat) = x.toNat from by norm_num]
  · intro b0 b1 b2 b3 b4 rest m l h0 h0' h1 h1' h2 h2' h3 h3' h4 h4'
    unfold readVLI
    rw [readVLIAux_cont_step _ _ _ _ _ _ h0 h0' (by omega),
      readVLIAux_cont_step _ _ _ _ _ _ h1 h1' (by omega),
      readVLIAux_cont_step _ _ _ _ _ _ h2 h2' (by omega),
      readVLIAux_cont_step _ _ _ _ _ _ h3 h3' (by omega),
      readVLIAux_cont_last _ _ _ _ _ _ h4 h4' (by omega)]

/-- Witness for C6 at `x = 300` and at five concrete continuation bytes. -/
theorem c6_vlq_roundtrip_witness :
    readVLI ⟨writeVLI 300 ++ [7], [], []⟩ = .ok (300, ⟨[7], [], []⟩) ∧
    readVLI ⟨(128 : Nat) :: 129 :: 130 :: 131 :: 132 :: [0], [], []⟩ =
      .error (.custom "Variable length int too long") :=
  ⟨c6_vlq_roundtrip.1 300 [7] [] [] (by norm_num) (by norm_num),
   c6_vlq_roundtrip.2 128 129 130 131 132 [0] [] [] (by norm_num) (by norm_num)
     (by norm_num) (by norm_num) (by norm_num) (by norm_num) (by norm_num)
     (by norm_num) (by norm_num) (by norm_num)⟩

instance {ε α : Type} [DecidableEq ε] [DecidableEq α] : DecidableEq (Except ε α) := fun x y =>
  match x, y with
  | .ok a, .ok b =>
    if h : a = b then .isTrue (by rw [h]) else .isFalse (fun hc => h (Except.ok.inj hc))
  | .error e, .error e' =>
    if h : e = e' then .isTrue (by rw [h]) else .isFalse (fun hc => h (Except.error.inj hc))
  | .ok _, .error _ => .isFalse (fun hc => Except.noConfusion hc)
  | .error _, .ok _ => .isFalse (fun hc => Except.noConfusion hc)

/-- C5: for every byte, the `TryFrom<u8>` conversions succeed exactly on
the listed tag values (`{0..17, 21, 22}` for RecordType, `{0..7}` for
BinaryType, `{1..3, 5..18}` for PrimitiveType) and return the
corresponding `Invalid*Type` error on every other byte. -/
theorem c5_tag_enums :
    ∀ b : Fin 256,
      ((RecordType.fromByte b.val).isOk ↔ (b.val ≤ 17 ∨ b.val = 21 ∨ b.val = 22)) ∧
      (RecordType.fromByte b.val = .error (.invalidRecordType b.val) ↔
        ¬(b.val ≤ 17 ∨ b.val = 21 ∨ b.val = 22)) ∧
      ((BinaryType.fromByte b.val).isOk ↔ b.val ≤ 7) ∧
      (BinaryType.fromByte b.val = .error (.invalidBinaryType b.val) ↔ ¬ b.val ≤ 7) ∧
      ((PrimitiveType.fromByte b.val).isOk ↔ (1 ≤ b.val ∧ b.val ≤ 18 ∧ b.val ≠ 4)) ∧
      (PrimitiveType.fromByte b.val = .error (.invalidPrimitiveType b.val) ↔
        ¬(1 ≤ b.val ∧ b.val ≤ 18 ∧ b.val ≠ 4)) := by
  set_option maxRecDepth 4096 in decide

/-- `read_exact` of `pre.length` bytes consumes exactly `pre`. -/
theorem readBytes_exact (pre : List Nat) :
    ∀ (rest : List Nat) (m : List (Int × ClassInfoWithTypes)) (l : List (Int × List Nat)),
      (∀ b ∈ pre, b < 256) →
      readBytes pre.length ⟨pre ++ rest, m, l⟩ = .ok (pre, ⟨rest, m, l⟩) := by
  induction pre with
  | nil => intro rest m l _; rfl
  | cons b tl ih =>
    intro rest m l hb
    have hblt : b < 256 := hb b (by simp)
    simp only [List.length_cons, List.cons_append, readBytes]
    rw [Dec.bind_ok (readU8_cons ..), Dec.bind_ok (ih rest m l (fun x hx => hb x (by simp [hx]))),
      Dec.pure_def, Nat.mod_eq_of_lt hblt]

/-- C7: `read_length_prefixed_string` reads a variable-length-int length;
a negative length fails with `InvalidStringLength` carrying it, length 0
returns the empty string without consuming further bytes, a non-UTF-8
payload fails with `InvalidUtf8`, and otherwise exactly `length` bytes are
consumed and returned. -/
theorem c7_length_prefixed_string :
    (∀ (st st₁ : DecSt) (len : Int), readVLI st = .ok (len, st₁) → len < 0 →
      readLengthPrefixedString st = .error (.invalidStringLength len)) ∧
    (∀ (st st₁ : DecSt), readVLI st = .ok (0, st₁) →
      readLengthPrefixedString st = .ok ([], st₁)) ∧
    (∀ (st : DecSt) (len : Int) (pre rest : List Nat)
      (m : List (Int × ClassInfoWithTypes)) (l : List (Int × List Nat)),
      readVLI st = .ok (len, ⟨pre ++ rest, m, l⟩) → 0 < len →
      (pre.length : Int) = len → (∀ b ∈ pre, b < 256) → isValidUtf8 pre = true →
      readLengthPrefixedString st = .ok (pre, ⟨rest, m, l⟩)) ∧
    (∀ (st : DecSt) (len : Int) (pre rest : List Nat)
      (m : List (Int × ClassInfoWithTypes)) (l : List (Int × List Nat)),
      readVLI st = .ok (len, ⟨pre ++ rest, m, l⟩) → 0 < len →
      (pre.length : Int) = len → (∀ b ∈ pre, b < 256) → isValidUtf8 pre = false →
      readLengthPrefixedString st = .error .invalidUtf8) := by
  refine ⟨?_, ?_, ?_, ?_⟩
  · intro st st₁ len h hneg
    unfold readLengthPrefixedString
    rw [Dec.bind_ok h, if_pos hneg]
    rfl
  · intro st st₁ h
    unfold readLengthPrefixedString
    rw [Dec.bind_ok h, if_neg (by omega : ¬ (0 : Int) < 0)]
    rfl
  · intro st len pre rest m l h hpos hlen hbytes hutf8
    unfold readLengthPrefixedString
    rw [Dec.bind_ok h, if_neg (by omega : ¬ len < 0), if_neg (by omega : ¬ len = 0)]
    have hlt : len.toNat = pre.length := by omega
    rw [hlt, Dec.bind_ok (readBytes_exact pre rest m l hbytes), hutf8]
    rfl
  · intro st len pre rest m l h hpos hlen hbytes hutf8
    unfold readLengthPrefixedString
    rw [Dec.bind_ok h, if_neg (by omega : ¬ len < 0), if_neg (by omega : ¬ len = 0)]
    have hlt : len.toNat = pre.length := by omega
    rw [hlt, Dec.bind_ok (readBytes_exact pre rest m l hbytes), hutf8]
    rfl

/-- Witness for C7: a 2-byte string "hi", a negative length (5-byte VLQ of
-1), a zero length, and an invalid UTF-8 payload. -/
theorem c7_length_prefixed_string_witness :
    readLengthPrefixedString ⟨[2, 104, 105, 9], [], []⟩ =
      .ok ([104, 105], ⟨[9], [], []⟩) ∧
    readLengthPrefixedString ⟨[255, 255, 255, 255, 15], [], []⟩ =
      .error (.invalidStringLength (-1)) ∧
    readLengthPrefixedString ⟨[0, 7], [], []⟩ = .ok ([], ⟨[7], [], []⟩) ∧
    readLengthPrefixedString ⟨[1, 255], [], []⟩ = .error .invalidUtf8 := by
  have hv2 : readVLI ⟨[2, 104, 105, 9], [], []⟩ =
      .ok (2, ⟨[104, 105] ++ [9], [], []⟩) := by
    simp [readVLI, readVLIAux, readU8, Bind.bind, toSigned32, Pure.pure]
  have hvneg : readVLI ⟨[255, 255, 255, 255, 15], [], []⟩ =
      .ok (-1, ⟨[], [], []⟩) := by
    simp [readVLI, readVLIAux, readU8, Bind.bind, toSigned32, Pure.pure]
  have hv0 : readVLI ⟨[0, 7], [], []⟩ = .ok (0, ⟨[7], [], []⟩) := by
    simp [readVLI, readVLIAux, readU8, Bind.bind, toSigned32, Pure.pure]
  have hv1 : readVLI ⟨[1, 255], [], []⟩ = .ok (1, ⟨[255] ++ [], [], []⟩) := by
    simp [readVLI, readVLIAux, readU8, Bind.bind, toSigned32, Pure.pure]
  refine ⟨?_, ?_, ?_, ?_⟩
  · exact c7_length_prefixed_string.2.2.1 _ 2 [104, 105] [9] [] []
      hv2 (by decide) (by decide) (by decide) (by decide)
  · exact c7_length_prefixed_string.1 _ ⟨[], [], []⟩ (-1) hvneg (by decide)
  · exact c7_length_prefixed_string.2.1 _ ⟨[7], [], []⟩ hv0
  · exact c7_length_prefixed_string.2.2.2 _ 1 [255] [] [] []
      hv1 (by decide) (by decide) (by decide) (by decide)

/-- On success, the element loop fills at least the requested number of
slots (an overshooting null run can fill more). -/
theorem readAllElementsAux_length (f : Nat) (count : Int) (bt : BinaryType)
    (ai : AdditionalTypeInfo) :
    ∀ (sf : Nat) (i : Int) (st st' : DecSt) (vals : List ObjectValue),
      readAllElementsAux f sf count i bt ai st = .ok (vals, st') →
      (count - i).toNat ≤ vals.length := by
  intro sf
  induction sf with
  | zero =>
    intro i st st' vals h
    rw [readAllElementsAux] at h
    split at h
    · exact absurd h (by simp [Nrbf.throwE])
    · simp only [Dec.pure_def, Except.ok.injEq, Prod.mk.injEq] at h
      omega
  | succ sf ih =>
    intro i st st' vals h
    rw [readAllElementsAux] at h
    split at h
    case isTrue hi =>
      rw [Dec.bind_def] at h
      split at h
      · exact absurd h (by simp)
      case _ val st₁ heq =>
        split at h
        case _ c =>
          rw [Dec.bind_def] at h
          split at h
          · exact absurd h (by simp)
          case _ rest st₂ heq₂ =>
            simp only [Dec.pure_def, Except.ok.injEq, Prod.mk.injEq] at h
            obtain ⟨hv, hst⟩ := h
            have := ih (i + (c.toNat : Int)) st₁ st₂ rest heq₂
            subst hv
            simp only [List.length_append, List.length_replicate]
            omega
        case _ c =>
          rw [Dec.bind_def] at h
          split at h
          · exact absurd h (by simp)
          case _ rest st₂ heq₂ =>
            simp only [Dec.pure_def, Except.ok.injEq, Prod.mk.injEq] at h
            obtain ⟨hv, hst⟩ := h
            have := ih (i + (c : Int)) st₁ st₂ rest heq₂
            subst hv
            simp only [List.length_append, List.length_replicate]
            omega
        case _ =>
          rw [Dec.bind_def] at h
          split at h
          · exact absurd h (by simp)
          case _ rest st₂ heq₂ =>
            simp only [Dec.pure_def, Except.ok.injEq, Prod.mk.injEq] at h
            obtain ⟨hv, hst⟩ := h
            have := ih (i + 1) st₁ st₂ rest heq₂
            subst hv
            simp only [List.length_cons]
            omega
        case _ =>
          rw [Dec.bind_def] at h
          split at h
          · exact absurd h (by simp)
          case _ rest st₂ heq₂ =>
            simp only [Dec.pure_def, Except.ok.injEq, Prod.mk.injEq] at h
            obtain ⟨hv, hst⟩ := h
            have := ih (i + 1) st₁ st₂ rest heq₂
            subst hv
            simp only [List.length_cons]
            omega
    case isFalse hi =>
      simp only [Dec.pure_def, Except.ok.injEq, Prod.mk.injEq] at h
      omega

/-! ## Byte-level round-trip facts -/

theorem leBytes2_lt (n : Nat) : ∀ b ∈ leBytes2 n, b < 256 := by
  intro b hb
  simp only [leBytes2, List.mem_cons, List.not_mem_nil, or_false] at hb
  rcases hb with h | h <;> omega

theorem leBytes4_lt (n : Nat) : ∀ b ∈ leBytes4 n, b < 256 := by
  intro b hb
  simp only [leBytes4, List.mem_cons, List.not_mem_nil, or_false] at hb
  rcases hb with h | h | h | h <;> omega

theorem leBytes8_lt (n : Nat) : ∀ b ∈ leBytes8 n, b < 256 := by
  intro b hb
  simp only [leBytes8, List.mem_cons, List.not_mem_nil, or_false] at hb
  rcases hb with h | h | h | h | h | h | h | h <;> omega

theorem leVal_leBytes2 (n : Nat) : leVal (leBytes2 n) = n % 65536 := by
  simp only [leBytes2, leVal]
  omega

theorem leVal_leBytes4 (n : Nat) : leVal (leBytes4 n) = n % 4294967296 := by
  simp only [leBytes4, leVal]
  omega

theorem leVal_leBytes8 (n : Nat) : leVal (leBytes8 n) = n % 18446744073709551616 := by
  simp only [leBytes8, leVal]
  omega

theorem toSigned_i16 (v : Int) (h1 : -32768 ≤ v) (h2 : v < 32768) :
    toSigned 65536 ((v % 65536).toNat % 65536) = v := by
  unfold toSigned
  split <;> omega

theorem toSigned_i64 (v : Int) (h1 : -9223372036854775808 ≤ v)
    (h2 : v < 9223372036854775808) :
    toSigned 18446744073709551616
      ((v % 18446744073709551616).toNat % 18446744073709551616) = v := by
  unfold toSigned
  split <;> omega

theorem toSigned_i8 (v : Int) (h1 : -128 ≤ v) (h2 : v < 128) :
    toSigned 256 ((v % 256).toNat % 256) = v := by
  unfold toSigned
  split <;> omega

/-- `readBytes n` on an `n`-byte prefix of in-range bytes. -/
theorem readBytes_len (pre : List Nat) (rest : List Nat)
    (m : List (Int × ClassInfoWithTypes)) (l : List (Int × List Nat)) (k : Nat)
    (hk : k = pre.length) (hb : ∀ b ∈ pre, b < 256) :
    readBytes k ⟨pre ++ rest, m, l⟩ = .ok (pre, ⟨rest, m, l⟩) := by
  subst hk
  exact readBytes_exact pre rest m l hb

/-! ## Canonical well-formedness checker (specification side)

These definitions formalise the "well-formed NRBF stream" hypothesis of
property P1: a stream is well-formed when it is the canonical encoding of
a record sequence accepted by `checkRecords` — which is the shape a
reference serialiser produces: canonical LEB128 length prefixes, boolean
bytes 0/1, values matching their declared primitive widths, member and
element counts matching the declared counts, `ClassWithId` referring to a
registered metadata id, and null runs inside arrays written as repeated
`ObjectNull` records (the only physical form that is not ambiguous, per
the claim's carve-out). The checker threads the two registries exactly as
the decoder does. -/

/-- Registry type of the decoder's class metadata. -/
abbrev Reg := List (Int × ClassInfoWithTypes)

/-- Registry type of the decoder's libraries. -/
abbrev Libs := List (Int × List Nat)

/-- The value fits in an `i32`. -/
def i32ok (v : Int) : Bool := -2147483648 ≤ v && v < 2147483648

/-- A string the codec round-trips: valid UTF-8 bytes, length below `2^31`. -/
def lpsOk (s : List Nat) : Bool :=
  isValidUtf8 s && (s.length : Int) < 2147483648 && s.all (· < 256)

/-- Canonical `ClassInfo`: counts agree, strings are round-trippable. -/
def checkClassInfo (ci : ClassInfo) : Bool :=
  i32ok ci.object_id && lpsOk ci.name && i32ok ci.member_count &&
    ((ci.member_names.length : Int) == ci.member_count) && ci.member_names.all lpsOk

/-- The `AdditionalTypeInfo` variant the decoder reads for each
`BinaryType` (`Primitive` with the zero-width `Null` excluded: a
`Null`-typed member reads no bytes but re-encodes as an `ObjectNull` tag). -/
def entryOk : BinaryType → AdditionalTypeInfo → Bool
  | .primitive, .primitive pt => !(pt == .null)
  | .systemClass, .systemClass s => lpsOk s
  | .classType, .classType c => lpsOk c.type_name && i32ok c.library_id
  | .string, .none => true
  | .object, .none => true
  | .objectArray, .none => true
  | .stringArray, .none => true
  | .primitiveArray, .none => true
  | _, _ => false

/-- Canonical `MemberTypeInfo` for a class with `count` members. -/
def checkMti (mti : MemberTypeInfo) (count : Int) : Bool :=
  ((mti.binary_type_enums.length : Int) == count) &&
    ((mti.additional_infos.length : Int) == count) &&
    (List.zip mti.binary_type_enums mti.additional_infos).all fun p => entryOk p.1 p.2

/-- The primitive value matches its declared type and is in range (the
decoder stores `TimeSpan`/`DateTime` reads in the `Int64` variant, so
those types pair with `int64` values). -/
def primOk : PrimitiveType → PrimitiveValue → Bool
  | .boolean, .boolean _ => true
  | .byte, .byte n => n < 256
  | .char, .char c => c < 256
  | .decimal, .decimal s =>
    match hexDecode s with
    | some bs => bs.length == 16 && hexEncode bs == s
    | Option.none => false
  | .double, .double bits => bits < 18446744073709551616
  | .int16, .int16 v => -32768 ≤ v && v < 32768
  | .int32, .int32 v => i32ok v
  | .int64, .int64 v => -9223372036854775808 ≤ v && v < 9223372036854775808
  | .timeSpan, .int64 v => -9223372036854775808 ≤ v && v < 9223372036854775808
  | .dateTime, .int64 v => -9223372036854775808 ≤ v && v < 9223372036854775808
  | .sbyte, .sbyte v => -128 ≤ v && v < 128
  | .single, .single bits => bits < 4294967296
  | .uint16, .uint16 n => n < 65536
  | .uint32, .uint32 n => n < 4294967296
  | .uint64, .uint64 n => n < 18446744073709551616
  | .string, .string s => lpsOk s
  | .null, .null => true
  | _, _ => false

mutual

/-- Canonical-form check of one record, threading both registries the way
the decoder does. -/
def checkRecord (reg : Reg) (lr : Libs) : Record → Option (Reg × Libs)
  | .serializationHeader h =>
    if i32ok h.root_id && i32ok h.header_id && i32ok h.major_version &&
        i32ok h.minor_version then some (reg, lr) else Option.none
  | .binaryLibrary lb =>
    if i32ok lb.library_id && lpsOk lb.library_name then
      some (reg, regInsert lb.library_id lb.library_name lr)
    else Option.none
  | .classWithMembersAndTypes ci mti lid vals =>
    if checkClassInfo ci && checkMti mti ci.member_count && i32ok lid &&
        ((vals.length : Int) == ci.member_count) then
      checkValuesTyped (regInsert ci.object_id ⟨ci, some mti, some lid⟩ reg) lr
        (List.zip mti.binary_type_enums mti.additional_infos) vals
    else Option.none
  | .systemClassWithMembersAndTypes ci mti vals =>
    if checkClassInfo ci && checkMti mti ci.member_count &&
        ((vals.length : Int) == ci.member_count) then
      checkValuesTyped (regInsert ci.object_id ⟨ci, some mti, Option.none⟩ reg) lr
        (List.zip mti.binary_type_enums mti.additional_infos) vals
    else Option.none
  | .systemClassWithMembers ci vals =>
    if checkClassInfo ci && ((vals.length : Int) == ci.member_count) then
      checkValuesUntyped (regInsert ci.object_id ⟨ci, Option.none, Option.none⟩ reg) lr vals
    else Option.none
  | .classWithMembers ci lid vals =>
    if checkClassInfo ci && i32ok lid && ((vals.length : Int) == ci.member_count) then
      checkValuesUntyped (regInsert ci.object_id ⟨ci, Option.none, some lid⟩ reg) lr vals
    else Option.none
  | .classWithId oid mid vals =>
    if i32ok oid && i32ok mid then
      match regGet mid reg with
      | some info =>
        if (vals.length : Int) == info.class_info.member_count then
          match info.member_type_info with
          | some mti =>
            if ((mti.binary_type_enums.length : Int) == info.class_info.member_count) &&
                ((mti.additional_infos.length : Int) == info.class_info.member_count) then
              checkValuesTyped reg lr
                (List.zip mti.binary_type_enums mti.additional_infos) vals
            else Option.none
          | Option.none => checkValuesUntyped reg lr vals
        else Option.none
      | Option.none => Option.none
    else Option.none
  | .binaryObjectString oid v =>
    if i32ok oid && lpsOk v then some (reg, lr) else Option.none
  | .binaryArray oid bate rank lengths lb te ati elems =>
    if i32ok oid && bate < 256 && i32ok rank && ((lengths.length : Int) == rank) &&
        lengths.all i32ok &&
        (match lb with
         | some bs => (bate == 3 || bate == 4 || bate == 5) &&
             ((bs.length : Int) == rank) && bs.all i32ok
         | Option.none => !(bate == 3 || bate == 4 || bate == 5)) &&
        entryOk te ati && ((elems.length : Int) == wrapProduct lengths) then
      match te, ati with
      | .primitive, .primitive pt =>
        if elems.all (fun v =>
            match v with
            | .primitive p => primOk pt p
            | .record _ => false) then some (reg, lr) else Option.none
      | .primitive, _ => Option.none
      | _, _ => checkElements reg lr elems
    else Option.none
  | .arraySingleObject oid len elems =>
    if i32ok oid && i32ok len && ((elems.length : Int) == len) then
      checkElements reg lr elems
    else Option.none
  | .arraySinglePrimitive oid len pt elems =>
    if i32ok oid && i32ok len && ((elems.length : Int) == len) &&
        elems.all (primOk pt) then some (reg, lr) else Option.none
  | .arraySingleString oid len elems =>
    if i32ok oid && i32ok len && ((elems.length : Int) == len) then
      checkElements reg lr elems
    else Option.none
  | .memberPrimitiveTyped pt v =>
    if primOk pt v then some (reg, lr) else Option.none
  | .memberReference idr => if i32ok idr then some (reg, lr) else Option.none
  | .objectNull => some (reg, lr)
  | .objectNullMultiple c => if i32ok c then some (reg, lr) else Option.none
  | .objectNullMultiple256 c => if c < 256 then some (reg, lr) else Option.none
  | .messageEnd => some (reg, lr)

/-- Typed member values against their `(BinaryType, AdditionalTypeInfo)`
pairs. -/
def checkValuesTyped (reg : Reg) (lr : Libs) :
    List (BinaryType × AdditionalTypeInfo) → List ObjectValue → Option (Reg × Libs)
  | [], [] => some (reg, lr)
  | p :: ps, v :: vs =>
    match p.1, p.2, v with
    | .primitive, .primitive pt, .primitive pv =>
      if !(pt == .null) && primOk pt pv then checkValuesTyped reg lr ps vs
      else Option.none
    | .primitive, _, _ => Option.none
    | _, _, .record r =>
      match checkRecord reg lr r with
      | some (reg', lr') => checkValuesTyped reg' lr' ps vs
      | Option.none => Option.none
    | _, _, .primitive _ => Option.none
  | _, _ => Option.none

/-- Untyped member values: each one is a nested record. -/
def checkValuesUntyped (reg : Reg) (lr : Libs) :
    List ObjectValue → Option (Reg × Libs)
  | [] => some (reg, lr)
  | .record r :: vs =>
    match checkRecord reg lr r with
    | some (reg', lr') => checkValuesUntyped reg' lr' vs
    | Option.none => Option.none
  | .primitive _ :: _ => Option.none

/-- Object/string array elements: logical nulls are single `ObjectNull`
records on the wire (the canonical, unambiguous physical form), and no
null-run record appears as an element. -/
def checkElements (reg : Reg) (lr : Libs) : List ObjectValue → Option (Reg × Libs)
  | [] => some (reg, lr)
  | .primitive .null :: vs => checkElements reg lr vs
  | .primitive _ :: _ => Option.none
  | .record Record.objectNull :: _ => Option.none
  | .record (Record.objectNullMultiple _) :: _ => Option.none
  | .record (Record.objectNullMultiple256 _) :: _ => Option.none
  | .record r :: vs =>
    match checkRecord reg lr r with
    | some (reg', lr') => checkElements reg' lr' vs
    | Option.none => Option.none

end

/-- Canonical-form check of a record sequence. -/
def checkRecords (reg : Reg) (lr : Libs) : List Record → Option (Reg × Libs)
  | [] => some (reg, lr)
  | r :: rs =>
    match checkRecord reg lr r with
    | some (reg', lr') => checkRecords reg' lr' rs
    | Option.none => Option.none

/-! ## Component round-trips -/

theorem binaryType_fromByte_val (bt : BinaryType) : BinaryType.fromByte bt.val = .ok bt := by
  cases bt <;> rfl

theorem primitiveType_fromByte_val (pt : PrimitiveType) :
    PrimitiveType.fromByte pt.val = .ok pt := by
  cases pt <;> rfl

theorem recordType_fromByte_val (rt : RecordType) : RecordType.fromByte rt.val = .ok rt := by
  cases rt <;> rfl

/-- A canonical string round-trips through the length-prefixed coder. -/
theorem lps_roundTrip (s : List Nat) (h : lpsOk s = true) (rest : List Nat)
    (m : List (Int × ClassInfoWithTypes)) (l : List (Int × List Nat)) :
    readLengthPrefixedString ⟨writeLengthPrefixedString s ++ rest, m, l⟩ =
      .ok (s, ⟨rest, m, l⟩) := by
  simp only [lpsOk, Bool.and_eq_true, List.all_eq_true, decide_eq_true_eq] at h
  obtain ⟨⟨hutf, hlen⟩, hbytes⟩ := h
  unfold writeLengthPrefixedString
  rw [toSigned32_small _ (by omega), List.append_assoc]
  unfold readLengthPrefixedString
  rw [Dec.bind_ok (c6_vlq_roundtrip.1 (s.length : Int) (s ++ rest) m l (by omega) (by omega))]
  rw [if_neg (by omega : ¬ (s.length : Int) < 0)]
  rcases List.eq_nil_or_concat s with rfl | ⟨_, _, _⟩
  · rw [if_pos (by norm_num)]
    rfl
  · have hne : s ≠ [] := by simp_all
    have hlen0 : s.length ≠ 0 := by simpa using hne
    rw [if_neg (by omega : ¬ (s.length : Int) = 0)]
    have htn : (s.length : Int).toNat = s.length := by omega
    rw [htn, Dec.bind_ok (readBytes_exact s rest m l hbytes), hutf]
    rfl

theorem hexDigitVal_lt (c v : Nat) (h : hexDigitVal c = some v) : v < 16 := by
  unfold hexDigitVal at h
  split at h <;> try split at h
  all_goals first
  | (simp only [Option.some.injEq] at h; omega)
  | (split at h
     · simp only [Option.some.injEq] at h; omega
     · exact absurd h (by simp))
  | exact absurd h (by simp)

theorem hexDecode_lt (s : List Nat) : ∀ bs, hexDecode s = some bs → ∀ b ∈ bs, b < 256 := by
  induction s using hexDecode.induct with
  | case1 =>
    intro bs h
    simp only [hexDecode, Option.some.injEq] at h
    subst h
    simp
  | case2 x =>
    intro bs h
    exact absurd h (by simp [hexDecode])
  | case3 c d rest ih =>
    intro bs h
    cases hhi : hexDigitVal c with
    | none =>
      simp only [hexDecode, hhi, bind, Option.bind] at h
      exact absurd h (by simp)
    | some hi =>
      cases hlo : hexDigitVal d with
      | none =>
        simp only [hexDecode, hhi, hlo, bind, Option.bind] at h
        exact absurd h (by simp)
      | some lo =>
        cases htail : hexDecode rest with
        | none =>
          simp only [hexDecode, hhi, hlo, htail, bind, Option.bind] at h
          exact absurd h (by simp)
        | some tail =>
          simp only [hexDecode, hhi, hlo, htail, bind, Option.bind, pure,
            Option.some.injEq] at h
          subst h
          intro b hb
          rcases List.mem_cons.mp hb with rfl | hb
          · have h1 := hexDigitVal_lt _ _ hhi
            have h2 := hexDigitVal_lt _ _ hlo
            omega
          · exact ih tail htail b hb

/-- A well-typed primitive value encodes successfully and reads back as
itself. -/
theorem primRoundTrip (pt : PrimitiveType) (p : PrimitiveValue) (h : primOk pt p = true) :
    ∃ bs, writePrimitiveValue p = .ok bs ∧
      ∀ (rest : List Nat) (m : List (Int × ClassInfoWithTypes)) (l : List (Int × List Nat)),
        readPrimitiveValue pt ⟨bs ++ rest, m, l⟩ = .ok (p, ⟨rest, m, l⟩) := by
  cases pt
  case boolean =>
    cases p <;> simp only [primOk, Bool.and_eq_true, decide_eq_true_eq, Bool.false_eq_true] at h
    case boolean b =>
      refine ⟨[if b then 1 else 0], rfl, fun rest m l => ?_⟩
      cases b <;> rfl
  case byte =>
    cases p <;> simp only [primOk, Bool.and_eq_true, decide_eq_true_eq, Bool.false_eq_true] at h
    case byte n =>
      refine ⟨[n % 256], rfl, fun rest m l => ?_⟩
      simp only [readPrimitiveValue, List.cons_append]
      rw [Dec.bind_ok (readU8_cons ..), Dec.pure_def]
      rw [show n % 256 % 256 = n by omega]
      simp
  case char =>
    cases p <;> simp only [primOk, Bool.and_eq_true, decide_eq_true_eq, Bool.false_eq_true] at h
    case char c =>
      refine ⟨[c % 256], rfl, fun rest m l => ?_⟩
      simp only [readPrimitiveValue, List.cons_append]
      rw [Dec.bind_ok (readU8_cons ..), Dec.pure_def]
      rw [show c % 256 % 256 = c by omega]
      simp
  case decimal =>
    cases p <;> simp only [primOk, Bool.and_eq_true, decide_eq_true_eq, Bool.false_eq_true] at h
    case decimal s =>
      cases hdec : hexDecode s with
      | none => rw [hdec] at h; simp at h
      | some bs0 =>
        rw [hdec] at h
        simp only [Bool.and_eq_true, beq_iff_eq] at h
        obtain ⟨hlen, henc⟩ := h
        refine ⟨bs0, ?_, fun rest m l => ?_⟩
        · simp only [writePrimitiveValue, hdec]
          rw [if_pos hlen]
        · simp only [readPrimitiveValue]
          rw [Dec.bind_ok (readBytes_len bs0 rest m l 16 hlen.symm (hexDecode_lt s bs0 hdec)),
            Dec.pure_def, henc]
  case double =>
    cases p <;> simp only [primOk, Bool.and_eq_true, decide_eq_true_eq, Bool.false_eq_true] at h
    case double bits =>
      refine ⟨leBytes8 bits, rfl, fun rest m l => ?_⟩
      simp only [readPrimitiveValue]
      rw [Dec.bind_ok (readBytes_len (leBytes8 bits) rest m l 8 (by simp [leBytes8])
        (leBytes8_lt bits)), Dec.pure_def, leVal_leBytes8]
      rw [show bits % 18446744073709551616 = bits by omega]
  case int16 =>
    cases p <;> simp only [primOk, Bool.and_eq_true, decide_eq_true_eq, Bool.false_eq_true] at h
    case int16 v =>
      refine ⟨i16Bytes v, rfl, fun rest m l => ?_⟩
      simp only [readPrimitiveValue, i16Bytes]
      rw [Dec.bind_ok (readBytes_len (leBytes2 ((v % 65536).toNat)) rest m l 2
        (by simp [leBytes2]) (leBytes2_lt _)), Dec.pure_def, leVal_leBytes2,
        toSigned_i16 v h.1 h.2]
  case int32 =>
    cases p <;> simp only [primOk, i32ok, Bool.and_eq_true, decide_eq_true_eq, Bool.false_eq_true] at h
    case int32 v =>
      refine ⟨i32Bytes v, rfl, fun rest m l => ?_⟩
      simp only [readPrimitiveValue]
      rw [Dec.bind_ok (readI32_bytes v h.1 h.2 rest m l), Dec.pure_def]
  case int64 =>
    cases p <;> simp only [primOk, Bool.and_eq_true, decide_eq_true_eq, Bool.false_eq_true] at h
    case int64 v =>
      refine ⟨i64Bytes v, rfl, fun rest m l => ?_⟩
      simp only [readPrimitiveValue, i64Bytes]
      rw [Dec.bind_ok (readBytes_len (leBytes8 ((v % 18446744073709551616).toNat)) rest m l 8
        (by simp [leBytes8]) (leBytes8_lt _)), Dec.pure_def, leVal_leBytes8,
        toSigned_i64 v h.1 h.2]
  case sbyte =>
    cases p <;> simp only [primOk, Bool.and_eq_true, decide_eq_true_eq, Bool.false_eq_true] at h
    case sbyte v =>
      refine ⟨[(v % 256).toNat], rfl, fun rest m l => ?_⟩
      simp only [readPrimitiveValue, List.cons_append]
      rw [Dec.bind_ok (readU8_cons ..), Dec.pure_def, toSigned_i8 v h.1 h.2]
      simp
  case single =>
    cases p <;> simp only [primOk, Bool.and_eq_true, decide_eq_true_eq, Bool.false_eq_true] at h
    case single bits =>
      refine ⟨leBytes4 bits, rfl, fun rest m l => ?_⟩
      simp only [readPrimitiveValue]
      rw [Dec.bind_ok (readBytes_len (leBytes4 bits) rest m l 4 (by simp [leBytes4])
        (leBytes4_lt bits)), Dec.pure_def, leVal_leBytes4]
      rw [show bits % 4294967296 = bits by omega]
  case timeSpan =>
    cases p <;> simp only [primOk, Bool.and_eq_true, decide_eq_true_eq, Bool.false_eq_true] at h
    case int64 v =>
      refine ⟨i64Bytes v, rfl, fun rest m l => ?_⟩
      simp only [readPrimitiveValue, i64Bytes]
      rw [Dec.bind_ok (readBytes_len (leBytes8 ((v % 18446744073709551616).toNat)) rest m l 8
        (by simp [leBytes8]) (leBytes8_lt _)), Dec.pure_def, leVal_leBytes8,
        toSigned_i64 v h.1 h.2]
  case dateTime =>
    cases p <;> simp only [primOk, Bool.and_eq_true, decide_eq_true_eq, Bool.false_eq_true] at h
    case int64 v =>
      refine ⟨i64Bytes v, rfl, fun rest m l => ?_⟩
      simp only [readPrimitiveValue, i64Bytes]
      rw [Dec.bind_ok (readBytes_len (leBytes8 ((v % 18446744073709551616).toNat)) rest m l 8
        (by simp [leBytes8]) (leBytes8_lt _)), Dec.pure_def, leVal_leBytes8,
        toSigned_i64 v h.1 h.2]
  case uint16 =>
    cases p <;> simp only [primOk, Bool.and_eq_true, decide_eq_true_eq, Bool.false_eq_true] at h
    case uint16 n =>
      refine ⟨leBytes2 n, rfl, fun rest m l => ?_⟩
      simp only [readPrimitiveValue]
      rw [Dec.bind_ok (readBytes_len (leBytes2 n) rest m l 2 (by simp [leBytes2])
        (leBytes2_lt n)), Dec.pure_def, leVal_leBytes2]
      rw [show n % 65536 = n by omega]
  case uint32 =>
    cases p <;> simp only [primOk, Bool.and_eq_true, decide_eq_true_eq, Bool.false_eq_true] at h
    case uint32 n =>
      refine ⟨leBytes4 n, rfl, fun rest m l => ?_⟩
      simp only [readPrimitiveValue]
      rw [Dec.bind_ok (readBytes_len (leBytes4 n) rest m l 4 (by simp [leBytes4])
        (leBytes4_lt n)), Dec.pure_def, leVal_leBytes4]
      rw [show n % 4294967296 = n by omega]
  case uint64 =>
    cases p <;> simp only [primOk, Bool.and_eq_true, decide_eq_true_eq, Bool.false_eq_true] at h
    case uint64 n =>
      refine ⟨leBytes8 n, rfl, fun rest m l => ?_⟩
      simp only [readPrimitiveValue]
      rw [Dec.bind_ok (readBytes_len (leBytes8 n) rest m l 8 (by simp [leBytes8])
        (leBytes8_lt n)), Dec.pure_def, leVal_leBytes8]
      rw [show n % 18446744073709551616 = n by omega]
  case null =>
    cases p <;> simp only [primOk, Bool.and_eq_true, decide_eq_true_eq, Bool.false_eq_true] at h
    case null =>
      exact ⟨[], rfl, fun rest m l => rfl⟩
  case string =>
    cases p <;> simp only [primOk, Bool.and_eq_true, decide_eq_true_eq, Bool.false_eq_true] at h
    case string s =>
      refine ⟨writeLengthPrefixedString s, rfl, fun rest m l => ?_⟩
      simp only [readPrimitiveValue]
      rw [Dec.bind_ok (lps_roundTrip s h rest m l), Dec.pure_def]

/-- Reading back a sequence of length-prefixed strings. -/
theorem readListN_lps (names : List (List Nat)) :
    ∀ (rest : List Nat) (m : List (Int × ClassInfoWithTypes)) (l : List (Int × List Nat)),
      names.all lpsOk = true →
      readListN readLengthPrefixedString names.length
        ⟨(names.map writeLengthPrefixedString).flatten ++ rest, m, l⟩ =
        .ok (names, ⟨rest, m, l⟩) := by
  induction names with
  | nil => intro rest m l _; rfl
  | cons n tl ih =>
    intro rest m l h
    simp only [List.all_cons, Bool.and_eq_true] at h
    simp only [List.length_cons, List.map_cons, List.flatten_cons, List.append_assoc, readListN]
    rw [Dec.bind_ok (lps_roundTrip n h.1 _ m l), Dec.bind_ok (ih rest m l h.2), Dec.pure_def]

theorem binaryType_val_lt (bt : BinaryType) : bt.val < 256 := by
  cases bt <;> decide

theorem primitiveType_val_lt (pt : PrimitiveType) : pt.val < 256 := by
  cases pt <;> decide

/-- Reading back the binary-type tag bytes. -/
theorem readListN_bts (bts : List BinaryType) :
    ∀ (rest : List Nat) (m : List (Int × ClassInfoWithTypes)) (l : List (Int × List Nat)),
      readListN (do liftE (BinaryType.fromByte (← readU8))) bts.length
        ⟨bts.map BinaryType.val ++ rest, m, l⟩ = .ok (bts, ⟨rest, m, l⟩) := by
  induction bts with
  | nil => intro rest m l; rfl
  | cons bt tl ih =>
    intro rest m l
    simp only [List.length_cons, List.map_cons, List.cons_append, readListN]
    rw [Dec.bind_ok (show (do liftE (BinaryType.fromByte (← readU8)))
        ⟨bt.val :: (tl.map BinaryType.val ++ rest), m, l⟩ =
        .ok (bt, ⟨tl.map BinaryType.val ++ rest, m, l⟩) from ?_)]
    · rw [Dec.bind_ok (ih rest m l), Dec.pure_def]
    · rw [Dec.bind_ok (readU8_cons ..), Nat.mod_eq_of_lt (binaryType_val_lt bt)]
      rw [show liftE (BinaryType.fromByte bt.val) = liftE (.ok bt) from by
        rw [binaryType_fromByte_val bt]]
      rfl

/-- Reading back one `AdditionalTypeInfo`. -/
theorem readAdditionalInfo_roundTrip (bt : BinaryType) (ai : AdditionalTypeInfo)
    (h : entryOk bt ai = true) (rest : List Nat)
    (m : List (Int × ClassInfoWithTypes)) (l : List (Int × List Nat)) :
    readAdditionalInfo bt ⟨writeAdditionalInfo ai ++ rest, m, l⟩ = .ok (ai, ⟨rest, m, l⟩) := by
  cases bt <;> cases ai <;>
    simp only [entryOk, Bool.and_eq_true, Bool.false_eq_true, decide_eq_true_eq] at h
  case primitive.primitive pt =>
    simp only [readAdditionalInfo, writeAdditionalInfo, List.cons_append, List.nil_append]
    rw [Dec.bind_ok (readU8_cons ..), Nat.mod_eq_of_lt (primitiveType_val_lt pt)]
    rw [show liftE (PrimitiveType.fromByte pt.val) = liftE (.ok pt) from by
      rw [primitiveType_fromByte_val pt]]
    rw [Dec.bind_ok (show (liftE (Except.ok pt) : Dec PrimitiveType) ⟨rest, m, l⟩ =
      .ok (pt, ⟨rest, m, l⟩) from rfl), Dec.pure_def]
  case systemClass.systemClass s =>
    simp only [readAdditionalInfo, writeAdditionalInfo]
    rw [Dec.bind_ok (lps_roundTrip s h rest m l), Dec.pure_def]
  case classType.classType c =>
    simp only [readAdditionalInfo, writeAdditionalInfo, List.append_assoc]
    rw [Dec.bind_ok (lps_roundTrip c.type_name h.1 _ m l),
      Dec.bind_ok (readI32_bytes c.library_id ?h1 ?h2 rest m l), Dec.pure_def]
    case h1 =>
      have := h.2
      simp only [i32ok, Bool.and_eq_true, decide_eq_true_eq] at this
      exact this.1
    case h2 =>
      have := h.2
      simp only [i32ok, Bool.and_eq_true, decide_eq_true_eq] at this
      exact this.2
  case string.none => rfl
  case object.none => rfl
  case objectArray.none => rfl
  case stringArray.none => rfl
  case primitiveArray.none => rfl

/-- Reading back the additional-info sequence. -/
theorem readAdditionalInfos_roundTrip (bts : List BinaryType) :
    ∀ (ais : List AdditionalTypeInfo) (rest : List Nat)
      (m : List (Int × ClassInfoWithTypes)) (l : List (Int × List Nat)),
      bts.length = ais.length →
      (List.zip bts ais).all (fun p => entryOk p.1 p.2) = true →
      readAdditionalInfos bts ⟨(ais.map writeAdditionalInfo).flatten ++ rest, m, l⟩ =
        .ok (ais, ⟨rest, m, l⟩) := by
  induction bts with
  | nil =>
    intro ais rest m l hlen _
    have : ais = [] := List.eq_nil_of_length_eq_zero hlen.symm
    subst this
    rfl
  | cons bt tl ih =>
    intro ais rest m l hlen hall
    cases ais with
    | nil => simp at hlen
    | cons ai tla =>
      simp only [List.zip_cons_cons, List.all_cons, Bool.and_eq_true] at hall
      simp only [List.map_cons, List.flatten_cons, List.append_assoc, readAdditionalInfos]
      rw [Dec.bind_ok (readAdditionalInfo_roundTrip bt ai hall.1 _ m l),
        Dec.bind_ok (ih tla rest m l (by simpa using hlen) hall.2), Dec.pure_def]

/-- A canonical `ClassInfo` round-trips. -/
theorem classInfo_roundTrip (ci : ClassInfo) (h : checkClassInfo ci = true) (rest : List Nat)
    (m : List (Int × ClassInfoWithTypes)) (l : List (Int × List Nat)) :
    readClassInfo ⟨writeClassInfo ci ++ rest, m, l⟩ = .ok (ci, ⟨rest, m, l⟩) := by
  simp only [checkClassInfo, i32ok, Bool.and_eq_true, beq_iff_eq, decide_eq_true_eq] at h
  obtain ⟨⟨⟨⟨⟨ho1, ho2⟩, hn⟩, hmc⟩, hcount⟩, hnames⟩ := h
  unfold writeClassInfo readClassInfo
  simp only [List.append_assoc]
  rw [Dec.bind_ok (readI32_bytes ci.object_id ho1 ho2 _ m l),
    Dec.bind_ok (lps_roundTrip ci.name hn _ m l),
    Dec.bind_ok (readI32_bytes ci.member_count hmc.1 hmc.2 _ m l)]
  rw [show ci.member_count.toNat = ci.member_names.length by omega]
  rw [Dec.bind_ok (readListN_lps ci.member_names rest m l hnames), Dec.pure_def]

/-- A canonical `MemberTypeInfo` round-trips. -/
theorem mti_roundTrip (mti : MemberTypeInfo) (count : Int) (h : checkMti mti count = true)
    (rest : List Nat) (m : List (Int × ClassInfoWithTypes)) (l : List (Int × List Nat)) :
    readMemberTypeInfo count ⟨writeMemberTypeInfo mti ++ rest, m, l⟩ =
      .ok (mti, ⟨rest, m, l⟩) := by
  simp only [checkMti, Bool.and_eq_true, beq_iff_eq] at h
  obtain ⟨⟨hb, ha⟩, hz⟩ := h
  unfold writeMemberTypeInfo readMemberTypeInfo
  simp only [List.append_assoc]
  rw [show count.toNat = mti.binary_type_enums.length by omega]
  rw [Dec.bind_ok (readListN_bts mti.binary_type_enums _ m l),
    Dec.bind_ok (readAdditionalInfos_roundTrip mti.binary_type_enums mti.additional_infos
      rest m l (by omega) hz), Dec.pure_def]

/-- `ArraySinglePrimitive` element loop round-trip. -/
theorem readListN_prims (pt : PrimitiveType) (elems : List PrimitiveValue) :
    ∀ (bytes rest : List Nat) (m : List (Int × ClassInfoWithTypes))
      (l : List (Int × List Nat)),
      elems.all (primOk pt) = true →
      encodePrimitiveValues elems = .ok bytes →
      readListN (readPrimitiveValue pt) elems.length ⟨bytes ++ rest, m, l⟩ =
        .ok (elems, ⟨rest, m, l⟩) := by
  induction elems with
  | nil =>
    intro bytes rest m l _ henc
    simp only [encodePrimitiveValues, Except.ok.injEq] at henc
    subst henc
    rfl
  | cons p tl ih =>
    intro bytes rest m l hall henc
    simp only [List.all_cons, Bool.and_eq_true] at hall
    obtain ⟨bs, hw, hr⟩ := primRoundTrip pt p hall.1
    cases htl : encodePrimitiveValues tl with
    | error e =>
      simp only [encodePrimitiveValues, hw, htl, bind, Except.bind] at henc
      exact absurd henc (by simp)
    | ok tlBytes =>
      simp only [encodePrimitiveValues, hw, htl, bind, Except.bind, pure, Except.pure,
        Except.ok.injEq] at henc
      subst henc
      simp only [List.length_cons, List.append_assoc, readListN]
      rw [Dec.bind_ok (hr _ m l), Dec.bind_ok (ih tlBytes rest m l hall.2 htl), Dec.pure_def]


/-- One unfolding of the element loop in the running case. -/
theorem readAllElementsAux_succ (f sf : Nat) (count i : Int) (bt : BinaryType)
    (ai : AdditionalTypeInfo) (hic : i < count) (st : DecSt) :
    readAllElementsAux f (sf + 1) count i bt ai st =
      (do
        let val ← readObjectValue f bt ai
        match val with
        | .record (.objectNullMultiple c) => do
          let rest ← readAllElementsAux f sf count (i + (c.toNat : Int)) bt ai
          pure (List.replicate c.toNat (ObjectValue.primitive .null) ++ rest)
        | .record (.objectNullMultiple256 c) => do
          let rest ← readAllElementsAux f sf count (i + (c : Int)) bt ai
          pure (List.replicate c (ObjectValue.primitive .null) ++ rest)
        | .record .objectNull => do
          let rest ← readAllElementsAux f sf count (i + 1) bt ai
          pure (ObjectValue.primitive .null :: rest)
        | v => do
          let rest ← readAllElementsAux f sf count (i + 1) bt ai
          pure (v :: rest)) st := by
  rw [readAllElementsAux.eq_def, if_pos hic]

/-- The element loop stops once all slots are filled. -/
theorem readAllElementsAux_done (f sf : Nat) (count i : Int) (bt : BinaryType)
    (ai : AdditionalTypeInfo) (hic : ¬ i < count) (st : DecSt) :
    readAllElementsAux f sf count i bt ai st = .ok ([], st) := by
  rw [readAllElementsAux.eq_def, if_neg hic]
  rfl

/-- `read_all_elements` on primitive-typed elements: one raw value per
slot, no expansion. -/
theorem readAllElementsAux_prims (f : Nat) (pt : PrimitiveType) (hpt : pt ≠ .null)
    (elems : List ObjectValue) :
    ∀ (sf : Nat) (count i : Int) (bytes rest : List Nat)
      (m : List (Int × ClassInfoWithTypes)) (l : List (Int × List Nat)),
      elems.all (fun v =>
        match v with
        | .primitive p => primOk pt p
        | .record _ => false) = true →
      encodeObjectValues elems = .ok bytes →
      count - i = elems.length →
      elems.length ≤ sf →
      readAllElementsAux f sf count i .primitive (.primitive pt) ⟨bytes ++ rest, m, l⟩ =
        .ok (elems, ⟨rest, m, l⟩) := by
  induction elems with
  | nil =>
    intro sf count i bytes rest m l _ henc hcount _
    simp only [encodeObjectValues, Except.ok.injEq] at henc
    subst henc
    rw [readAllElementsAux_done f sf count i _ _ (by simp at hcount; omega : ¬ i < count)]
    simp
  | cons v tl ih =>
    intro sf count i bytes rest m l hall henc hcount hsf
    simp only [List.all_cons, Bool.and_eq_true] at hall
    cases v with
    | record r => simp at hall
    | primitive p =>
      have hpv : primOk pt p = true := by simpa using hall.1
      have hpnull : p ≠ .null := by
        intro hp
        subst hp
        cases pt <;> simp [primOk] at hpv <;> exact hpt rfl
      obtain ⟨bs, hw, hr⟩ := primRoundTrip pt p hpv
      have hev : encodeObjectValue (ObjectValue.primitive p) = .ok bs := by
        cases p <;> simp only [encodeObjectValue] <;> first | exact hw | exact absurd rfl hpnull
      cases htl : encodeObjectValues tl with
      | error e =>
        simp only [encodeObjectValues, hev, htl, bind, Except.bind] at henc
        exact absurd henc (by simp)
      | ok tlBytes =>
        simp only [encodeObjectValues, hev, htl, bind, Except.bind, pure, Except.pure,
          Except.ok.injEq] at henc
        subst henc
        have hic : i < count := by
          simp only [List.length_cons] at hcount
          omega
        cases sf with
        | zero => simp at hsf
        | succ sf =>
          rw [readAllElementsAux_succ f sf count i _ _ hic]
          have hro : readObjectValue f .primitive (.primitive pt)
              ⟨(bs ++ tlBytes) ++ rest, m, l⟩ =
              .ok (ObjectValue.primitive p, ⟨tlBytes ++ rest, m, l⟩) := by
            simp only [readObjectValue, List.append_assoc]
            rw [Dec.bind_ok (hr _ m l), Dec.pure_def]
          rw [Dec.bind_ok hro]
          have htail := ih sf count (i + 1) tlBytes rest m l hall.2 htl
            (by simp only [List.length_cons] at hcount; omega)
            (by simp only [List.length_cons] at hsf; omega)
          simp only [Dec.bind_ok htail, Dec.pure_def]

/-- One unfolding of the member loop. -/
theorem readAllMemberValuesAux_succ (f : Nat) (mti : Option MemberTypeInfo) (i k : Nat)
    (st : DecSt) :
    readAllMemberValuesAux f mti i (k + 1) st =
      (do
        let v ←
          match mti with
          | some m =>
            readObjectValue f (m.binary_type_enums.getD i BinaryType.primitive)
              (m.additional_infos.getD i AdditionalTypeInfo.none)
          | Option.none => do
            match (← decodeNext f) with
            | some r => pure (ObjectValue.record r)
            | Option.none => throwE (.custom "Expected record for member value")
        let rest ← readAllMemberValuesAux f mti (i + 1) k
        pure (v :: rest)) st := by
  rw [readAllMemberValuesAux.eq_def]

/-- The member loop with no members left. -/
theorem readAllMemberValuesAux_zero (f : Nat) (mti : Option MemberTypeInfo) (i : Nat)
    (st : DecSt) : readAllMemberValuesAux f mti i 0 st = .ok ([], st) := by
  rw [readAllMemberValuesAux.eq_def]
  rfl


/-- Destructuring a successful element/member list encoding. -/
theorem encodeObjectValues_cons (v : ObjectValue) (vs : List ObjectValue) (bytes : List Nat)
    (h : encodeObjectValues (v :: vs) = .ok bytes) :
    ∃ hd tl, encodeObjectValue v = .ok hd ∧ encodeObjectValues vs = .ok tl ∧
      bytes = hd ++ tl := by
  cases hv : encodeObjectValue v with
  | error e => simp [encodeObjectValues, hv, bind, Except.bind] at h
  | ok hd =>
    cases htl : encodeObjectValues vs with
    | error e => simp [encodeObjectValues, hv, htl, bind, Except.bind] at h
    | ok tl =>
      simp only [encodeObjectValues, hv, htl, bind, Except.bind, pure, Except.pure,
        Except.ok.injEq] at h
      exact ⟨hd, tl, rfl, rfl, h.symm⟩

/-- A primitive value well-typed at a non-`Null` type is not `Null`. -/
theorem primOk_ne_null (pt : PrimitiveType) (pv : PrimitiveValue) (hpt : pt ≠ .null)
    (h : primOk pt pv = true) : pv ≠ .null := by
  cases pt <;> cases pv <;> simp [primOk] at h ⊢
  exact hpt rfl

/-- `encodeObjectValue` on a non-`Null` primitive is `write_primitive_value`. -/
theorem encodeObjectValue_prim (pv : PrimitiveValue) (h : pv ≠ .null) :
    encodeObjectValue (ObjectValue.primitive pv) = writePrimitiveValue pv := by
  cases pv <;> first | rfl | exact absurd rfl h

/-- Element-loop step on a decoded non-null record. -/
theorem readAllElementsAux_step_record (f sf : Nat) (count i : Int) (bt : BinaryType)
    (ai : AdditionalTypeInfo) (st st₁ st₂ : DecSt) (r : Record) (vs : List ObjectValue)
    (hr1 : r ≠ .objectNull) (hr2 : ∀ c, r ≠ .objectNullMultiple c)
    (hr3 : ∀ c, r ≠ .objectNullMultiple256 c) (hic : i < count)
    (hro : readObjectValue f bt ai st = .ok (.record r, st₁))
    (hrec : readAllElementsAux f sf count (i + 1) bt ai st₁ = .ok (vs, st₂)) :
    readAllElementsAux f (sf + 1) count i bt ai st = .ok (.record r :: vs, st₂) := by
  rw [readAllElementsAux_succ _ _ _ _ _ _ hic, Dec.bind_ok hro]
  cases r <;>
    first
    | exact absurd rfl hr1
    | exact absurd rfl (hr2 _)
    | exact absurd rfl (hr3 _)
    | simp only [Dec.bind_ok hrec, Dec.pure_def]

/-- Element-loop step on a decoded `ObjectNull` record: one `Null` slot. -/
theorem readAllElementsAux_step_null (f sf : Nat) (count i : Int) (bt : BinaryType)
    (ai : AdditionalTypeInfo) (st st₁ st₂ : DecSt) (vs : List ObjectValue) (hic : i < count)
    (hro : readObjectValue f bt ai st = .ok (.record .objectNull, st₁))
    (hrec : readAllElementsAux f sf count (i + 1) bt ai st₁ = .ok (vs, st₂)) :
    readAllElementsAux f (sf + 1) count i bt ai st =
      .ok (ObjectValue.primitive .null :: vs, st₂) := by
  rw [readAllElementsAux_succ _ _ _ _ _ _ hic, Dec.bind_ok hro]
  simp only [Dec.bind_ok hrec, Dec.pure_def]

/-- `decode_next` on an `ObjectNull` tag. -/
theorem decodeNext_objectNull (f : Nat) (tail : List Nat)
    (m : List (Int × ClassInfoWithTypes)) (l : List (Int × List Nat)) :
    decodeNext (f + 1) ⟨10 :: tail, m, l⟩ = .ok (some Record.objectNull, ⟨tail, m, l⟩) := by
  simp only [decodeNext, Dec.bind_ok (readU8_cons 10 tail m l),
    Dec.bind_ok (show liftE (RecordType.fromByte (10 % 256)) ⟨tail, m, l⟩ =
      .ok (.objectNull, ⟨tail, m, l⟩) from rfl), Dec.pure_def]


/-- `read_object_value` for a non-primitive binary type defers to
`decode_next`. -/
theorem readObjectValue_record (f : Nat) (bt : BinaryType) (ai : AdditionalTypeInfo)
    (hbt : bt ≠ .primitive) (st st' : DecSt) (r : Record)
    (hd : decodeNext f st = .ok (some r, st')) :
    readObjectValue f bt ai st = .ok (.record r, st') := by
  cases bt <;>
    first
    | exact absurd rfl hbt
    | simp only [readObjectValue, Dec.bind_ok hd, Dec.pure_def]

/-- The typed checker on a non-primitive member defers to `checkRecord`. -/
theorem checkValuesTyped_record_cons (bt : BinaryType) (ai : AdditionalTypeInfo)
    (hbt : bt ≠ .primitive) (r : Record) (vs : List ObjectValue) (reg : Reg) (lr : Libs)
    (ps : List (BinaryType × AdditionalTypeInfo)) :
    checkValuesTyped reg lr ((bt, ai) :: ps) (.record r :: vs) =
      match checkRecord reg lr r with
      | some (reg₁, lr₁) => checkValuesTyped reg₁ lr₁ ps vs
      | Option.none => Option.none := by
  cases bt <;> first | exact absurd rfl hbt | rfl

/-- The typed checker rejects a bare primitive under a non-primitive type. -/
theorem checkValuesTyped_prim_mismatch (bt : BinaryType) (ai : AdditionalTypeInfo)
    (hbt : bt ≠ .primitive) (pv : PrimitiveValue) (vs : List ObjectValue) (reg : Reg)
    (lr : Libs) (ps : List (BinaryType × AdditionalTypeInfo)) :
    checkValuesTyped reg lr ((bt, ai) :: ps) (.primitive pv :: vs) = Option.none := by
  cases bt <;> first | exact absurd rfl hbt | rfl

/-- Bind through a successfully lifted conversion. -/
theorem Dec.liftE_bind {α β : Type} (e : Except Err α) (a : α) (h : e = .ok a)
    (k : α → Dec β) (st : DecSt) : (liftE e >>= k) st = k a st :=
  Dec.bind_ok (by subst h; rfl)

/-- A registry update in a bind chain. -/
theorem Dec.modify_bind {α : Type} (g : DecSt → DecSt) (k : Unit → Dec α) (st : DecSt) :
    (modifySt g >>= k) st = k () (g st) :=
  Dec.bind_ok rfl

/-- A registered metadata id resolves. -/
theorem getRegistryEntry_ok (id : Int) (info : ClassInfoWithTypes) (st : DecSt)
    (h : regGet id st.metadataRegistry = some info) :
    getRegistryEntry id st = .ok (info, st) := by
  simp only [getRegistryEntry, h]

/-- Destructuring the encoder's tail-then-concat `do` blocks. -/
theorem encBind_inv (E : Except Err (List Nat)) (g : List Nat → List Nat) (bytes : List Nat)
    (h : (do let t ← E; pure (g t) : Except Err (List Nat)) = .ok bytes) :
    ∃ tail, E = .ok tail ∧ bytes = g tail := by
  cases hE : E with
  | error e => rw [hE] at h; simp [bind, Except.bind] at h
  | ok tail =>
    rw [hE] at h
    simp only [bind, Except.bind, pure, Except.pure, Except.ok.injEq] at h
    exact ⟨tail, rfl, h.symm⟩

/-- The `lengths` loop of `read_binary_array_full` round-trips. -/
theorem readListN_i32s (ls : List Int) :
    ∀ (rest : List Nat) (m : List (Int × ClassInfoWithTypes)) (l : List (Int × List Nat)),
      ls.all i32ok = true →
      readListN readI32 ls.length ⟨(ls.map i32Bytes).flatten ++ rest, m, l⟩ =
        .ok (ls, ⟨rest, m, l⟩) := by
  induction ls with
  | nil => intro rest m l _; rfl
  | cons x xs ih =>
    intro rest m l h
    simp only [List.all_cons, i32ok, Bool.and_eq_true, decide_eq_true_eq] at h
    obtain ⟨⟨h1, h2⟩, hxs⟩ := h
    simp only [List.length_cons, readListN, List.map_cons, List.flatten_cons,
      List.append_assoc]
    rw [Dec.bind_ok (readI32_bytes x h1 h2 _ m l),
      Dec.bind_ok (ih _ m l (by simpa using hxs)), Dec.pure_def]

/-- `read_serialization_header` round-trips. -/
theorem serializationHeader_roundTrip (h : SerializationHeaderRec)
    (r1 : -2147483648 ≤ h.root_id) (r2 : h.root_id < 2147483648)
    (h1 : -2147483648 ≤ h.header_id) (h2 : h.header_id < 2147483648)
    (m1 : -2147483648 ≤ h.major_version) (m2 : h.major_version < 2147483648)
    (n1 : -2147483648 ≤ h.minor_version) (n2 : h.minor_version < 2147483648)
    (rest : List Nat) (m : List (Int × ClassInfoWithTypes)) (l : List (Int × List Nat)) :
    readSerializationHeader ⟨i32Bytes h.root_id ++ (i32Bytes h.header_id ++
      (i32Bytes h.major_version ++ (i32Bytes h.minor_version ++ rest))), m, l⟩ =
      .ok (h, ⟨rest, m, l⟩) := by
  unfold readSerializationHeader
  rw [Dec.bind_ok (readI32_bytes h.root_id r1 r2 _ m l),
    Dec.bind_ok (readI32_bytes h.header_id h1 h2 _ m l),
    Dec.bind_ok (readI32_bytes h.major_version m1 m2 _ m l),
    Dec.bind_ok (readI32_bytes h.minor_version n1 n2 rest m l), Dec.pure_def]

/-- `read_binary_library` round-trips. -/
theorem binaryLibrary_roundTrip (lb : BinaryLibraryRec)
    (h1 : -2147483648 ≤ lb.library_id) (h2 : lb.library_id < 2147483648)
    (hn : lpsOk lb.library_name = true)
    (rest : List Nat) (m : List (Int × ClassInfoWithTypes)) (l : List (Int × List Nat)) :
    readBinaryLibrary ⟨i32Bytes lb.library_id ++ (writeLengthPrefixedString lb.library_name ++
      rest), m, l⟩ = .ok (lb, ⟨rest, m, l⟩) := by
  unfold readBinaryLibrary
  rw [Dec.bind_ok (readI32_bytes lb.library_id h1 h2 _ m l),
    Dec.bind_ok (lps_roundTrip lb.library_name hn rest m l), Dec.pure_def]

/-- Unfolding the `read_all_elements` wrapper at a state. -/
theorem readAllElements_def (f : Nat) (count : Int) (bt : BinaryType)
    (ai : AdditionalTypeInfo) (st : DecSt) :
    readAllElements f count bt ai st =
      readAllElementsAux f (st.input.length + count.toNat + 1) count 0 bt ai st := by
  rw [readAllElements.eq_def]

/-- Unfolding the `read_all_member_values` wrapper. -/
theorem readAllMemberValues_def (f : Nat) (ci : ClassInfo) (mti : Option MemberTypeInfo) :
    readAllMemberValues f ci mti = readAllMemberValuesAux f mti 0 ci.member_count.toNat := by
  rw [readAllMemberValues.eq_def]

/-! ## The render-then-parse induction

`RecRT r` says: if `r` passes the canonical checker in registry state
`(reg, lr)` and encodes to `bytes`, then the decoder, run on `bytes`
followed by anything, returns exactly `r` and the updated registries.
`TypedRT`/`UntypedRT`/`ElemsRT` are the corresponding statements for the
member and element loops. -/

def RecRT (r : Record) : Prop :=
  ∀ (reg : Reg) (lr : Libs) (reg' : Reg) (lr' : Libs) (bytes rest : List Nat) (f : Nat),
    checkRecord reg lr r = some (reg', lr') →
    encodeRecord r = .ok bytes →
    bytes.length < f →
    decodeNext f ⟨bytes ++ rest, reg, lr⟩ = .ok (some r, ⟨rest, reg', lr'⟩)

def TypedRT (vals : List ObjectValue) : Prop :=
  ∀ (mti : MemberTypeInfo) (i : Nat) (reg : Reg) (lr : Libs) (reg' : Reg) (lr' : Libs)
    (bytes rest : List Nat) (f : Nat),
    checkValuesTyped reg lr
      (List.zip (mti.binary_type_enums.drop i) (mti.additional_infos.drop i)) vals =
      some (reg', lr') →
    mti.binary_type_enums.length = mti.additional_infos.length →
    i + vals.length = mti.binary_type_enums.length →
    encodeObjectValues vals = .ok bytes →
    bytes.length < f →
    readAllMemberValuesAux f (some mti) i vals.length ⟨bytes ++ rest, reg, lr⟩ =
      .ok (vals, ⟨rest, reg', lr'⟩)

def UntypedRT (vals : List ObjectValue) : Prop :=
  ∀ (i : Nat) (reg : Reg) (lr : Libs) (reg' : Reg) (lr' : Libs)
    (bytes rest : List Nat) (f : Nat),
    checkValuesUntyped reg lr vals = some (reg', lr') →
    encodeObjectValues vals = .ok bytes →
    bytes.length < f →
    readAllMemberValuesAux f Option.none i vals.length ⟨bytes ++ rest, reg, lr⟩ =
      .ok (vals, ⟨rest, reg', lr'⟩)

def ElemsRT (vals : List ObjectValue) : Prop :=
  ∀ (bt : BinaryType) (ai : AdditionalTypeInfo) (sf : Nat) (count i : Int)
    (reg : Reg) (lr : Libs) (reg' : Reg) (lr' : Libs) (bytes rest : List Nat) (f : Nat),
    checkElements reg lr vals = some (reg', lr') →
    encodeObjectValues vals = .ok bytes →
    bytes.length < f →
    bt ≠ .primitive →
    count - i = vals.length →
    vals.length ≤ sf →
    readAllElementsAux f sf count i bt ai ⟨bytes ++ rest, reg, lr⟩ =
      .ok (vals, ⟨rest, reg', lr'⟩)

set_option maxHeartbeats 3200000 in
theorem renderParse_main : ∀ n : Nat,
    (∀ r : Record, sizeOf r ≤ n → RecRT r) ∧
    (∀ vals : List ObjectValue, sizeOf vals ≤ n →
      TypedRT vals ∧ UntypedRT vals ∧ ElemsRT vals) := by
  intro n
  induction n using Nat.strong_induction_on with
  | _ n ih =>
    have ihr : ∀ r' : Record, sizeOf r' < n → RecRT r' :=
      fun r' h => (ih (sizeOf r') h).1 r' le_rfl
    have ihv : ∀ vs' : List ObjectValue, sizeOf vs' < n →
        TypedRT vs' ∧ UntypedRT vs' ∧ ElemsRT vs' :=
      fun vs' h => (ih (sizeOf vs') h).2 vs' le_rfl
    constructor
    · intro r hsize
      intro reg lr reg' lr' bytes rest f hchk henc hf
      cases f with
      | zero => exact absurd hf (by omega)
      | succ f =>
      cases r with
      | serializationHeader h =>
        simp only [checkRecord] at hchk
        split at hchk
        next hc =>
          simp only [Option.some.injEq, Prod.mk.injEq] at hchk
          obtain ⟨rfl, rfl⟩ := hchk
          simp only [i32ok, Bool.and_eq_true, decide_eq_true_eq] at hc
          obtain ⟨⟨⟨⟨r1, r2⟩, h1, h2⟩, m1, m2⟩, n1, n2⟩ := hc
          obtain rfl : [0] ++ i32Bytes h.root_id ++ i32Bytes h.header_id ++
              i32Bytes h.major_version ++ i32Bytes h.minor_version = bytes :=
            Except.ok.inj henc
          simp only [List.cons_append, List.nil_append, List.append_assoc, decodeNext,
            Dec.bind_ok (readU8_cons 0 (i32Bytes h.root_id ++ (i32Bytes h.header_id ++
              (i32Bytes h.major_version ++ (i32Bytes h.minor_version ++ rest)))) reg lr),
            Dec.liftE_bind (RecordType.fromByte (0 % 256))
              RecordType.serializedStreamHeader (by rfl)]
          rw [Dec.bind_ok (serializationHeader_roundTrip h r1 r2 h1 h2 m1 m2 n1 n2
            rest reg lr), Dec.pure_def]
        next => exact absurd hchk (by simp)
      | binaryLibrary lb =>
        simp only [checkRecord] at hchk
        split at hchk
        next hc =>
          simp only [Option.some.injEq, Prod.mk.injEq] at hchk
          obtain ⟨rfl, rfl⟩ := hchk
          simp only [i32ok, Bool.and_eq_true, decide_eq_true_eq] at hc
          obtain ⟨⟨h1, h2⟩, hn⟩ := hc
          obtain rfl : [12] ++ i32Bytes lb.library_id ++
              writeLengthPrefixedString lb.library_name = bytes := Except.ok.inj henc
          simp only [List.cons_append, List.nil_append, List.append_assoc, decodeNext,
            Dec.bind_ok (readU8_cons 12 (i32Bytes lb.library_id ++
              (writeLengthPrefixedString lb.library_name ++ rest)) reg lr),
            Dec.liftE_bind (RecordType.fromByte (12 % 256)) RecordType.binaryLibrary (by rfl)]
          rw [Dec.bind_ok (binaryLibrary_roundTrip lb h1 h2 hn rest reg lr)]
          simp only [Dec.modify_bind, Dec.pure_def]
        next => exact absurd hchk (by simp)
      | binaryObjectString oid v =>
        simp only [checkRecord] at hchk
        split at hchk
        next hc =>
          simp only [Option.some.injEq, Prod.mk.injEq] at hchk
          obtain ⟨rfl, rfl⟩ := hchk
          simp only [i32ok, Bool.and_eq_true, decide_eq_true_eq] at hc
          obtain ⟨⟨h1, h2⟩, hv⟩ := hc
          obtain rfl : [6] ++ i32Bytes oid ++ writeLengthPrefixedString v = bytes :=
            Except.ok.inj henc
          simp only [List.cons_append, List.nil_append, List.append_assoc, decodeNext,
            Dec.bind_ok (readU8_cons 6 (i32Bytes oid ++ (writeLengthPrefixedString v ++
              rest)) reg lr),
            Dec.liftE_bind (RecordType.fromByte (6 % 256)) RecordType.binaryObjectString (by rfl)]
          rw [Dec.bind_ok (readI32_bytes oid h1 h2 _ reg lr),
            Dec.bind_ok (lps_roundTrip v hv rest reg lr), Dec.pure_def]
        next => exact absurd hchk (by simp)
      | memberPrimitiveTyped pt v =>
        simp only [checkRecord] at hchk
        split at hchk
        next hpv =>
          simp only [Option.some.injEq, Prod.mk.injEq] at hchk
          obtain ⟨rfl, rfl⟩ := hchk
          simp only [encodeRecord] at henc
          obtain ⟨tail, hw, rfl⟩ := encBind_inv _ _ _ henc
          obtain ⟨bs, hw', hr⟩ := primRoundTrip pt v hpv
          rw [hw'] at hw
          obtain rfl : bs = tail := Except.ok.inj hw
          simp only [List.cons_append, List.nil_append, List.append_assoc, decodeNext,
            Dec.bind_ok (readU8_cons 8 (pt.val :: (bs ++ rest)) reg lr),
            Dec.liftE_bind (RecordType.fromByte (8 % 256))
              RecordType.memberPrimitiveTyped (by rfl)]
          rw [Dec.bind_ok (readU8_cons pt.val (bs ++ rest) reg lr)]
          rw [show liftE (PrimitiveType.fromByte (pt.val % 256)) = liftE (.ok pt) from by
            rw [Nat.mod_eq_of_lt (primitiveType_val_lt pt), primitiveType_fromByte_val pt]]
          rw [Dec.liftE_bind _ pt rfl]
          rw [Dec.bind_ok (hr rest reg lr), Dec.pure_def]
        next => exact absurd hchk (by simp)
      | memberReference idr =>
        simp only [checkRecord] at hchk
        split at hchk
        next hc =>
          simp only [Option.some.injEq, Prod.mk.injEq] at hchk
          obtain ⟨rfl, rfl⟩ := hchk
          simp only [i32ok, Bool.and_eq_true, decide_eq_true_eq] at hc
          obtain rfl : [9] ++ i32Bytes idr = bytes := Except.ok.inj henc
          simp only [List.cons_append, List.nil_append, List.append_assoc, decodeNext,
            Dec.bind_ok (readU8_cons 9 (i32Bytes idr ++ rest) reg lr),
            Dec.liftE_bind (RecordType.fromByte (9 % 256)) RecordType.memberReference (by rfl)]
          rw [Dec.bind_ok (readI32_bytes idr hc.1 hc.2 rest reg lr), Dec.pure_def]
        next => exact absurd hchk (by simp)
      | objectNull =>
        simp only [checkRecord, Option.some.injEq, Prod.mk.injEq] at hchk
        obtain ⟨rfl, rfl⟩ := hchk
        obtain rfl : [10] = bytes := Except.ok.inj henc
        simpa using decodeNext_objectNull f rest reg lr
      | objectNullMultiple c =>
        simp only [checkRecord] at hchk
        split at hchk
        next hc =>
          simp only [Option.some.injEq, Prod.mk.injEq] at hchk
          obtain ⟨rfl, rfl⟩ := hchk
          simp only [i32ok, Bool.and_eq_true, decide_eq_true_eq] at hc
          obtain rfl : [14] ++ i32Bytes c = bytes := Except.ok.inj henc
          simp only [List.cons_append, List.nil_append, List.append_assoc, decodeNext,
            Dec.bind_ok (readU8_cons 14 (i32Bytes c ++ rest) reg lr),
            Dec.liftE_bind (RecordType.fromByte (14 % 256))
              RecordType.objectNullMultiple (by rfl)]
          rw [Dec.bind_ok (readI32_bytes c hc.1 hc.2 rest reg lr), Dec.pure_def]
        next => exact absurd hchk (by simp)
      | objectNullMultiple256 c =>
        simp only [checkRecord] at hchk
        split at hchk
        next hc =>
          simp only [Option.some.injEq, Prod.mk.injEq] at hchk
          obtain ⟨rfl, rfl⟩ := hchk
          obtain rfl : [13] ++ [c % 256] = bytes := Except.ok.inj henc
          simp only [List.cons_append, List.nil_append, decodeNext,
            Dec.bind_ok (readU8_cons 13 (c % 256 :: rest) reg lr),
            Dec.liftE_bind (RecordType.fromByte (13 % 256))
              RecordType.objectNullMultiple256 (by rfl)]
          rw [Dec.bind_ok (readU8_cons (c % 256) rest reg lr), Dec.pure_def]
          simp only [Nat.mod_eq_of_lt hc]
        next => exact absurd hchk (by simp)
      | messageEnd =>
        simp only [checkRecord, Option.some.injEq, Prod.mk.injEq] at hchk
        obtain ⟨rfl, rfl⟩ := hchk
        obtain rfl : [11] = bytes := Except.ok.inj henc
        simp only [List.cons_append, List.nil_append, decodeNext,
          Dec.bind_ok (readU8_cons 11 rest reg lr),
          Dec.liftE_bind (RecordType.fromByte (11 % 256)) RecordType.messageEnd (by rfl),
          Dec.pure_def]
      | arraySinglePrimitive oid len pt elems =>
        simp only [checkRecord] at hchk
        split at hchk
        next hc =>
          simp only [Option.some.injEq, Prod.mk.injEq] at hchk
          obtain ⟨rfl, rfl⟩ := hchk
          simp only [i32ok, Bool.and_eq_true, decide_eq_true_eq, beq_iff_eq] at hc
          obtain ⟨⟨⟨⟨o1, o2⟩, l1, l2⟩, hlen⟩, hall⟩ := hc
          simp only [encodeRecord] at henc
          obtain ⟨tail, htail, rfl⟩ := encBind_inv _ _ _ henc
          simp only [List.cons_append, List.nil_append, List.append_assoc, decodeNext,
            Dec.bind_ok (readU8_cons 15 (i32Bytes oid ++ (i32Bytes len ++
              (pt.val :: (tail ++ rest)))) reg lr),
            Dec.liftE_bind (RecordType.fromByte (15 % 256))
              RecordType.arraySinglePrimitive (by rfl)]
          rw [Dec.bind_ok (readI32_bytes oid o1 o2 _ reg lr),
            Dec.bind_ok (readI32_bytes len l1 l2 _ reg lr),
            Dec.bind_ok (readU8_cons pt.val (tail ++ rest) reg lr)]
          rw [show liftE (PrimitiveType.fromByte (pt.val % 256)) = liftE (.ok pt) from by
            rw [Nat.mod_eq_of_lt (primitiveType_val_lt pt), primitiveType_fromByte_val pt]]
          rw [Dec.liftE_bind _ pt rfl]
          rw [show len.toNat = elems.length from by omega]
          rw [Dec.bind_ok (readListN_prims pt elems tail rest reg lr hall htail),
            Dec.pure_def]
        next => exact absurd hchk (by simp)
      | arraySingleObject oid len elems =>
        simp only [checkRecord] at hchk
        split at hchk
        next hc =>
          simp only [i32ok, Bool.and_eq_true, decide_eq_true_eq, beq_iff_eq] at hc
          obtain ⟨⟨⟨o1, o2⟩, l1, l2⟩, hlen⟩ := hc
          have hsz : sizeOf elems < n := by
            simp only [Record.arraySingleObject.sizeOf_spec] at hsize
            omega
          simp only [encodeRecord] at henc
          obtain ⟨tail, htail, rfl⟩ := encBind_inv _ _ _ henc
          have htailf : tail.length < f := by
            simp only [List.length_append, List.length_cons] at hf
            omega
          have helems := ((ihv elems hsz).2.2) .object .none
            ((tail ++ rest).length + len.toNat + 1) len 0 reg lr reg' lr' tail rest f
            hchk htail htailf (by simp) (by omega) (by omega)
          simp only [List.cons_append, List.nil_append, List.append_assoc, decodeNext,
            Dec.bind_ok (readU8_cons 16 (i32Bytes oid ++ (i32Bytes len ++ (tail ++ rest)))
              reg lr),
            Dec.liftE_bind (RecordType.fromByte (16 % 256))
              RecordType.arraySingleObject (by rfl)]
          rw [Dec.bind_ok (readI32_bytes oid o1 o2 _ reg lr),
            Dec.bind_ok (readI32_bytes len l1 l2 _ reg lr)]
          rw [Dec.bind_ok (show readAllElements f len .object .none ⟨tail ++ rest, reg, lr⟩ =
            .ok (elems, ⟨rest, reg', lr'⟩) from by
              rw [readAllElements_def]; exact helems)]
          rw [Dec.pure_def]
        next => exact absurd hchk (by simp)
      | arraySingleString oid len elems =>
        simp only [checkRecord] at hchk
        split at hchk
        next hc =>
          simp only [i32ok, Bool.and_eq_true, decide_eq_true_eq, beq_iff_eq] at hc
          obtain ⟨⟨⟨o1, o2⟩, l1, l2⟩, hlen⟩ := hc
          have hsz : sizeOf elems < n := by
            simp only [Record.arraySingleString.sizeOf_spec] at hsize
            omega
          simp only [encodeRecord] at henc
          obtain ⟨tail, htail, rfl⟩ := encBind_inv _ _ _ henc
          have htailf : tail.length < f := by
            simp only [List.length_append, List.length_cons] at hf
            omega
          have helems := ((ihv elems hsz).2.2) .string .none
            ((tail ++ rest).length + len.toNat + 1) len 0 reg lr reg' lr' tail rest f
            hchk htail htailf (by simp) (by omega) (by omega)
          simp only [List.cons_append, List.nil_append, List.append_assoc, decodeNext,
            Dec.bind_ok (readU8_cons 17 (i32Bytes oid ++ (i32Bytes len ++ (tail ++ rest)))
              reg lr),
            Dec.liftE_bind (RecordType.fromByte (17 % 256))
              RecordType.arraySingleString (by rfl)]
          rw [Dec.bind_ok (readI32_bytes oid o1 o2 _ reg lr),
            Dec.bind_ok (readI32_bytes len l1 l2 _ reg lr)]
          rw [Dec.bind_ok (show readAllElements f len .string .none ⟨tail ++ rest, reg, lr⟩ =
            .ok (elems, ⟨rest, reg', lr'⟩) from by
              rw [readAllElements_def]; exact helems)]
          rw [Dec.pure_def]
        next => exact absurd hchk (by simp)
      | classWithMembersAndTypes ci mti lid vals =>
        simp only [checkRecord] at hchk
        split at hchk
        next hc =>
          simp only [i32ok, Bool.and_eq_true, decide_eq_true_eq, beq_iff_eq] at hc
          obtain ⟨⟨⟨hci, hmti⟩, l1, l2⟩, hvlen⟩ := hc
          have hm := hmti
          simp only [checkMti, Bool.and_eq_true, beq_iff_eq] at hm
          obtain ⟨⟨hmb, hma⟩, hz⟩ := hm
          have hsz : sizeOf vals < n := by
            simp only [Record.classWithMembersAndTypes.sizeOf_spec] at hsize
            omega
          simp only [encodeRecord] at henc
          obtain ⟨tail, htail, rfl⟩ := encBind_inv _ _ _ henc
          have htailf : tail.length < f := by
            simp only [List.length_append, List.length_cons] at hf
            omega
          have hTy := ((ihv vals hsz).1) mti 0
            (regInsert ci.object_id ⟨ci, some mti, some lid⟩ reg) lr reg' lr' tail rest f
            (by simpa using hchk) (by omega) (by omega) htail htailf
          have hmem : readAllMemberValues f ci (some mti)
              ⟨tail ++ rest, regInsert ci.object_id ⟨ci, some mti, some lid⟩ reg, lr⟩ =
              .ok (vals, ⟨rest, reg', lr'⟩) := by
            rw [readAllMemberValues_def,
              show ci.member_count.toNat = vals.length from by omega]
            exact hTy
          simp only [List.cons_append, List.nil_append, List.append_assoc, decodeNext,
            Dec.bind_ok (readU8_cons 5 (writeClassInfo ci ++ (writeMemberTypeInfo mti ++
              (i32Bytes lid ++ (tail ++ rest)))) reg lr),
            Dec.liftE_bind (RecordType.fromByte (5 % 256))
              RecordType.classWithMembersAndTypes (by rfl)]
          rw [Dec.bind_ok (show readClassWithMembersAndTypes f
              ⟨writeClassInfo ci ++ (writeMemberTypeInfo mti ++ (i32Bytes lid ++
                (tail ++ rest))), reg, lr⟩ =
              .ok (.classWithMembersAndTypes ci mti lid vals, ⟨rest, reg', lr'⟩) from by
            rw [readClassWithMembersAndTypes.eq_def]
            rw [Dec.bind_ok (classInfo_roundTrip ci hci _ reg lr)]
            rw [Dec.bind_ok (mti_roundTrip mti ci.member_count hmti _ reg lr)]
            rw [Dec.bind_ok (readI32_bytes lid l1 l2 _ reg lr)]
            simp only [Dec.modify_bind]
            rw [Dec.bind_ok hmem, Dec.pure_def])]
          rw [Dec.pure_def]
        next => exact absurd hchk (by simp)
      | systemClassWithMembersAndTypes ci mti vals =>
        simp only [checkRecord] at hchk
        split at hchk
        next hc =>
          simp only [Bool.and_eq_true, beq_iff_eq] at hc
          obtain ⟨⟨hci, hmti⟩, hvlen⟩ := hc
          have hm := hmti
          simp only [checkMti, Bool.and_eq_true, beq_iff_eq] at hm
          obtain ⟨⟨hmb, hma⟩, hz⟩ := hm
          have hsz : sizeOf vals < n := by
            simp only [Record.systemClassWithMembersAndTypes.sizeOf_spec] at hsize
            omega
          simp only [encodeRecord] at henc
          obtain ⟨tail, htail, rfl⟩ := encBind_inv _ _ _ henc
          have htailf : tail.length < f := by
            simp only [List.length_append, List.length_cons] at hf
            omega
          have hTy := ((ihv vals hsz).1) mti 0
            (regInsert ci.object_id ⟨ci, some mti, Option.none⟩ reg) lr reg' lr' tail rest f
            (by simpa using hchk) (by omega) (by omega) htail htailf
          have hmem : readAllMemberValues f ci (some mti)
              ⟨tail ++ rest, regInsert ci.object_id ⟨ci, some mti, Option.none⟩ reg, lr⟩ =
              .ok (vals, ⟨rest, reg', lr'⟩) := by
            rw [readAllMemberValues_def,
              show ci.member_count.toNat = vals.length from by omega]
            exact hTy
          simp only [List.cons_append, List.nil_append, List.append_assoc, decodeNext,
            Dec.bind_ok (readU8_cons 4 (writeClassInfo ci ++ (writeMemberTypeInfo mti ++
              (tail ++ rest))) reg lr),
            Dec.liftE_bind (RecordType.fromByte (4 % 256))
              RecordType.systemClassWithMembersAndTypes (by rfl)]
          rw [Dec.bind_ok (show readSystemClassWithMembersAndTypes f
              ⟨writeClassInfo ci ++ (writeMemberTypeInfo mti ++ (tail ++ rest)), reg, lr⟩ =
              .ok (.systemClassWithMembersAndTypes ci mti vals, ⟨rest, reg', lr'⟩) from by
            rw [readSystemClassWithMembersAndTypes.eq_def]
            rw [Dec.bind_ok (classInfo_roundTrip ci hci _ reg lr)]
            rw [Dec.bind_ok (mti_roundTrip mti ci.member_count hmti _ reg lr)]
            simp only [Dec.modify_bind]
            rw [Dec.bind_ok hmem, Dec.pure_def])]
          rw [Dec.pure_def]
        next => exact absurd hchk (by simp)
      | systemClassWithMembers ci vals =>
        simp only [checkRecord] at hchk
        split at hchk
        next hc =>
          simp only [Bool.and_eq_true, beq_iff_eq] at hc
          obtain ⟨hci, hvlen⟩ := hc
          have hsz : sizeOf vals < n := by
            simp only [Record.systemClassWithMembers.sizeOf_spec] at hsize
            omega
          simp only [encodeRecord] at henc
          obtain ⟨tail, htail, rfl⟩ := encBind_inv _ _ _ henc
          have htailf : tail.length < f := by
            simp only [List.length_append, List.length_cons] at hf
            omega
          have hUn := ((ihv vals hsz).2.1) 0
            (regInsert ci.object_id ⟨ci, Option.none, Option.none⟩ reg) lr reg' lr'
            tail rest f hchk htail htailf
          have hmem : readAllMemberValues f ci Option.none
              ⟨tail ++ rest, regInsert ci.object_id ⟨ci, Option.none, Option.none⟩ reg, lr⟩ =
              .ok (vals, ⟨rest, reg', lr'⟩) := by
            rw [readAllMemberValues_def,
              show ci.member_count.toNat = vals.length from by omega]
            exact hUn
          simp only [List.cons_append, List.nil_append, List.append_assoc, decodeNext,
            Dec.bind_ok (readU8_cons 2 (writeClassInfo ci ++ (tail ++ rest)) reg lr),
            Dec.liftE_bind (RecordType.fromByte (2 % 256))
              RecordType.systemClassWithMembers (by rfl)]
          rw [Dec.bind_ok (show readSystemClassWithMembers f
              ⟨writeClassInfo ci ++ (tail ++ rest), reg, lr⟩ =
              .ok (.systemClassWithMembers ci vals, ⟨rest, reg', lr'⟩) from by
            rw [readSystemClassWithMembers.eq_def]
            rw [Dec.bind_ok (classInfo_roundTrip ci hci _ reg lr)]
            simp only [Dec.modify_bind]
            rw [Dec.bind_ok hmem, Dec.pure_def])]
          rw [Dec.pure_def]
        next => exact absurd hchk (by simp)
      | classWithMembers ci lid vals =>
        simp only [checkRecord] at hchk
        split at hchk
        next hc =>
          simp only [i32ok, Bool.and_eq_true, decide_eq_true_eq, beq_iff_eq] at hc
          obtain ⟨⟨hci, l1, l2⟩, hvlen⟩ := hc
          have hsz : sizeOf vals < n := by
            simp only [Record.classWithMembers.sizeOf_spec] at hsize
            omega
          simp only [encodeRecord] at henc
          obtain ⟨tail, htail, rfl⟩ := encBind_inv _ _ _ henc
          have htailf : tail.length < f := by
            simp only [List.length_append, List.length_cons] at hf
            omega
          have hUn := ((ihv vals hsz).2.1) 0
            (regInsert ci.object_id ⟨ci, Option.none, some lid⟩ reg) lr reg' lr'
            tail rest f hchk htail htailf
          have hmem : readAllMemberValues f ci Option.none
              ⟨tail ++ rest, regInsert ci.object_id ⟨ci, Option.none, some lid⟩ reg, lr⟩ =
              .ok (vals, ⟨rest, reg', lr'⟩) := by
            rw [readAllMemberValues_def,
              show ci.member_count.toNat = vals.length from by omega]
            exact hUn
          simp only [List.cons_append, List.nil_append, List.append_assoc, decodeNext,
            Dec.bind_ok (readU8_cons 3 (writeClassInfo ci ++ (i32Bytes lid ++ (tail ++ rest)))
              reg lr),
            Dec.liftE_bind (RecordType.fromByte (3 % 256))
              RecordType.classWithMembers (by rfl)]
          rw [Dec.bind_ok (show readClassWithMembers f
              ⟨writeClassInfo ci ++ (i32Bytes lid ++ (tail ++ rest)), reg, lr⟩ =
              .ok (.classWithMembers ci lid vals, ⟨rest, reg', lr'⟩) from by
            rw [readClassWithMembers.eq_def]
            rw [Dec.bind_ok (classInfo_roundTrip ci hci _ reg lr)]
            rw [Dec.bind_ok (readI32_bytes lid l1 l2 _ reg lr)]
            simp only [Dec.modify_bind]
            rw [Dec.bind_ok hmem, Dec.pure_def])]
          rw [Dec.pure_def]
        next => exact absurd hchk (by simp)
      | classWithId oid mid vals =>
        simp only [checkRecord] at hchk
        split at hchk
        next hc =>
          simp only [i32ok, Bool.and_eq_true, decide_eq_true_eq] at hc
          obtain ⟨⟨o1, o2⟩, m1, m2⟩ := hc
          have hsz : sizeOf vals < n := by
            simp only [Record.classWithId.sizeOf_spec] at hsize
            omega
          simp only [encodeRecord] at henc
          obtain ⟨tail, htail, rfl⟩ := encBind_inv _ _ _ henc
          have htailf : tail.length < f := by
            simp only [List.length_append, List.length_cons] at hf
            omega
          split at hchk
          next info hget =>
            split at hchk
            next hvlen =>
              simp only [beq_iff_eq] at hvlen
              have hmem : readAllMemberValues f info.class_info info.member_type_info
                  ⟨tail ++ rest, reg, lr⟩ = .ok (vals, ⟨rest, reg', lr'⟩) := ?_
              case _ =>
                simp only [List.cons_append, List.nil_append, List.append_assoc, decodeNext,
                  Dec.bind_ok (readU8_cons 1 (i32Bytes oid ++ (i32Bytes mid ++ (tail ++ rest)))
                    reg lr),
                  Dec.liftE_bind (RecordType.fromByte (1 % 256))
                    RecordType.classWithId (by rfl)]
                rw [Dec.bind_ok (show readClassWithId f
                    ⟨i32Bytes oid ++ (i32Bytes mid ++ (tail ++ rest)), reg, lr⟩ =
                    .ok (.classWithId oid mid vals, ⟨rest, reg', lr'⟩) from by
                  rw [readClassWithId.eq_def]
                  rw [Dec.bind_ok (readI32_bytes oid o1 o2 _ reg lr),
                    Dec.bind_ok (readI32_bytes mid m1 m2 _ reg lr),
                    Dec.bind_ok (getRegistryEntry_ok mid info _ hget),
                    Dec.bind_ok hmem, Dec.pure_def])]
                rw [Dec.pure_def]
              case _ =>
                split at hchk
                next mti hmti =>
                  split at hchk
                  next hlen2 =>
                    simp only [Bool.and_eq_true, beq_iff_eq] at hlen2
                    have hTy := ((ihv vals hsz).1) mti 0 reg lr reg' lr' tail rest f
                      (by simpa using hchk) (by omega) (by omega) htail htailf
                    rw [readAllMemberValues_def, hmti,
                      show info.class_info.member_count.toNat = vals.length from by omega]
                    exact hTy
                  next => exact absurd hchk (by simp)
                next hmti =>
                  have hUn := ((ihv vals hsz).2.1) 0 reg lr reg' lr' tail rest f
                    hchk htail htailf
                  rw [readAllMemberValues_def, hmti,
                    show info.class_info.member_count.toNat = vals.length from by omega]
                  exact hUn
            next => exact absurd hchk (by simp)
          next => exact absurd hchk (by simp)
        next => exact absurd hchk (by simp)
      | binaryArray oid bate rank lengths lb te ati elems =>
        simp only [checkRecord] at hchk
        split at hchk
        next hc =>
          simp only [i32ok, Bool.and_eq_true, decide_eq_true_eq, beq_iff_eq] at hc
          obtain ⟨⟨⟨⟨⟨⟨⟨⟨o1, o2⟩, hbate⟩, r1, r2⟩, hrank⟩, hli⟩, hlb⟩, hent⟩, hel⟩ := hc
          have hsz : sizeOf elems < n := by
            simp only [Record.binaryArray.sizeOf_spec] at hsize
            omega
          simp only [encodeRecord] at henc
          obtain ⟨tail, htail, rfl⟩ := encBind_inv _ _ _ henc
          have htailf : tail.length < f := by
            simp only [List.length_append, List.length_cons] at hf
            omega
          have helems : readAllElements f (wrapProduct lengths) te ati
              ⟨tail ++ rest, reg, lr⟩ = .ok (elems, ⟨rest, reg', lr'⟩) := ?_
          case _ =>
            cases lb with
            | none =>
              simp only [Bool.not_eq_true', Bool.or_eq_false_iff, beq_eq_false_iff_ne] at hlb
              obtain ⟨⟨n3, n4⟩, n5⟩ := hlb
              simp only [List.cons_append, List.nil_append, List.append_assoc, decodeNext,
                Dec.bind_ok (readU8_cons 7 (i32Bytes oid ++ ((bate % 256) ::
                  (i32Bytes rank ++ ((lengths.map i32Bytes).flatten ++ (te.val ::
                  (writeAdditionalInfo ati ++ (tail ++ rest))))))) reg lr),
                Dec.liftE_bind (RecordType.fromByte (7 % 256))
                  RecordType.binaryArray (by rfl)]
              rw [Dec.bind_ok (show readBinaryArrayFull f ⟨i32Bytes oid ++ ((bate % 256) ::
                  (i32Bytes rank ++ ((lengths.map i32Bytes).flatten ++ (te.val ::
                  (writeAdditionalInfo ati ++ (tail ++ rest)))))), reg, lr⟩ =
                  .ok (.binaryArray oid bate rank lengths Option.none te ati elems,
                    ⟨rest, reg', lr'⟩) from by
                rw [readBinaryArrayFull.eq_def]
                rw [Dec.bind_ok (readI32_bytes oid o1 o2 _ reg lr)]
                rw [Dec.bind_ok (readU8_cons (bate % 256) _ reg lr)]
                simp only [Nat.mod_eq_of_lt hbate]
                rw [Dec.bind_ok (readI32_bytes rank r1 r2 _ reg lr)]
                rw [show rank.toNat = lengths.length from by omega]
                rw [Dec.bind_ok (readListN_i32s lengths _ reg lr hli)]
                rw [if_neg (show ¬(bate = 3 ∨ bate = 4 ∨ bate = 5) from
                  fun h => h.elim n3 fun h => h.elim n4 n5)]
                rw [Dec.pure_bind]
                rw [Dec.bind_ok (readU8_cons te.val _ reg lr)]
                rw [show liftE (BinaryType.fromByte (te.val % 256)) = liftE (.ok te) from by
                  rw [Nat.mod_eq_of_lt (binaryType_val_lt te), binaryType_fromByte_val te]]
                rw [Dec.liftE_bind _ te rfl]
                rw [Dec.bind_ok (readAdditionalInfo_roundTrip te ati hent _ reg lr)]
                simp only [Dec.bind_ok helems, Dec.pure_def])]
              rw [Dec.pure_def]
            | some bs =>
              simp only [Bool.and_eq_true, Bool.or_eq_true, beq_iff_eq] at hlb
              obtain ⟨⟨h345, hbsl⟩, hbsa⟩ := hlb
              simp only [List.cons_append, List.nil_append, List.append_assoc, decodeNext,
                Dec.bind_ok (readU8_cons 7 (i32Bytes oid ++ ((bate % 256) ::
                  (i32Bytes rank ++ ((lengths.map i32Bytes).flatten ++
                  ((bs.map i32Bytes).flatten ++ (te.val ::
                  (writeAdditionalInfo ati ++ (tail ++ rest)))))))) reg lr),
                Dec.liftE_bind (RecordType.fromByte (7 % 256))
                  RecordType.binaryArray (by rfl)]
              rw [Dec.bind_ok (show readBinaryArrayFull f ⟨i32Bytes oid ++ ((bate % 256) ::
                  (i32Bytes rank ++ ((lengths.map i32Bytes).flatten ++
                  ((bs.map i32Bytes).flatten ++ (te.val ::
                  (writeAdditionalInfo ati ++ (tail ++ rest))))))), reg, lr⟩ =
                  .ok (.binaryArray oid bate rank lengths (some bs) te ati elems,
                    ⟨rest, reg', lr'⟩) from by
                rw [readBinaryArrayFull.eq_def]
                rw [Dec.bind_ok (readI32_bytes oid o1 o2 _ reg lr)]
                rw [Dec.bind_ok (readU8_cons (bate % 256) _ reg lr)]
                simp only [Nat.mod_eq_of_lt hbate]
                rw [Dec.bind_ok (readI32_bytes rank r1 r2 _ reg lr)]
                rw [show rank.toNat = lengths.length from by omega]
                rw [Dec.bind_ok (readListN_i32s lengths _ reg lr hli)]
                rw [if_pos (show bate = 3 ∨ bate = 4 ∨ bate = 5 by omega)]
                rw [show lengths.length = bs.length from by omega]
                rw [Dec.bind_ok (readListN_i32s bs _ reg lr hbsa)]
                rw [Dec.pure_bind]
                rw [Dec.bind_ok (readU8_cons te.val _ reg lr)]
                rw [show liftE (BinaryType.fromByte (te.val % 256)) = liftE (.ok te) from by
                  rw [Nat.mod_eq_of_lt (binaryType_val_lt te), binaryType_fromByte_val te]]
                rw [Dec.liftE_bind _ te rfl]
                rw [Dec.bind_ok (readAdditionalInfo_roundTrip te ati hent _ reg lr)]
                simp only [Dec.bind_ok helems, Dec.pure_def])]
              rw [Dec.pure_def]
          case _ =>
            split at hchk
            next pt =>
              split at hchk
              next hall =>
                simp only [Option.some.injEq, Prod.mk.injEq] at hchk
                obtain ⟨rfl, rfl⟩ := hchk
                have hpt : pt ≠ .null := by
                  simp only [entryOk, Bool.not_eq_true', beq_eq_false_iff_ne] at hent
                  exact hent
                rw [readAllElements_def]
                exact readAllElementsAux_prims f pt hpt elems _ (wrapProduct lengths) 0
                  tail rest reg lr hall htail (by omega) (by omega)
              next => exact absurd hchk (by simp)
            next => exact absurd hchk (by simp)
            next h1 h2 =>
              have hte : te ≠ .primitive := by
                intro he
                subst he
                cases hati : ati with
                | primitive pt => exact h2 pt rfl hati
                | _ =>
                  rw [hati] at hent
                  simp [entryOk] at hent
              rw [readAllElements_def]
              exact ((ihv elems hsz).2.2) te ati _ (wrapProduct lengths) 0 reg lr reg' lr'
                tail rest f hchk htail htailf hte (by omega) (by omega)
        next => exact absurd hchk (by simp)
    · intro vals hsize
      refine ⟨?_, ?_, ?_⟩
      · -- TypedRT
        cases vals with
        | nil =>
          intro mti i reg lr reg' lr' bytes rest f hchk hlens hlen henc hf
          have hd1 : mti.binary_type_enums.drop i = [] :=
            List.drop_eq_nil_of_le (by simp at hlen; omega)
          have hd2 : mti.additional_infos.drop i = [] :=
            List.drop_eq_nil_of_le (by simp at hlen; omega)
          rw [hd1, hd2] at hchk
          simp only [List.zip_nil_left, checkValuesTyped, Option.some.injEq,
            Prod.mk.injEq] at hchk
          obtain ⟨rfl, rfl⟩ := hchk
          simp only [encodeObjectValues, Except.ok.injEq] at henc
          subst henc
          simp only [List.length_nil, List.nil_append]
          rw [readAllMemberValuesAux_zero]
        | cons v vs =>
          intro mti i reg lr reg' lr' bytes rest f hchk hlens hlen henc hf
          have hszcons := hsize
          simp only [List.cons.sizeOf_spec] at hszcons
          have hilt : i < mti.binary_type_enums.length := by simp at hlen; omega
          have hilt2 : i < mti.additional_infos.length := by omega
          rw [List.drop_eq_getElem_cons hilt, List.drop_eq_getElem_cons hilt2,
            List.zip_cons_cons] at hchk
          obtain ⟨hd, tl, hev, htl, rfl⟩ := encodeObjectValues_cons v vs bytes henc
          have htlf : tl.length < f := by
            have := hf
            simp only [List.length_append] at this
            omega
          have hg1 : mti.binary_type_enums.getD i BinaryType.primitive =
              mti.binary_type_enums[i] := List.getD_eq_getElem _ _ hilt
          have hg2 : mti.additional_infos.getD i AdditionalTypeInfo.none =
              mti.additional_infos[i] := List.getD_eq_getElem _ _ hilt2
          cases v with
          | primitive pv =>
            cases hbt : mti.binary_type_enums[i] with
            | primitive =>
              cases hai : mti.additional_infos[i] with
              | primitive pt =>
                rw [hbt, hai] at hchk
                simp only [checkValuesTyped] at hchk
                split at hchk
                case isFalse => exact absurd hchk (by simp)
                case isTrue hcond =>
                  simp only [Bool.and_eq_true, Bool.not_eq_true', beq_eq_false_iff_ne] at hcond
                  obtain ⟨hptn, hpv⟩ := hcond
                  obtain ⟨bs, hw, hr⟩ := primRoundTrip pt pv hpv
                  rw [encodeObjectValue_prim pv (primOk_ne_null pt pv hptn hpv), hw] at hev
                  obtain rfl : bs = hd := Except.ok.inj hev
                  have hro : readObjectValue f .primitive (.primitive pt)
                      ⟨(bs ++ tl) ++ rest, reg, lr⟩ =
                      .ok (.primitive pv, ⟨tl ++ rest, reg, lr⟩) := by
                    simp only [readObjectValue, List.append_assoc]
                    rw [Dec.bind_ok (hr _ _ _), Dec.pure_def]
                  have hrec := ((ihv vs (by omega)).1) mti (i + 1) reg lr reg' lr' tl rest f
                    hchk hlens (by simp only [List.length_cons] at hlen; omega) htl htlf
                  simp only [List.length_cons]
                  rw [readAllMemberValuesAux_succ]
                  simp only [hg1, hg2, hbt, hai, Dec.bind_ok hro, Dec.bind_ok hrec,
                    Dec.pure_def]
              | systemClass s =>
                rw [hbt, hai] at hchk
                simp only [checkValuesTyped] at hchk
                exact absurd hchk (by simp)
              | classType c =>
                rw [hbt, hai] at hchk
                simp only [checkValuesTyped] at hchk
                exact absurd hchk (by simp)
              | none =>
                rw [hbt, hai] at hchk
                simp only [checkValuesTyped] at hchk
                exact absurd hchk (by simp)
            | string =>
              rw [hbt] at hchk
              rw [checkValuesTyped_prim_mismatch _ _ (by simp) _ _ _ _ _] at hchk
              exact absurd hchk (by simp)
            | object =>
              rw [hbt] at hchk
              rw [checkValuesTyped_prim_mismatch _ _ (by simp) _ _ _ _ _] at hchk
              exact absurd hchk (by simp)
            | systemClass =>
              rw [hbt] at hchk
              rw [checkValuesTyped_prim_mismatch _ _ (by simp) _ _ _ _ _] at hchk
              exact absurd hchk (by simp)
            | classType =>
              rw [hbt] at hchk
              rw [checkValuesTyped_prim_mismatch _ _ (by simp) _ _ _ _ _] at hchk
              exact absurd hchk (by simp)
            | objectArray =>
              rw [hbt] at hchk
              rw [checkValuesTyped_prim_mismatch _ _ (by simp) _ _ _ _ _] at hchk
              exact absurd hchk (by simp)
            | stringArray =>
              rw [hbt] at hchk
              rw [checkValuesTyped_prim_mismatch _ _ (by simp) _ _ _ _ _] at hchk
              exact absurd hchk (by simp)
            | primitiveArray =>
              rw [hbt] at hchk
              rw [checkValuesTyped_prim_mismatch _ _ (by simp) _ _ _ _ _] at hchk
              exact absurd hchk (by simp)
          | record r =>
            have hszr : sizeOf r < n := by
              simp only [ObjectValue.record.sizeOf_spec] at hszcons
              omega
            by_cases hbtp : mti.binary_type_enums[i] = BinaryType.primitive
            · rw [hbtp] at hchk
              cases hai : mti.additional_infos[i] <;> rw [hai] at hchk <;>
                simp only [checkValuesTyped] at hchk <;> exact absurd hchk (by simp)
            · rw [checkValuesTyped_record_cons _ _ hbtp] at hchk
              split at hchk
              next reg₁ lr₁ heq =>
                simp only [encodeObjectValue] at hev
                have hdec := ihr r hszr reg lr reg₁ lr₁ hd (tl ++ rest) f heq hev
                  (by simp only [List.length_append] at hf; omega)
                have hro := readObjectValue_record f _ (mti.additional_infos[i]) hbtp _ _ _ hdec
                have hrec := ((ihv vs (by omega)).1) mti (i + 1) reg₁ lr₁ reg' lr' tl rest f
                  hchk hlens (by simp only [List.length_cons] at hlen; omega) htl htlf
                simp only [List.length_cons]
                rw [readAllMemberValuesAux_succ]
                simp only [hg1, hg2, Dec.bind_ok hro, Dec.bind_ok hrec, Dec.pure_def,
                  List.append_assoc]
              next => exact absurd hchk (by simp)
      · -- UntypedRT
        cases vals with
        | nil =>
          intro i reg lr reg' lr' bytes rest f hchk henc hf
          simp only [checkValuesUntyped, Option.some.injEq, Prod.mk.injEq] at hchk
          obtain ⟨rfl, rfl⟩ := hchk
          simp only [encodeObjectValues, Except.ok.injEq] at henc
          subst henc
          simp only [List.length_nil, List.nil_append]
          rw [readAllMemberValuesAux_zero]
        | cons v vs =>
          intro i reg lr reg' lr' bytes rest f hchk henc hf
          have hszcons := hsize
          simp only [List.cons.sizeOf_spec] at hszcons
          obtain ⟨hd, tl, hev, htl, rfl⟩ := encodeObjectValues_cons v vs bytes henc
          have htlf : tl.length < f := by
            simp only [List.length_append] at hf
            omega
          cases v with
          | primitive pv =>
            simp only [checkValuesUntyped] at hchk
            exact absurd hchk (by simp)
          | record r =>
            have hszr : sizeOf r < n := by
              simp only [ObjectValue.record.sizeOf_spec] at hszcons
              omega
            simp only [checkValuesUntyped] at hchk
            split at hchk
            next reg₁ lr₁ heq =>
              simp only [encodeObjectValue] at hev
              have hdec := ihr r hszr reg lr reg₁ lr₁ hd (tl ++ rest) f heq hev
                (by simp only [List.length_append] at hf; omega)
              have hrec := ((ihv vs (by omega)).2.1) (i + 1) reg₁ lr₁ reg' lr' tl rest f
                hchk htl htlf
              simp only [List.length_cons]
              rw [readAllMemberValuesAux_succ]
              simp only [Dec.bind_ok hdec, Dec.pure_bind, Dec.bind_ok hrec, Dec.pure_def,
                List.append_assoc]
            next => exact absurd hchk (by simp)
      · -- ElemsRT
        cases vals with
        | nil =>
          intro bt ai sf count i reg lr reg' lr' bytes rest f hchk henc hf hbt hcount hsf
          simp only [checkElements, Option.some.injEq, Prod.mk.injEq] at hchk
          obtain ⟨rfl, rfl⟩ := hchk
          simp only [encodeObjectValues, Except.ok.injEq] at henc
          subst henc
          rw [readAllElementsAux_done _ _ _ _ _ _ (by simp at hcount; omega)]
          simp
        | cons v vs =>
          intro bt ai sf count i reg lr reg' lr' bytes rest f hchk henc hf hbt hcount hsf
          have hszcons := hsize
          simp only [List.cons.sizeOf_spec] at hszcons
          have hic : i < count := by
            simp only [List.length_cons] at hcount
            omega
          obtain ⟨hd, tl, hev, htl, rfl⟩ := encodeObjectValues_cons v vs bytes henc
          have htlf : tl.length < f := by
            simp only [List.length_append] at hf
            omega
          cases sf with
          | zero => simp at hsf
          | succ sf =>
          cases v with
          | primitive pv =>
            cases pv
            case null =>
              simp only [checkElements] at hchk
              simp only [encodeObjectValue] at hev
              obtain rfl : [10] = hd := Except.ok.inj hev
              cases f with
              | zero => omega
              | succ f =>
                have hdec := decodeNext_objectNull f (tl ++ rest) reg lr
                have hro := readObjectValue_record (f + 1) bt ai hbt _ _ _ hdec
                have hrec := ((ihv vs (by omega)).2.2) bt ai sf count (i + 1) reg lr reg' lr'
                  tl rest (f + 1) hchk htl htlf hbt
                  (by simp only [List.length_cons] at hcount; omega)
                  (by simp only [List.length_cons] at hsf; omega)
                exact readAllElementsAux_step_null (f + 1) sf count i bt ai _ _ _ vs hic
                  (by simpa using hro) hrec
            all_goals
              simp only [checkElements] at hchk
              exact absurd hchk (by simp)
          | record r =>
            have hszr : sizeOf r < n := by
              simp only [ObjectValue.record.sizeOf_spec] at hszcons
              omega
            cases r
            case objectNull =>
              simp only [checkElements] at hchk
              exact absurd hchk (by simp)
            case objectNullMultiple c =>
              simp only [checkElements] at hchk
              exact absurd hchk (by simp)
            case objectNullMultiple256 c =>
              simp only [checkElements] at hchk
              exact absurd hchk (by simp)
            all_goals
              simp only [checkElements] at hchk
              split at hchk
              next reg₁ lr₁ heq =>
                simp only [encodeObjectValue] at hev
                have hdec := ihr _ hszr reg lr reg₁ lr₁ hd (tl ++ rest) f heq hev
                  (by simp only [List.length_append] at hf; omega)
                have hro := readObjectValue_record f _ ai hbt _ _ _ hdec
                have hrec := ((ihv vs (by omega)).2.2) bt ai sf count (i + 1) reg₁ lr₁
                  reg' lr' tl rest f hchk htl htlf hbt
                  (by simp only [List.length_cons] at hcount; omega)
                  (by simp only [List.length_cons] at hsf; omega)
                exact readAllElementsAux_step_record f sf count i bt ai _ _ _ _ vs
                  (by simp) (fun c => by simp) (fun c => by simp) hic
                  (by simpa using hro) hrec
              next => exact absurd hchk (by simp)



/-- Destructuring a successful record-sequence encoding. -/
theorem encodeRecords_cons (r : Record) (rs : List Record) (bytes : List Nat)
    (h : encodeRecords (r :: rs) = .ok bytes) :
    ∃ hd tl, encodeRecord r = .ok hd ∧ encodeRecords rs = .ok tl ∧ bytes = hd ++ tl := by
  cases hv : encodeRecord r with
  | error e => simp [encodeRecords, hv, bind, Except.bind] at h
  | ok hd =>
    cases htl : encodeRecords rs with
    | error e => simp [encodeRecords, hv, htl, bind, Except.bind] at h
    | ok tl =>
      simp only [encodeRecords, hv, htl, bind, Except.bind, pure, Except.pure,
        Except.ok.injEq] at h
      exact ⟨hd, tl, rfl, rfl, h.symm⟩

/-- Every encoded record starts with its tag byte, so is nonempty. -/
theorem encodeRecord_length_pos (r : Record) (bytes : List Nat)
    (h : encodeRecord r = .ok bytes) : 1 ≤ bytes.length := by
  cases r <;> simp only [encodeRecord] at h <;>
    first
    | (obtain ⟨tl, ht, rfl⟩ := encBind_inv _ _ _ h; simp)
    | (rw [← Except.ok.inj h]; simp)

/-- A stream holds at least one byte per record. -/
theorem encodeRecords_length (rs : List Record) :
    ∀ S, encodeRecords rs = .ok S → rs.length ≤ S.length := by
  induction rs with
  | nil => intro S h; simp
  | cons r rs ih =>
    intro S h
    obtain ⟨hd, tl, h1, h2, rfl⟩ := encodeRecords_cons r rs S h
    have := encodeRecord_length_pos r hd h1
    have := ih tl h2
    simp only [List.length_cons, List.length_append]
    omega

/-- The whole-stream loop returns exactly the checked record sequence it
was rendered from. -/
theorem decodeAll_render (rs : List Record) :
    ∀ (reg : Reg) (lr : Libs) (reg' : Reg) (lr' : Libs) (S : List Nat) (fuel : Nat),
      checkRecords reg lr rs = some (reg', lr') →
      encodeRecords rs = .ok S →
      rs.length < fuel →
      decodeAll fuel ⟨S, reg, lr⟩ = .ok rs := by
  induction rs with
  | nil =>
    intro reg lr reg' lr' S fuel hchk henc hlen
    simp only [checkRecords, Option.some.injEq, Prod.mk.injEq] at hchk
    obtain ⟨rfl, rfl⟩ := hchk
    obtain rfl : ([] : List Nat) = S := Except.ok.inj henc
    cases fuel with
    | zero => omega
    | succ f => simp only [decodeAll, decodeNext, List.length_nil]
  | cons r rs ih =>
    intro reg lr reg' lr' S fuel hchk henc hlen
    simp only [checkRecords] at hchk
    split at hchk
    next reg₁ lr₁ hcr =>
      obtain ⟨hd, tl, henc1, henc2, rfl⟩ := encodeRecords_cons r rs S henc
      cases fuel with
      | zero => omega
      | succ f =>
        have hrt := (renderParse_main (sizeOf r)).1 r le_rfl reg lr reg₁ lr₁ hd tl
          ((hd ++ tl).length + 1) hcr henc1 (by simp only [List.length_append]; omega)
        have hrest := ih reg₁ lr₁ reg' lr' tl f hchk henc2
          (by simp only [List.length_cons] at hlen; omega)
        simp only [decodeAll, hrt, hrest]
    next => exact absurd hchk (by simp)


/-! ## C1: byte-exact round-trip of well-formed streams -/

/-- C1: a well-formed NRBF stream — the canonical rendering of a record
sequence accepted by `checkRecords`, which in particular writes array null
runs as repeated `ObjectNull` records (the only unambiguous physical form,
matching the claim's carve-out) — decodes to exactly that record sequence,
and re-encoding reproduces the stream byte for byte:
`encode (decode S) = S`. -/
theorem c1_encode_decode_byte_exact (S : List Nat) (rs : List Record)
    (reg' : Reg) (lr' : Libs)
    (hchk : checkRecords [] [] rs = some (reg', lr'))
    (henc : encodeRecords rs = .ok S) :
    (parseStream S >>= encodeRecords) = .ok S := by
  have hda := decodeAll_render rs [] [] reg' lr' S (S.length + 1) hchk henc
    (by have := encodeRecords_length rs S henc; omega)
  simp only [parseStream, mkSt, hda, bind, Except.bind]
  exact henc

/-- C1 witness: a concrete two-record stream (a `BinaryObjectString`
holding "hi" and `MessageEnd`) satisfying both hypotheses, with the
round-trip instantiated on it. -/
theorem c1_encode_decode_byte_exact_witness :
    checkRecords [] [] [Record.binaryObjectString 1 [104, 105], Record.messageEnd] =
      some ([], []) ∧
    encodeRecords [Record.binaryObjectString 1 [104, 105], Record.messageEnd] =
      .ok [6, 1, 0, 0, 0, 2, 104, 105, 11] ∧
    (parseStream [6, 1, 0, 0, 0, 2, 104, 105, 11] >>= encodeRecords) =
      .ok [6, 1, 0, 0, 0, 2, 104, 105, 11] := by
  have hchk : checkRecords [] []
      [Record.binaryObjectString 1 [104, 105], Record.messageEnd] = some ([], []) := by
    simp [checkRecords, checkRecord, show i32ok (1 : Int) = true from by decide,
      show lpsOk [104, 105] = true from by decide]
  have hwl : writeLengthPrefixedString [104, 105] = [2, 104, 105] := by
    unfold writeLengthPrefixedString
    rw [show toSigned32 ([104, 105] : List Nat).length = 2 from by decide,
      show writeVLI 2 = [2] from by simp [writeVLI]]
    rfl
  have henc : encodeRecords [Record.binaryObjectString 1 [104, 105], Record.messageEnd] =
      .ok [6, 1, 0, 0, 0, 2, 104, 105, 11] := by
    simp [encodeRecords, encodeRecord, bind, Except.bind, pure, Except.pure, hwl,
      show i32Bytes 1 = [1, 0, 0, 0] from by decide]
  exact ⟨hchk, henc, c1_encode_decode_byte_exact _ _ _ _ hchk henc⟩


/-! ## C3: element-count behaviour of the array element loop -/

/-- Element-loop step on a decoded `ObjectNullMultiple256`: `c` null slots,
the run record itself not emitted. -/
theorem readAllElementsAux_step_run256 (f sf : Nat) (count i : Int) (bt : BinaryType)
    (ai : AdditionalTypeInfo) (st st₁ st₂ : DecSt) (c : Nat) (vs : List ObjectValue)
    (hic : i < count)
    (hro : readObjectValue f bt ai st = .ok (.record (.objectNullMultiple256 c), st₁))
    (hrec : readAllElementsAux f sf count (i + (c : Int)) bt ai st₁ = .ok (vs, st₂)) :
    readAllElementsAux f (sf + 1) count i bt ai st =
      .ok (List.replicate c (ObjectValue.primitive .null) ++ vs, st₂) := by
  rw [readAllElementsAux_succ _ _ _ _ _ _ hic, Dec.bind_ok hro]
  simp only [Dec.bind_ok hrec, Dec.pure_def]

/-- Element-loop step on a decoded `ObjectNullMultiple`: `c.toNat` null
slots, the run record itself not emitted. -/
theorem readAllElementsAux_step_run (f sf : Nat) (count i : Int) (bt : BinaryType)
    (ai : AdditionalTypeInfo) (st st₁ st₂ : DecSt) (c : Int) (vs : List ObjectValue)
    (hic : i < count)
    (hro : readObjectValue f bt ai st = .ok (.record (.objectNullMultiple c), st₁))
    (hrec : readAllElementsAux f sf count (i + (c.toNat : Int)) bt ai st₁ = .ok (vs, st₂)) :
    readAllElementsAux f (sf + 1) count i bt ai st =
      .ok (List.replicate c.toNat (ObjectValue.primitive .null) ++ vs, st₂) := by
  rw [readAllElementsAux_succ _ _ _ _ _ _ hic, Dec.bind_ok hro]
  simp only [Dec.bind_ok hrec, Dec.pure_def]

/-- The stream loop, unfolded one record (structural, so `rfl`). -/
theorem decodeAll_succ (f : Nat) (st : DecSt) :
    decodeAll (f + 1) st =
      match decodeNext (st.input.length + 1) st with
      | .error e => .error e
      | .ok (.none, _) => .ok []
      | .ok (some r, st') =>
        match decodeAll f st' with
        | .error e => .error e
        | .ok rs => .ok (r :: rs) := rfl


/-- C3 (amended): after a successful run of the element loop the
`element_values` list has AT LEAST the declared count of entries — each
physical `ObjectNull` contributes one `Primitive(Null)` slot, each
`ObjectNullMultiple256` with count `c` contributes exactly `c` slots and
each `ObjectNullMultiple` with count `c` exactly `c.toNat` slots, the
null-run record itself never being emitted; a run whose count overshoots
the remaining slots makes the list strictly longer than declared, so
exactly-`L` does not hold in general (see the counterexample). -/
theorem c3_element_count_expansion :
    (∀ (f : Nat) (count : Int) (bt : BinaryType) (ai : AdditionalTypeInfo)
      (st st' : DecSt) (vals : List ObjectValue),
      readAllElements f count bt ai st = .ok (vals, st') →
      count.toNat ≤ vals.length) ∧
    (∀ (f sf : Nat) (count i : Int) (bt : BinaryType) (ai : AdditionalTypeInfo)
      (st st₁ st₂ : DecSt) (vs : List ObjectValue), i < count →
      readObjectValue f bt ai st = .ok (.record .objectNull, st₁) →
      readAllElementsAux f sf count (i + 1) bt ai st₁ = .ok (vs, st₂) →
      readAllElementsAux f (sf + 1) count i bt ai st =
        .ok (ObjectValue.primitive .null :: vs, st₂)) ∧
    (∀ (f sf : Nat) (count i : Int) (bt : BinaryType) (ai : AdditionalTypeInfo)
      (st st₁ st₂ : DecSt) (c : Nat) (vs : List ObjectValue), i < count →
      readObjectValue f bt ai st = .ok (.record (.objectNullMultiple256 c), st₁) →
      readAllElementsAux f sf count (i + (c : Int)) bt ai st₁ = .ok (vs, st₂) →
      readAllElementsAux f (sf + 1) count i bt ai st =
        .ok (List.replicate c (ObjectValue.primitive .null) ++ vs, st₂)) ∧
    (∀ (f sf : Nat) (count i : Int) (bt : BinaryType) (ai : AdditionalTypeInfo)
      (st st₁ st₂ : DecSt) (c : Int) (vs : List ObjectValue), i < count →
      readObjectValue f bt ai st = .ok (.record (.objectNullMultiple c), st₁) →
      readAllElementsAux f sf count (i + (c.toNat : Int)) bt ai st₁ = .ok (vs, st₂) →
      readAllElementsAux f (sf + 1) count i bt ai st =
        .ok (List.replicate c.toNat (ObjectValue.primitive .null) ++ vs, st₂)) := by
  refine ⟨?_, ?_, ?_, ?_⟩
  · intro f count bt ai st st' vals h
    rw [readAllElements_def] at h
    have := readAllElementsAux_length f count bt ai _ 0 st st' vals h
    omega
  · intro f sf count i bt ai st st₁ st₂ vs hic hro hrec
    exact readAllElementsAux_step_null f sf count i bt ai st st₁ st₂ vs hic hro hrec
  · intro f sf count i bt ai st st₁ st₂ c vs hic hro hrec
    exact readAllElementsAux_step_run256 f sf count i bt ai st st₁ st₂ c vs hic hro hrec
  · intro f sf count i bt ai st st₁ st₂ c vs hic hro hrec
    exact readAllElementsAux_step_run f sf count i bt ai st st₁ st₂ c vs hic hro hrec

/-- C3 counterexample to exactly-`L`: an `ArraySingleObject` declaring
length 1 whose single slot is filled by an `ObjectNullMultiple256` run of
count 2 decodes successfully — with 2 entries in `element_values`. -/
theorem c3_declared_length_exceeded :
    parseStream [16, 1, 0, 0, 0, 1, 0, 0, 0, 13, 2] =
      .ok [.arraySingleObject 1 1
        [ObjectValue.primitive .null, ObjectValue.primitive .null]] ∧
    ¬ ([ObjectValue.primitive PrimitiveValue.null,
        ObjectValue.primitive PrimitiveValue.null] : List ObjectValue).length =
      (1 : Int).toNat := by
  have h1 : decodeNext (10 + 1) ⟨[13, 2], [], []⟩ =
      .ok (some (.objectNullMultiple256 2), ⟨[], [], []⟩) := by
    simp only [decodeNext, Dec.bind_ok (readU8_cons 13 [2] [] []),
      Dec.liftE_bind (RecordType.fromByte (13 % 256))
        RecordType.objectNullMultiple256 (by rfl),
      Dec.bind_ok (readU8_cons 2 [] [] []), Dec.pure_def]
  have h2 : readObjectValue 11 .object .none ⟨[13, 2], [], []⟩ =
      .ok (.record (.objectNullMultiple256 2), ⟨[], [], []⟩) := by
    simp only [readObjectValue, Dec.bind_ok h1, Dec.pure_def]
  have h4 : readAllElementsAux 11 4 1 0 .object .none ⟨[13, 2], [], []⟩ =
      .ok ([ObjectValue.primitive .null, ObjectValue.primitive .null], ⟨[], [], []⟩) := by
    have h3 : readAllElementsAux 11 3 1 (0 + ((2 : Nat) : Int)) .object .none
        ⟨[], [], []⟩ = .ok ([], ⟨[], [], []⟩) :=
      readAllElementsAux_done 11 3 1 _ .object .none (by omega) _
    have h := readAllElementsAux_step_run256 11 3 1 0 .object .none
      ⟨[13, 2], [], []⟩ ⟨[], [], []⟩ ⟨[], [], []⟩ 2 [] (by omega) h2 h3
    simpa using h
  have h5 : decodeNext (11 + 1) ⟨[16, 1, 0, 0, 0, 1, 0, 0, 0, 13, 2], [], []⟩ =
      .ok (some (.arraySingleObject 1 1
        [ObjectValue.primitive .null, ObjectValue.primitive .null]), ⟨[], [], []⟩) := by
    simp only [decodeNext,
      Dec.bind_ok (readU8_cons 16 [1, 0, 0, 0, 1, 0, 0, 0, 13, 2] [] []),
      Dec.liftE_bind (RecordType.fromByte (16 % 256))
        RecordType.arraySingleObject (by rfl)]
    rw [Dec.bind_ok (show readI32 ⟨[1, 0, 0, 0, 1, 0, 0, 0, 13, 2], [], []⟩ =
      .ok (1, ⟨[1, 0, 0, 0, 13, 2], [], []⟩) from rfl)]
    rw [Dec.bind_ok (show readI32 ⟨[1, 0, 0, 0, 13, 2], [], []⟩ =
      .ok (1, ⟨[13, 2], [], []⟩) from rfl)]
    rw [Dec.bind_ok (show readAllElements 11 1 .object .none ⟨[13, 2], [], []⟩ =
        .ok ([ObjectValue.primitive .null, ObjectValue.primitive .null],
          ⟨[], [], []⟩) from by
      rw [readAllElements_def]
      exact h4)]
    rw [Dec.pure_def]
  have h7 : decodeNext 1 ⟨[], [], []⟩ = .ok (Option.none, ⟨[], [], []⟩) := by
    show decodeNext (0 + 1) ⟨[], [], []⟩ = _
    simp only [decodeNext]
  refine ⟨?_, by decide⟩
  simp only [parseStream, mkSt, decodeAll_succ, List.length_cons, List.length_nil, h5, h7]

/-- C3 witness: concrete runs of each conjunct of the element-count
theorem — an empty loop, a single `ObjectNull`, an `ObjectNullMultiple256`
of count 2 and an `ObjectNullMultiple` of count 2. -/
theorem c3_element_count_expansion_witness :
    (readAllElements 0 0 .object .none ⟨[], [], []⟩ = .ok ([], ⟨[], [], []⟩) ∧
      (0 : Int).toNat ≤ ([] : List ObjectValue).length) ∧
    readAllElementsAux 1 (0 + 1) 1 0 .object .none ⟨[10], [], []⟩ =
      .ok ([ObjectValue.primitive .null], ⟨[], [], []⟩) ∧
    readAllElementsAux 1 (0 + 1) 1 0 .object .none ⟨[13, 2], [], []⟩ =
      .ok (List.replicate 2 (ObjectValue.primitive .null), ⟨[], [], []⟩) ∧
    readAllElementsAux 1 (0 + 1) 1 0 .object .none ⟨[14, 2, 0, 0, 0], [], []⟩ =
      .ok (List.replicate 2 (ObjectValue.primitive .null), ⟨[], [], []⟩) := by
  have hempty : readAllElements 0 0 .object .none ⟨[], [], []⟩ =
      .ok ([], ⟨[], [], []⟩) := by
    rw [readAllElements_def]
    exact readAllElementsAux_done 0 _ 0 0 .object .none (by omega) _
  have hnull : readObjectValue 1 .object .none ⟨[10], [], []⟩ =
      .ok (.record .objectNull, ⟨[], [], []⟩) :=
    readObjectValue_record 1 .object .none (by simp) _ _ _
      (decodeNext_objectNull 0 [] [] [])
  have hrun256d : decodeNext (0 + 1) ⟨[13, 2], [], []⟩ =
      .ok (some (.objectNullMultiple256 2), ⟨[], [], []⟩) := by
    simp only [decodeNext, Dec.bind_ok (readU8_cons 13 [2] [] []),
      Dec.liftE_bind (RecordType.fromByte (13 % 256))
        RecordType.objectNullMultiple256 (by rfl),
      Dec.bind_ok (readU8_cons 2 [] [] []), Dec.pure_def]
  have hrun256 : readObjectValue 1 .object .none ⟨[13, 2], [], []⟩ =
      .ok (.record (.objectNullMultiple256 2), ⟨[], [], []⟩) := by
    simp only [readObjectValue, Dec.bind_ok hrun256d, Dec.pure_def]
  have hrund : decodeNext (0 + 1) ⟨[14, 2, 0, 0, 0], [], []⟩ =
      .ok (some (.objectNullMultiple 2), ⟨[], [], []⟩) := by
    simp only [decodeNext, Dec.bind_ok (readU8_cons 14 [2, 0, 0, 0] [] []),
      Dec.liftE_bind (RecordType.fromByte (14 % 256))
        RecordType.objectNullMultiple (by rfl)]
    rw [Dec.bind_ok (show readI32 ⟨[2, 0, 0, 0], [], []⟩ =
      .ok (2, ⟨[], [], []⟩) from rfl), Dec.pure_def]
  have hrun : readObjectValue 1 .object .none ⟨[14, 2, 0, 0, 0], [], []⟩ =
      .ok (.record (.objectNullMultiple 2), ⟨[], [], []⟩) := by
    simp only [readObjectValue, Dec.bind_ok hrund, Dec.pure_def]
  refine ⟨⟨hempty, c3_element_count_expansion.1 0 0 .object .none _ _ _ hempty⟩, ?_, ?_, ?_⟩
  · exact c3_element_count_expansion.2.1 1 0 1 0 .object .none _ _ _ [] (by omega) hnull
      (readAllElementsAux_done 1 0 1 _ .object .none (by omega) _)
  · have h := c3_element_count_expansion.2.2.1 1 0 1 0 .object .none _ _ _ 2 []
      (by omega) hrun256
      (readAllElementsAux_done 1 0 1 _ .object .none (by omega) _)
    simpa using h
  · have h := c3_element_count_expansion.2.2.2 1 0 1 0 .object .none _ _ _ 2 []
      (by omega) hrun
      (readAllElementsAux_done 1 0 1 _ .object .none (by omega) _)
    simpa using h


/-! ## C4: `read_class_with_id` -/

/-- C4: decoding a `ClassWithId` reads object-id then metadata-id; a
metadata-id absent from the class-metadata registry is a fatal error, and
a registered one makes the decoder read exactly `member_count` member
values (the loop bound) using the stored `MemberTypeInfo` layout. -/
theorem c4_class_with_id_lookup (f : Nat) (oid mid : Int)
    (ho1 : -2147483648 ≤ oid) (ho2 : oid < 2147483648)
    (hm1 : -2147483648 ≤ mid) (hm2 : mid < 2147483648)
    (rest : List Nat) (reg : Reg) (lr : Libs) :
    (regGet mid reg = Option.none →
      readClassWithId f ⟨i32Bytes oid ++ (i32Bytes mid ++ rest), reg, lr⟩ =
        .error (.custom "Metadata ID not found")) ∧
    (∀ info : ClassInfoWithTypes, regGet mid reg = some info →
      readClassWithId f ⟨i32Bytes oid ++ (i32Bytes mid ++ rest), reg, lr⟩ =
        (readAllMemberValuesAux f info.member_type_info 0
            info.class_info.member_count.toNat >>= fun mv =>
          pure (Record.classWithId oid mid mv)) ⟨rest, reg, lr⟩) := by
  constructor
  · intro hnone
    rw [readClassWithId.eq_def]
    rw [Dec.bind_ok (readI32_bytes oid ho1 ho2 _ reg lr),
      Dec.bind_ok (readI32_bytes mid hm1 hm2 rest reg lr)]
    exact Dec.bind_error (by simp only [getRegistryEntry, hnone])
  · intro info hsome
    rw [readClassWithId.eq_def]
    rw [Dec.bind_ok (readI32_bytes oid ho1 ho2 _ reg lr),
      Dec.bind_ok (readI32_bytes mid hm1 hm2 rest reg lr),
      Dec.bind_ok (getRegistryEntry_ok mid info _ hsome),
      readAllMemberValues_def]

/-- C4 witness: the missing-id error on an empty registry, and a
registered id 5 with a one-member `Int32` layout driving a one-slot typed
member loop. -/
theorem c4_class_with_id_lookup_witness :
    (regGet 5 ([] : Reg) = Option.none ∧
      readClassWithId 3 ⟨i32Bytes 6 ++ (i32Bytes 5 ++ []), [], []⟩ =
        .error (.custom "Metadata ID not found")) ∧
    (regGet 5 (regInsert 5
        ⟨⟨5, [65], 1, [[66]]⟩, some ⟨[.primitive], [.primitive .int32]⟩, Option.none⟩
        ([] : Reg)) =
      some ⟨⟨5, [65], 1, [[66]]⟩, some ⟨[.primitive], [.primitive .int32]⟩,
        Option.none⟩ ∧
      readClassWithId 3 ⟨i32Bytes 6 ++ (i32Bytes 5 ++ []),
          regInsert 5 ⟨⟨5, [65], 1, [[66]]⟩,
            some ⟨[.primitive], [.primitive .int32]⟩, Option.none⟩ [], []⟩ =
        (readAllMemberValuesAux 3
            (some ⟨[.primitive], [.primitive .int32]⟩) 0 (1 : Int).toNat >>= fun mv =>
          pure (Record.classWithId 6 5 mv))
          ⟨[], regInsert 5 ⟨⟨5, [65], 1, [[66]]⟩,
            some ⟨[.primitive], [.primitive .int32]⟩, Option.none⟩ [], []⟩) := by
  refine ⟨⟨rfl, ?_⟩, rfl, ?_⟩
  · exact (c4_class_with_id_lookup 3 6 5 (by decide) (by decide) (by decide) (by decide)
      [] [] []).1 rfl
  · exact (c4_class_with_id_lookup 3 6 5 (by decide) (by decide) (by decide) (by decide)
      [] (regInsert 5 ⟨⟨5, [65], 1, [[66]]⟩,
        some ⟨[.primitive], [.primitive .int32]⟩, Option.none⟩ []) []).2
      ⟨⟨5, [65], 1, [[66]]⟩, some ⟨[.primitive], [.primitive .int32]⟩, Option.none⟩ rfl


/-! ## C9: the registry entry precedes the member reads -/

/-- C9: each of the four class-defining records registers its class
metadata under its object-id BEFORE its member-value loop runs — the loop
executes in a state whose metadata registry already holds the entry — and
a lookup of that object-id in the extended registry succeeds, so a nested
`ClassWithId` whose metadata-id equals the enclosing object-id resolves. -/
theorem c9_registry_before_member_reads :
    (∀ (f : Nat) (ci : ClassInfo) (mti : MemberTypeInfo) (lid : Int) (rest : List Nat)
      (reg : Reg) (lr : Libs), checkClassInfo ci = true →
      checkMti mti ci.member_count = true →
      -2147483648 ≤ lid → lid < 2147483648 →
      readClassWithMembersAndTypes f
        ⟨writeClassInfo ci ++ (writeMemberTypeInfo mti ++ (i32Bytes lid ++ rest)),
          reg, lr⟩ =
        (readAllMemberValuesAux f (some mti) 0 ci.member_count.toNat >>= fun mv =>
          pure (Record.classWithMembersAndTypes ci mti lid mv))
          ⟨rest, regInsert ci.object_id ⟨ci, some mti, some lid⟩ reg, lr⟩) ∧
    (∀ (f : Nat) (ci : ClassInfo) (mti : MemberTypeInfo) (rest : List Nat)
      (reg : Reg) (lr : Libs), checkClassInfo ci = true →
      checkMti mti ci.member_count = true →
      readSystemClassWithMembersAndTypes f
        ⟨writeClassInfo ci ++ (writeMemberTypeInfo mti ++ rest), reg, lr⟩ =
        (readAllMemberValuesAux f (some mti) 0 ci.member_count.toNat >>= fun mv =>
          pure (Record.systemClassWithMembersAndTypes ci mti mv))
          ⟨rest, regInsert ci.object_id ⟨ci, some mti, Option.none⟩ reg, lr⟩) ∧
    (∀ (f : Nat) (ci : ClassInfo) (rest : List Nat) (reg : Reg) (lr : Libs),
      checkClassInfo ci = true →
      readSystemClassWithMembers f ⟨writeClassInfo ci ++ rest, reg, lr⟩ =
        (readAllMemberValuesAux f Option.none 0 ci.member_count.toNat >>= fun mv =>
          pure (Record.systemClassWithMembers ci mv))
          ⟨rest, regInsert ci.object_id ⟨ci, Option.none, Option.none⟩ reg, lr⟩) ∧
    (∀ (f : Nat) (ci : ClassInfo) (lid : Int) (rest : List Nat) (reg : Reg) (lr : Libs),
      checkClassInfo ci = true →
      -2147483648 ≤ lid → lid < 2147483648 →
      readClassWithMembers f
        ⟨writeClassInfo ci ++ (i32Bytes lid ++ rest), reg, lr⟩ =
        (readAllMemberValuesAux f Option.none 0 ci.member_count.toNat >>= fun mv =>
          pure (Record.classWithMembers ci lid mv))
          ⟨rest, regInsert ci.object_id ⟨ci, Option.none, some lid⟩ reg, lr⟩) ∧
    (∀ (k : Int) (e : ClassInfoWithTypes) (reg : Reg),
      regGet k (regInsert k e reg) = some e) := by
  refine ⟨?_, ?_, ?_, ?_, ?_⟩
  · intro f ci mti lid rest reg lr hci hmti l1 l2
    rw [readClassWithMembersAndTypes.eq_def]
    rw [Dec.bind_ok (classInfo_roundTrip ci hci _ reg lr),
      Dec.bind_ok (mti_roundTrip mti ci.member_count hmti _ reg lr),
      Dec.bind_ok (readI32_bytes lid l1 l2 rest reg lr)]
    simp only [Dec.modify_bind]
    rw [readAllMemberValues_def]
  · intro f ci mti rest reg lr hci hmti
    rw [readSystemClassWithMembersAndTypes.eq_def]
    rw [Dec.bind_ok (classInfo_roundTrip ci hci _ reg lr),
      Dec.bind_ok (mti_roundTrip mti ci.member_count hmti rest reg lr)]
    simp only [Dec.modify_bind]
    rw [readAllMemberValues_def]
  · intro f ci rest reg lr hci
    rw [readSystemClassWithMembers.eq_def]
    rw [Dec.bind_ok (classInfo_roundTrip ci hci rest reg lr)]
    simp only [Dec.modify_bind]
    rw [readAllMemberValues_def]
  · intro f ci lid rest reg lr hci l1 l2
    rw [readClassWithMembers.eq_def]
    rw [Dec.bind_ok (classInfo_roundTrip ci hci _ reg lr),
      Dec.bind_ok (readI32_bytes lid l1 l2 rest reg lr)]
    simp only [Dec.modify_bind]
    rw [readAllMemberValues_def]
  · intro k e reg
    simp [regGet, regInsert]

/-- C9 witness: a zero-member class info with object-id 5 instantiating
each of the four insertion equations, and the registry lookup of the
freshly inserted id. -/
theorem c9_registry_before_member_reads_witness :
    readClassWithMembersAndTypes 2
      ⟨writeClassInfo ⟨5, [65], 0, []⟩ ++ (writeMemberTypeInfo ⟨[], []⟩ ++
        (i32Bytes 7 ++ [])), [], []⟩ =
      (readAllMemberValuesAux 2 (some ⟨[], []⟩) 0 (0 : Int).toNat >>= fun mv =>
        pure (Record.classWithMembersAndTypes ⟨5, [65], 0, []⟩ ⟨[], []⟩ 7 mv))
        ⟨[], regInsert 5 ⟨⟨5, [65], 0, []⟩, some ⟨[], []⟩, some 7⟩ [], []⟩ ∧
    readSystemClassWithMembersAndTypes 2
      ⟨writeClassInfo ⟨5, [65], 0, []⟩ ++ (writeMemberTypeInfo ⟨[], []⟩ ++ []),
        [], []⟩ =
      (readAllMemberValuesAux 2 (some ⟨[], []⟩) 0 (0 : Int).toNat >>= fun mv =>
        pure (Record.systemClassWithMembersAndTypes ⟨5, [65], 0, []⟩ ⟨[], []⟩ mv))
        ⟨[], regInsert 5 ⟨⟨5, [65], 0, []⟩, some ⟨[], []⟩, Option.none⟩ [], []⟩ ∧
    readSystemClassWithMembers 2 ⟨writeClassInfo ⟨5, [65], 0, []⟩ ++ [], [], []⟩ =
      (readAllMemberValuesAux 2 Option.none 0 (0 : Int).toNat >>= fun mv =>
        pure (Record.systemClassWithMembers ⟨5, [65], 0, []⟩ mv))
        ⟨[], regInsert 5 ⟨⟨5, [65], 0, []⟩, Option.none, Option.none⟩ [], []⟩ ∧
    readClassWithMembers 2
      ⟨writeClassInfo ⟨5, [65], 0, []⟩ ++ (i32Bytes 7 ++ []), [], []⟩ =
      (readAllMemberValuesAux 2 Option.none 0 (0 : Int).toNat >>= fun mv =>
        pure (Record.classWithMembers ⟨5, [65], 0, []⟩ 7 mv))
        ⟨[], regInsert 5 ⟨⟨5, [65], 0, []⟩, Option.none, some 7⟩ [], []⟩ ∧
    regGet 5 (regInsert 5
      ⟨⟨5, [65], 0, []⟩, some ⟨[], []⟩, some 7⟩ ([] : Reg)) =
      some ⟨⟨5, [65], 0, []⟩, some ⟨[], []⟩, some 7⟩ := by
  refine ⟨?_, ?_, ?_, ?_, ?_⟩
  · exact c9_registry_before_member_reads.1 2 ⟨5, [65], 0, []⟩ ⟨[], []⟩ 7 [] [] []
      (by decide) (by decide) (by decide) (by decide)
  · exact c9_registry_before_member_reads.2.1 2 ⟨5, [65], 0, []⟩ ⟨[], []⟩ [] [] []
      (by decide) (by decide)
  · exact c9_registry_before_member_reads.2.2.1 2 ⟨5, [65], 0, []⟩ [] [] [] (by decide)
  · exact c9_registry_before_member_reads.2.2.2.1 2 ⟨5, [65], 0, []⟩ 7 [] [] []
      (by decide) (by decide) (by decide)
  · exact c9_registry_before_member_reads.2.2.2.2 5
      ⟨⟨5, [65], 0, []⟩, some ⟨[], []⟩, some 7⟩ []


/-! ## C10: the decoder terminates on every finite input

`Err.fuelOut` is the embedding's artifact for running out of fuel; the
source has no corresponding behaviour. Termination of `decode_next` is the
statement that with fuel exceeding the input length — as `parse` supplies —
the artifact never appears: every result is a record, clean end-of-stream,
or a genuine error. -/

/-- At `st`, `m` neither exhausts fuel nor grows the input. -/
def TameAt {α : Type} (m : Dec α) (st : DecSt) : Prop :=
  m st ≠ .error .fuelOut ∧
    ∀ a st', m st = .ok (a, st') → st'.input.length ≤ st.input.length

/-- `TameAt` at every state. -/
def Tame {α : Type} (m : Dec α) : Prop := ∀ st, TameAt m st

theorem TameAt.bind {α β : Type} {m : Dec α} {k : α → Dec β} {st : DecSt}
    (h1 : TameAt m st) (h2 : ∀ a st₁, m st = .ok (a, st₁) → TameAt (k a) st₁) :
    TameAt (m >>= k) st := by
  constructor
  · cases hm : m st with
    | error e =>
      rw [Dec.bind_error hm]
      intro hbad
      obtain rfl := Except.error.inj hbad
      exact h1.1 hm
    | ok p =>
      obtain ⟨a, st₁⟩ := p
      rw [Dec.bind_ok hm]
      exact (h2 a st₁ hm).1
  · intro b st' hok
    cases hm : m st with
    | error e =>
      rw [Dec.bind_error hm] at hok
      exact absurd hok (by simp)
    | ok p =>
      obtain ⟨a, st₁⟩ := p
      rw [Dec.bind_ok hm] at hok
      exact le_trans ((h2 a st₁ hm).2 b st' hok) (h1.2 a st₁ hm)

theorem tame_bind {α β : Type} {m : Dec α} {k : α → Dec β} (hm : Tame m)
    (hk : ∀ a, Tame (k a)) : Tame (m >>= k) :=
  fun st => TameAt.bind (hm st) fun a st₁ _ => hk a st₁

theorem tame_pure {α : Type} (a : α) : Tame (pure a : Dec α) := by
  intro st
  constructor
  · intro h
    exact absurd h (by simp [Dec.pure_def])
  · intro b st' h
    rw [Dec.pure_def] at h
    simp only [Except.ok.injEq, Prod.mk.injEq] at h
    obtain ⟨rfl, rfl⟩ := h
    exact le_refl _

theorem tame_throwE {α : Type} (e : Err) (he : e ≠ .fuelOut) :
    Tame (throwE e : Dec α) := by
  intro st
  constructor
  · intro h
    exact he (Except.error.inj h)
  · intro a st' h
    exact absurd h (by simp [Nrbf.throwE])

theorem tame_liftE {α : Type} (x : Except Err α) (hx : x ≠ .error .fuelOut) :
    Tame (liftE x) := by
  intro st
  cases x with
  | error e =>
    constructor
    · intro h
      obtain rfl := Except.error.inj h
      exact hx rfl
    · intro a st' h
      exact absurd h (by simp [Nrbf.liftE])
  | ok a =>
    constructor
    · intro h
      exact absurd h (by simp [Nrbf.liftE])
    · intro b st' h
      simp only [Nrbf.liftE, Except.ok.injEq, Prod.mk.injEq] at h
      obtain ⟨rfl, rfl⟩ := h
      exact le_refl _

theorem tame_modifySt (g : DecSt → DecSt)
    (hg : ∀ st, (g st).input.length ≤ st.input.length) : Tame (modifySt g) := by
  intro st
  constructor
  · intro h
    exact absurd h (by simp [Nrbf.modifySt])
  · intro a st' h
    simp only [Nrbf.modifySt, Except.ok.injEq, Prod.mk.injEq] at h
    obtain ⟨-, h2⟩ := h
    subst h2
    exact hg st

theorem tame_getRegistryEntry (id : Int) : Tame (getRegistryEntry id) := by
  intro st
  unfold Nrbf.getRegistryEntry
  cases h : regGet id st.metadataRegistry with
  | none =>
    constructor
    · intro hbad
      simp only [h] at hbad
      exact absurd (Except.error.inj hbad) (by simp)
    · intro a st' hok
      simp only [h] at hok
      exact absurd hok (by simp)
  | some m =>
    constructor
    · intro hbad
      simp only [h] at hbad
      exact absurd hbad (by simp)
    · intro a st' hok
      simp only [h, Except.ok.injEq, Prod.mk.injEq] at hok
      obtain ⟨rfl, rfl⟩ := hok
      exact le_refl _

theorem tame_readU8 : Tame readU8 := by
  intro st
  unfold Nrbf.readU8
  cases h : st.input with
  | nil =>
    constructor
    · intro hbad
      simp only [h] at hbad
      exact absurd (Except.error.inj hbad) (by simp)
    · intro a st' hok
      simp only [h] at hok
      exact absurd hok (by simp)
  | cons b tl =>
    constructor
    · intro hbad
      simp only [h] at hbad
      exact absurd hbad (by simp)
    · intro a st' hok
      simp only [h, Except.ok.injEq, Prod.mk.injEq] at hok
      obtain ⟨rfl, rfl⟩ := hok
      simp [h]


theorem tame_readBytes : ∀ n : Nat, Tame (readBytes n) := by
  intro n
  induction n with
  | zero => exact tame_pure []
  | succ n ih =>
    show Tame (Nrbf.readU8 >>= fun b => Nrbf.readBytes n >>= fun rest => pure (b :: rest))
    exact tame_bind tame_readU8 fun b => tame_bind ih fun rest => tame_pure _

theorem tame_readI32 : Tame readI32 :=
  tame_bind tame_readU8 fun _ => tame_bind tame_readU8 fun _ =>
    tame_bind tame_readU8 fun _ => tame_bind tame_readU8 fun _ => tame_pure _

theorem tame_readVLIAux : ∀ (n value shift : Nat), 35 - shift ≤ n →
    Tame (readVLIAux value shift) := by
  intro n
  induction n with
  | zero =>
    intro value shift h
    rw [show Nrbf.readVLIAux value shift = (do
        let b ← Nrbf.readU8
        let value' := value ||| b % 128 * 2 ^ shift % 4294967296
        if b < 128 then pure (toSigned32 value')
        else if h : 35 ≤ shift + 7 then
          Nrbf.throwE (Err.custom "Variable length int too long")
        else Nrbf.readVLIAux value' (shift + 7)) from
      funext fun st => by rw [Nrbf.readVLIAux.eq_def]]
    refine tame_bind tame_readU8 fun b => ?_
    split
    · exact tame_pure _
    · split
      · exact tame_throwE _ (by simp)
      · next hno => exact absurd h (by omega)
  | succ n ih =>
    intro value shift h
    rw [show Nrbf.readVLIAux value shift = (do
        let b ← Nrbf.readU8
        let value' := value ||| b % 128 * 2 ^ shift % 4294967296
        if b < 128 then pure (toSigned32 value')
        else if h : 35 ≤ shift + 7 then
          Nrbf.throwE (Err.custom "Variable length int too long")
        else Nrbf.readVLIAux value' (shift + 7)) from
      funext fun st => by rw [Nrbf.readVLIAux.eq_def]]
    refine tame_bind tame_readU8 fun b => ?_
    split
    · exact tame_pure _
    · split
      · exact tame_throwE _ (by simp)
      · exact ih _ _ (by omega)

theorem tame_readVLI : Tame readVLI :=
  tame_readVLIAux 35 0 0 (by omega)

theorem tame_readLengthPrefixedString : Tame readLengthPrefixedString := by
  refine tame_bind tame_readVLI fun len => ?_
  split
  · exact tame_throwE _ (by simp)
  · split
    · exact tame_pure _
    · refine tame_bind (tame_readBytes _) fun buf => ?_
      split
      · exact tame_pure _
      · exact tame_throwE _ (by simp)

theorem tame_readListN {α : Type} (m : Dec α) (hm : Tame m) :
    ∀ n : Nat, Tame (readListN m n) := by
  intro n
  induction n with
  | zero => exact tame_pure []
  | succ n ih =>
    show Tame (m >>= fun x => Nrbf.readListN m n >>= fun rest => pure (x :: rest))
    exact tame_bind hm fun x => tame_bind ih fun rest => tame_pure _

theorem tame_readSerializationHeader : Tame readSerializationHeader :=
  tame_bind tame_readI32 fun _ => tame_bind tame_readI32 fun _ =>
    tame_bind tame_readI32 fun _ => tame_bind tame_readI32 fun _ => tame_pure _

theorem tame_readBinaryLibrary : Tame readBinaryLibrary :=
  tame_bind tame_readI32 fun _ =>
    tame_bind tame_readLengthPrefixedString fun _ => tame_pure _

theorem tame_readClassInfo : Tame readClassInfo :=
  tame_bind tame_readI32 fun _ =>
    tame_bind tame_readLengthPrefixedString fun _ =>
      tame_bind tame_readI32 fun mc =>
        tame_bind (tame_readListN _ tame_readLengthPrefixedString _) fun _ =>
          tame_pure _

theorem tame_readAdditionalInfo (bt : BinaryType) : Tame (readAdditionalInfo bt) := by
  cases bt
  case primitive =>
    exact tame_bind tame_readU8 fun b =>
      tame_bind (tame_liftE _ (by unfold PrimitiveType.fromByte; split <;> simp))
        fun _ => tame_pure _
  case systemClass =>
    exact tame_bind tame_readLengthPrefixedString fun _ => tame_pure _
  case classType =>
    exact tame_bind tame_readLengthPrefixedString fun _ =>
      tame_bind tame_readI32 fun _ => tame_pure _
  all_goals exact tame_pure _

theorem tame_readAdditionalInfos : ∀ bts : List BinaryType,
    Tame (readAdditionalInfos bts) := by
  intro bts
  induction bts with
  | nil => exact tame_pure []
  | cons bt tl ih =>
    show Tame (Nrbf.readAdditionalInfo bt >>= fun i =>
      Nrbf.readAdditionalInfos tl >>= fun is' => pure (i :: is'))
    exact tame_bind (tame_readAdditionalInfo bt) fun i => tame_bind ih fun _ =>
      tame_pure _

theorem tame_readMemberTypeInfo (count : Int) : Tame (readMemberTypeInfo count) :=
  tame_bind (tame_readListN _
      (tame_bind tame_readU8 fun b =>
        tame_liftE _ (by unfold BinaryType.fromByte; split <;> simp)) _)
    fun bts => tame_bind (tame_readAdditionalInfos bts) fun _ => tame_pure _

theorem tame_readPrimitiveValue (pt : PrimitiveType) : Tame (readPrimitiveValue pt) := by
  cases pt <;>
    first
    | exact tame_pure _
    | exact tame_bind tame_readU8 fun _ => tame_pure _
    | exact tame_bind tame_readI32 fun _ => tame_pure _
    | exact tame_bind (tame_readBytes _) fun _ => tame_pure _
    | exact tame_bind tame_readLengthPrefixedString fun _ => tame_pure _


theorem TameAt.of_ok {α : Type} {m : Dec α} {st : DecSt} {a : α}
    (h : m st = .ok (a, st)) : TameAt m st := by
  constructor
  · rw [h]
    simp
  · intro b st' hh
    rw [h] at hh
    injection hh with h1
    injection h1 with _ h2
    rw [← h2]

theorem TameAt.congr {α : Type} {m : Dec α} {st : DecSt} (m' : Dec α) (h : m st = m' st)
    (hm : TameAt m' st) : TameAt m st := by
  constructor
  · rw [h]
    exact hm.1
  · intro a st' hh
    rw [h] at hh
    exact hm.2 a st' hh

theorem rtFromByte_not_fuelOut (v : Nat) : RecordType.fromByte v ≠ .error .fuelOut := by
  unfold RecordType.fromByte
  split <;> simp

theorem btFromByte_not_fuelOut (v : Nat) : BinaryType.fromByte v ≠ .error .fuelOut := by
  unfold BinaryType.fromByte
  split <;> simp

theorem ptFromByte_not_fuelOut (v : Nat) : PrimitiveType.fromByte v ≠ .error .fuelOut := by
  unfold PrimitiveType.fromByte
  split <;> simp

/-- Fuel sufficiency of `decode_next` at `f`: with fuel above the input
length the fuel artifact cannot appear, results never grow the input, and
a produced record consumed at least its tag byte. -/
def DNTame (f : Nat) : Prop :=
  ∀ st : DecSt, st.input.length < f →
    TameAt (decodeNext f) st ∧
    ∀ r st', decodeNext f st = .ok (some r, st') → st'.input.length < st.input.length

theorem tameAt_readObjectValue (g : Nat) (hA : DNTame g) (bt : BinaryType)
    (ai : AdditionalTypeInfo) (st : DecSt) (hst : st.input.length < g) :
    TameAt (readObjectValue g bt ai) st ∧
    ∀ r st', readObjectValue g bt ai st = .ok (.record r, st') →
      st'.input.length < st.input.length := by
  cases bt
  case primitive =>
    cases ai
    case primitive pt =>
      constructor
      · refine TameAt.congr (Nrbf.readPrimitiveValue pt >>= fun p =>
            pure (ObjectValue.primitive p)) (by simp only [readObjectValue]) ?_
        exact TameAt.bind (tame_readPrimitiveValue pt st) fun p st₁ _ => tame_pure _ st₁
      · intro r st' h
        simp only [readObjectValue] at h
        cases hm : readPrimitiveValue pt st with
        | error e => rw [Dec.bind_error hm] at h; exact absurd h (by simp)
        | ok p =>
          obtain ⟨pv, st₁⟩ := p
          rw [Dec.bind_ok hm, Dec.pure_def] at h
          injection h with h1
          injection h1 with h2
          exact absurd h2 (by simp)
    all_goals
      constructor
      · exact TameAt.congr (Nrbf.throwE (.custom "Expected primitive type info"))
          (by simp only [readObjectValue]) ((tame_throwE _ (by simp)) st)
      · intro r st' h
        simp only [readObjectValue] at h
        exact absurd h (by simp [Nrbf.throwE])
  all_goals
    constructor
    · refine TameAt.congr (Nrbf.decodeNext g >>= fun o =>
        match o with
        | some r => pure (ObjectValue.record r)
        | Option.none => Nrbf.throwE (.custom "Expected record for object value"))
        (by simp only [readObjectValue]) ?_
      refine TameAt.bind (hA st hst).1 fun o st₁ ho => ?_
      cases o with
      | some r => exact tame_pure _ st₁
      | none => exact tame_throwE _ (by simp) st₁
    · intro r st' h
      simp only [readObjectValue] at h
      cases hdn : decodeNext g st with
      | error e => rw [Dec.bind_error hdn] at h; exact absurd h (by simp)
      | ok p =>
        obtain ⟨o, st₁⟩ := p
        rw [Dec.bind_ok hdn] at h
        cases o with
        | none => exact absurd h (by simp [Nrbf.throwE])
        | some r₁ =>
          simp only [Dec.pure_def, Except.ok.injEq, Prod.mk.injEq,
            ObjectValue.record.injEq] at h
          obtain ⟨rfl, rfl⟩ := h
          exact (hA st hst).2 r₁ st₁ hdn


theorem tameAt_memAux (g : Nat) (hA : DNTame g) :
    ∀ (k : Nat) (mti : Option MemberTypeInfo) (i : Nat) (st : DecSt),
      st.input.length < g → TameAt (readAllMemberValuesAux g mti i k) st := by
  intro k
  induction k with
  | zero =>
    intro mti i st hst
    exact TameAt.of_ok (readAllMemberValuesAux_zero g mti i st)
  | succ k ih =>
    intro mti i st hst
    refine TameAt.congr _ (readAllMemberValuesAux_succ g mti i k st) ?_
    cases mti with
    | some m =>
      refine TameAt.bind (tameAt_readObjectValue g hA _ _ st hst).1 fun v st₁ h1 => ?_
      have hle : st₁.input.length ≤ st.input.length :=
        (tameAt_readObjectValue g hA _ _ st hst).1.2 v st₁ h1
      exact TameAt.bind (ih (some m) (i + 1) st₁ (by omega))
        fun rest st₂ _ => tame_pure _ st₂
    | none =>
      refine TameAt.bind (hA st hst).1 fun o st₁ ho => ?_
      have hle : st₁.input.length ≤ st.input.length := (hA st hst).1.2 o st₁ ho
      cases o with
      | some r =>
        refine TameAt.bind (tame_pure _ st₁) fun v st₂ h2 => ?_
        have hst₂ : st₂ = st₁ := by
          rw [Dec.pure_def] at h2
          injection h2 with h3
          injection h3 with _ h4
          exact h4.symm
        subst hst₂
        exact TameAt.bind (ih Option.none (i + 1) st₂ (by omega))
          fun rest st₃ _ => tame_pure _ st₃
      | none =>
        refine TameAt.bind (tame_throwE _ (by simp) st₁) fun v st₂ h2 => ?_
        exact absurd h2 (by simp [Nrbf.throwE])

theorem tameAt_elemAux (g : Nat) (hA : DNTame g) :
    ∀ (sf : Nat) (count i : Int) (bt : BinaryType) (ai : AdditionalTypeInfo) (st : DecSt),
      st.input.length < g → st.input.length + (count - i).toNat < sf →
      TameAt (readAllElementsAux g sf count i bt ai) st := by
  intro sf
  induction sf with
  | zero =>
    intro count i bt ai st hst hsf
    exact absurd hsf (by omega)
  | succ sf ih =>
    intro count i bt ai st hst hsf
    by_cases hic : i < count
    · refine TameAt.congr _ (readAllElementsAux_succ g sf count i bt ai hic st) ?_
      refine TameAt.bind (tameAt_readObjectValue g hA bt ai st hst).1 fun val st₁ h1 => ?_
      have hweak : st₁.input.length ≤ st.input.length :=
        (tameAt_readObjectValue g hA bt ai st hst).1.2 val st₁ h1
      cases val with
      | primitive p =>
        refine TameAt.bind (ih count (i + 1) bt ai st₁ (by omega) (by omega))
          fun rest st₂ _ => tame_pure _ st₂
      | record r =>
        have hstrict : st₁.input.length < st.input.length :=
          (tameAt_readObjectValue g hA bt ai st hst).2 r st₁ h1
        cases r <;>
          exact TameAt.bind (ih count _ bt ai st₁ (by omega) (by omega))
            fun rest st₂ _ => tame_pure _ st₂
    · exact TameAt.of_ok (readAllElementsAux_done g (sf + 1) count i bt ai hic st)

theorem tameAt_readAllElements (g : Nat) (hA : DNTame g) (count : Int)
    (bt : BinaryType) (ai : AdditionalTypeInfo) (st : DecSt)
    (hst : st.input.length < g) : TameAt (readAllElements g count bt ai) st :=
  TameAt.congr _ (readAllElements_def g count bt ai st)
    (tameAt_elemAux g hA _ count 0 bt ai st hst (by omega))

theorem tameAt_readAllMemberValues (g : Nat) (hA : DNTame g) (ci : ClassInfo)
    (mti : Option MemberTypeInfo) (st : DecSt) (hst : st.input.length < g) :
    TameAt (readAllMemberValues g ci mti) st := by
  refine TameAt.congr _ ?_ (tameAt_memAux g hA ci.member_count.toNat mti 0 st hst)
  rw [readAllMemberValues_def]


theorem tameAt_readClassWithMembersAndTypes (g : Nat) (hA : DNTame g) (st : DecSt)
    (hst : st.input.length < g) : TameAt (readClassWithMembersAndTypes g) st := by
  refine TameAt.congr (Nrbf.readClassInfo >>= fun class_info =>
      Nrbf.readMemberTypeInfo class_info.member_count >>= fun member_type_info =>
      Nrbf.readI32 >>= fun library_id =>
      Nrbf.modifySt (fun s =>
        { s with metadataRegistry := (regInsert class_info.object_id
            (ClassInfoWithTypes.mk class_info (some member_type_info) (some library_id))
            s.metadataRegistry) }) >>= fun _ =>
      Nrbf.readAllMemberValues g class_info (some member_type_info) >>= fun member_values =>
      pure (Record.classWithMembersAndTypes class_info member_type_info library_id
        member_values)) (by simp only [readClassWithMembersAndTypes]) ?_
  refine TameAt.bind (tame_readClassInfo st) fun ci st₁ h₁ => ?_
  have l₁ := (tame_readClassInfo st).2 ci st₁ h₁
  refine TameAt.bind (tame_readMemberTypeInfo _ st₁) fun mti st₂ h₂ => ?_
  have l₂ := (tame_readMemberTypeInfo ci.member_count st₁).2 mti st₂ h₂
  refine TameAt.bind (tame_readI32 st₂) fun lid st₃ h₃ => ?_
  have l₃ := (tame_readI32 st₂).2 lid st₃ h₃
  refine TameAt.bind (tame_modifySt _ (by intro s; exact Nat.le_refl _) st₃) fun u st₄ h₄ => ?_
  have l₄ := (tame_modifySt _ (by intro s; exact Nat.le_refl _) st₃).2 u st₄ h₄
  refine TameAt.bind (tameAt_readAllMemberValues g hA ci (some mti) st₄ (by omega))
    fun mv st₅ _ => tame_pure _ st₅

theorem tameAt_readSystemClassWithMembersAndTypes (g : Nat) (hA : DNTame g) (st : DecSt)
    (hst : st.input.length < g) : TameAt (readSystemClassWithMembersAndTypes g) st := by
  refine TameAt.congr (Nrbf.readClassInfo >>= fun class_info =>
      Nrbf.readMemberTypeInfo class_info.member_count >>= fun member_type_info =>
      Nrbf.modifySt (fun s =>
        { s with metadataRegistry := (regInsert class_info.object_id
            (ClassInfoWithTypes.mk class_info (some member_type_info) Option.none)
            s.metadataRegistry) }) >>= fun _ =>
      Nrbf.readAllMemberValues g class_info (some member_type_info) >>= fun member_values =>
      pure (Record.systemClassWithMembersAndTypes class_info member_type_info
        member_values)) (by simp only [readSystemClassWithMembersAndTypes]) ?_
  refine TameAt.bind (tame_readClassInfo st) fun ci st₁ h₁ => ?_
  have l₁ := (tame_readClassInfo st).2 ci st₁ h₁
  refine TameAt.bind (tame_readMemberTypeInfo _ st₁) fun mti st₂ h₂ => ?_
  have l₂ := (tame_readMemberTypeInfo ci.member_count st₁).2 mti st₂ h₂
  refine TameAt.bind (tame_modifySt _ (by intro s; exact Nat.le_refl _) st₂) fun u st₃ h₃ => ?_
  have l₃ := (tame_modifySt _ (by intro s; exact Nat.le_refl _) st₂).2 u st₃ h₃
  refine TameAt.bind (tameAt_readAllMemberValues g hA ci (some mti) st₃ (by omega))
    fun mv st₄ _ => tame_pure _ st₄

theorem tameAt_readSystemClassWithMembers (g : Nat) (hA : DNTame g) (st : DecSt)
    (hst : st.input.length < g) : TameAt (readSystemClassWithMembers g) st := by
  refine TameAt.congr (Nrbf.readClassInfo >>= fun class_info =>
      Nrbf.modifySt (fun s =>
        { s with metadataRegistry := (regInsert class_info.object_id
            (ClassInfoWithTypes.mk class_info Option.none Option.none)
            s.metadataRegistry) }) >>= fun _ =>
      Nrbf.readAllMemberValues g class_info Option.none >>= fun member_values =>
      pure (Record.systemClassWithMembers class_info member_values))
    (by simp only [readSystemClassWithMembers]) ?_
  refine TameAt.bind (tame_readClassInfo st) fun ci st₁ h₁ => ?_
  have l₁ := (tame_readClassInfo st).2 ci st₁ h₁
  refine TameAt.bind (tame_modifySt _ (by intro s; exact Nat.le_refl _) st₁) fun u st₂ h₂ => ?_
  have l₂ := (tame_modifySt _ (by intro s; exact Nat.le_refl _) st₁).2 u st₂ h₂
  refine TameAt.bind (tameAt_readAllMemberValues g hA ci Option.none st₂ (by omega))
    fun mv st₃ _ => tame_pure _ st₃

theorem tameAt_readClassWithMembers (g : Nat) (hA : DNTame g) (st : DecSt)
    (hst : st.input.length < g) : TameAt (readClassWithMembers g) st := by
  refine TameAt.congr (Nrbf.readClassInfo >>= fun class_info =>
      Nrbf.readI32 >>= fun library_id =>
      Nrbf.modifySt (fun s =>
        { s with metadataRegistry := (regInsert class_info.object_id
            (ClassInfoWithTypes.mk class_info Option.none (some library_id))
            s.metadataRegistry) }) >>= fun _ =>
      Nrbf.readAllMemberValues g class_info Option.none >>= fun member_values =>
      pure (Record.classWithMembers class_info library_id member_values))
    (by simp only [readClassWithMembers]) ?_
  refine TameAt.bind (tame_readClassInfo st) fun ci st₁ h₁ => ?_
  have l₁ := (tame_readClassInfo st).2 ci st₁ h₁
  refine TameAt.bind (tame_readI32 st₁) fun lid st₂ h₂ => ?_
  have l₂ := (tame_readI32 st₁).2 lid st₂ h₂
  refine TameAt.bind (tame_modifySt _ (by intro s; exact Nat.le_refl _) st₂) fun u st₃ h₃ => ?_
  have l₃ := (tame_modifySt _ (by intro s; exact Nat.le_refl _) st₂).2 u st₃ h₃
  refine TameAt.bind (tameAt_readAllMemberValues g hA ci Option.none st₃ (by omega))
    fun mv st₄ _ => tame_pure _ st₄

theorem tameAt_readClassWithId (g : Nat) (hA : DNTame g) (st : DecSt)
    (hst : st.input.length < g) : TameAt (readClassWithId g) st := by
  refine TameAt.congr (Nrbf.readI32 >>= fun object_id =>
      Nrbf.readI32 >>= fun metadata_id =>
      Nrbf.getRegistryEntry metadata_id >>= fun meta =>
      Nrbf.readAllMemberValues g meta.class_info meta.member_type_info >>= fun mv =>
      pure (Record.classWithId object_id metadata_id mv))
    (by simp only [readClassWithId]) ?_
  refine TameAt.bind (tame_readI32 st) fun oid st₁ h₁ => ?_
  have l₁ := (tame_readI32 st).2 oid st₁ h₁
  refine TameAt.bind (tame_readI32 st₁) fun mid st₂ h₂ => ?_
  have l₂ := (tame_readI32 st₁).2 mid st₂ h₂
  refine TameAt.bind (tame_getRegistryEntry mid st₂) fun meta st₃ h₃ => ?_
  have l₃ := (tame_getRegistryEntry mid st₂).2 meta st₃ h₃
  refine TameAt.bind (tameAt_readAllMemberValues g hA meta.class_info
    meta.member_type_info st₃ (by omega)) fun mv st₄ _ => tame_pure _ st₄

theorem tameAt_readBinaryArrayFull (g : Nat) (hA : DNTame g) (st : DecSt)
    (hst : st.input.length < g) : TameAt (readBinaryArrayFull g) st := by
  have hrest : ∀ (object_id : Int) (bate : Nat) (rank : Int) (lengths : List Int)
      (y : Option (List Int)) (stx : DecSt), stx.input.length < g →
      TameAt (Nrbf.readU8 >>= fun b =>
        liftE (BinaryType.fromByte b) >>= fun type_enum =>
        Nrbf.readAdditionalInfo type_enum >>= fun additional_type_info =>
        Nrbf.readAllElements g (wrapProduct lengths) type_enum additional_type_info >>=
          fun element_values =>
        pure (Record.binaryArray object_id bate rank lengths y type_enum
          additional_type_info element_values)) stx := by
    intro oid bate rank lengths y stx hstx
    refine TameAt.bind (tame_readU8 stx) fun b st₆ h₆ => ?_
    have l₆ := (tame_readU8 stx).2 b st₆ h₆
    refine TameAt.bind (tame_liftE _ (btFromByte_not_fuelOut b) st₆) fun te st₇ h₇ => ?_
    have l₇ := (tame_liftE _ (btFromByte_not_fuelOut b) st₆).2 te st₇ h₇
    refine TameAt.bind (tame_readAdditionalInfo te st₇) fun ati st₈ h₈ => ?_
    have l₈ := (tame_readAdditionalInfo te st₇).2 ati st₈ h₈
    refine TameAt.bind (tameAt_readAllElements g hA _ te ati st₈ (by omega))
      fun elems st₉ _ => tame_pure _ st₉
  refine TameAt.congr (Nrbf.readI32 >>= fun object_id =>
      Nrbf.readU8 >>= fun binary_array_type_enum =>
      Nrbf.readI32 >>= fun rank =>
      Nrbf.readListN Nrbf.readI32 rank.toNat >>= fun lengths =>
      if binary_array_type_enum = 3 ∨ binary_array_type_enum = 4 ∨
          binary_array_type_enum = 5 then
        Nrbf.readListN Nrbf.readI32 rank.toNat >>= fun bounds =>
        pure (some bounds) >>= fun y =>
        Nrbf.readU8 >>= fun b =>
        liftE (BinaryType.fromByte b) >>= fun type_enum =>
        Nrbf.readAdditionalInfo type_enum >>= fun additional_type_info =>
        Nrbf.readAllElements g (wrapProduct lengths) type_enum additional_type_info >>=
          fun element_values =>
        pure (Record.binaryArray object_id binary_array_type_enum rank lengths y
          type_enum additional_type_info element_values)
      else
        pure Option.none >>= fun y =>
        Nrbf.readU8 >>= fun b =>
        liftE (BinaryType.fromByte b) >>= fun type_enum =>
        Nrbf.readAdditionalInfo type_enum >>= fun additional_type_info =>
        Nrbf.readAllElements g (wrapProduct lengths) type_enum additional_type_info >>=
          fun element_values =>
        pure (Record.binaryArray object_id binary_array_type_enum rank lengths y
          type_enum additional_type_info element_values))
    (by simp only [readBinaryArrayFull]) ?_
  refine TameAt.bind (tame_readI32 st) fun oid st₁ h₁ => ?_
  have l₁ := (tame_readI32 st).2 oid st₁ h₁
  refine TameAt.bind (tame_readU8 st₁) fun bate st₂ h₂ => ?_
  have l₂ := (tame_readU8 st₁).2 bate st₂ h₂
  refine TameAt.bind (tame_readI32 st₂) fun rank st₃ h₃ => ?_
  have l₃ := (tame_readI32 st₂).2 rank st₃ h₃
  refine TameAt.bind (tame_readListN _ tame_readI32 _ st₃) fun lengths st₄ h₄ => ?_
  have l₄ := (tame_readListN _ tame_readI32 rank.toNat st₃).2 lengths st₄ h₄
  split
  · refine TameAt.bind (tame_readListN _ tame_readI32 _ st₄) fun bounds st₅ h₅ => ?_
    have l₅ := (tame_readListN _ tame_readI32 rank.toNat st₄).2 bounds st₅ h₅
    refine TameAt.bind (tame_pure _ st₅) fun y st₆ h₆ => ?_
    have l₆ := (tame_pure _ st₅).2 y st₆ h₆
    exact hrest oid bate rank lengths y st₆ (by omega)
  · refine TameAt.bind (tame_pure _ st₄) fun y st₅ h₅ => ?_
    have l₅ := (tame_pure _ st₄).2 y st₅ h₅
    exact hrest oid bate rank lengths y st₅ (by omega)


/-- `decode_next` is fuel-sufficient at every fuel level. -/
theorem decodeNext_tame : ∀ f : Nat, DNTame f := by
  intro f
  induction f using Nat.strong_induction_on with
  | _ f ih =>
    cases f with
    | zero =>
      intro st hst
      exact absurd hst (Nat.not_lt_zero _)
    | succ g =>
      have hA : DNTame g := ih g (by omega)
      intro st hst
      obtain ⟨input, reg, lr⟩ := st
      cases input with
      | nil =>
        have hok : decodeNext (g + 1) ⟨[], reg, lr⟩ = .ok (Option.none, ⟨[], reg, lr⟩) := by
          simp only [decodeNext]
        constructor
        · exact TameAt.of_ok hok
        · intro r st' h
          rw [hok] at h
          injection h with h1
          injection h1 with h2
          exact absurd h2 (by simp)
      | cons b tl =>
        have htl : tl.length < g := by
          simp only [List.length_cons] at hst
          omega
        have hcomp : ∀ rt : RecordType, TameAt
            ((match rt with
              | .serializedStreamHeader => do
                let r ← readSerializationHeader
                pure (some (Record.serializationHeader r))
              | .binaryLibrary => do
                let lib ← readBinaryLibrary
                modifySt (fun s =>
                  { s with libraryRegistry := (regInsert lib.library_id lib.library_name
                      s.libraryRegistry) })
                pure (some (Record.binaryLibrary lib))
              | .classWithMembersAndTypes => do
                let r ← readClassWithMembersAndTypes g
                pure (some r)
              | .systemClassWithMembersAndTypes => do
                let r ← readSystemClassWithMembersAndTypes g
                pure (some r)
              | .systemClassWithMembers => do
                let r ← readSystemClassWithMembers g
                pure (some r)
              | .classWithMembers => do
                let r ← readClassWithMembers g
                pure (some r)
              | .classWithId => do
                let r ← readClassWithId g
                pure (some r)
              | .binaryObjectString => do
                let object_id ← readI32
                let value ← readLengthPrefixedString
                pure (some (Record.binaryObjectString object_id value))
              | .binaryArray => do
                let r ← readBinaryArrayFull g
                pure (some r)
              | .memberPrimitiveTyped => do
                let pt ← liftE (PrimitiveType.fromByte (← readU8))
                let value ← readPrimitiveValue pt
                pure (some (Record.memberPrimitiveTyped pt value))
              | .memberReference => do
                let id_ref ← readI32
                pure (some (Record.memberReference id_ref))
              | .objectNull => pure (some Record.objectNull)
              | .objectNullMultiple256 => do
                let c ← readU8
                pure (some (Record.objectNullMultiple256 c))
              | .objectNullMultiple => do
                let c ← readI32
                pure (some (Record.objectNullMultiple c))
              | .arraySinglePrimitive => do
                let object_id ← readI32
                let length ← readI32
                let pt ← liftE (PrimitiveType.fromByte (← readU8))
                let values ← readListN (readPrimitiveValue pt) length.toNat
                pure (some (Record.arraySinglePrimitive object_id length pt values))
              | .arraySingleObject => do
                let object_id ← readI32
                let length ← readI32
                let values ← readAllElements g length BinaryType.object
                  AdditionalTypeInfo.none
                pure (some (Record.arraySingleObject object_id length values))
              | .arraySingleString => do
                let object_id ← readI32
                let length ← readI32
                let values ← readAllElements g length BinaryType.string
                  AdditionalTypeInfo.none
                pure (some (Record.arraySingleString object_id length values))
              | .messageEnd => pure (some Record.messageEnd)
              | _ => throwE (.custom "Unimplemented record type") :
              Dec (Option Record))) ⟨tl, reg, lr⟩ := by
          intro rt
          cases rt
          case serializedStreamHeader =>
            exact TameAt.bind (tame_readSerializationHeader _) fun r s _ => tame_pure _ s
          case binaryLibrary =>
            refine TameAt.bind (tame_readBinaryLibrary _) fun lib s1 _ => ?_
            exact TameAt.bind (tame_modifySt _ (by intro s; exact Nat.le_refl _) s1)
              fun u s2 _ => tame_pure _ s2
          case classWithMembersAndTypes =>
            exact TameAt.bind (tameAt_readClassWithMembersAndTypes g hA _ htl)
              fun r s _ => tame_pure _ s
          case systemClassWithMembersAndTypes =>
            exact TameAt.bind (tameAt_readSystemClassWithMembersAndTypes g hA _ htl)
              fun r s _ => tame_pure _ s
          case systemClassWithMembers =>
            exact TameAt.bind (tameAt_readSystemClassWithMembers g hA _ htl)
              fun r s _ => tame_pure _ s
          case classWithMembers =>
            exact TameAt.bind (tameAt_readClassWithMembers g hA _ htl)
              fun r s _ => tame_pure _ s
          case classWithId =>
            exact TameAt.bind (tameAt_readClassWithId g hA _ htl)
              fun r s _ => tame_pure _ s
          case binaryObjectString =>
            refine TameAt.bind (tame_readI32 _) fun oid s1 _ => ?_
            exact TameAt.bind (tame_readLengthPrefixedString s1) fun v s2 _ =>
              tame_pure _ s2
          case binaryArray =>
            exact TameAt.bind (tameAt_readBinaryArrayFull g hA _ htl)
              fun r s _ => tame_pure _ s
          case memberPrimitiveTyped =>
            refine TameAt.bind (tame_readU8 _) fun b2 s1 _ => ?_
            refine TameAt.bind (tame_liftE _ (ptFromByte_not_fuelOut b2) s1)
              fun pt s2 _ => ?_
            exact TameAt.bind (tame_readPrimitiveValue pt s2) fun v s3 _ => tame_pure _ s3
          case memberReference =>
            exact TameAt.bind (tame_readI32 _) fun idr s1 _ => tame_pure _ s1
          case objectNull => exact tame_pure _ _
          case objectNullMultiple256 =>
            exact TameAt.bind (tame_readU8 _) fun c s1 _ => tame_pure _ s1
          case objectNullMultiple =>
            exact TameAt.bind (tame_readI32 _) fun c s1 _ => tame_pure _ s1
          case arraySinglePrimitive =>
            refine TameAt.bind (tame_readI32 _) fun oid s1 _ => ?_
            refine TameAt.bind (tame_readI32 s1) fun len s2 _ => ?_
            refine TameAt.bind (tame_readU8 s2) fun b2 s3 _ => ?_
            refine TameAt.bind (tame_liftE _ (ptFromByte_not_fuelOut b2) s3)
              fun pt s4 _ => ?_
            exact TameAt.bind (tame_readListN _ (tame_readPrimitiveValue pt) _ s4)
              fun vs s5 _ => tame_pure _ s5
          case arraySingleObject =>
            refine TameAt.bind (tame_readI32 _) fun oid s1 h1 => ?_
            have l1 := (tame_readI32 ⟨tl, reg, lr⟩).2 oid s1 h1
            refine TameAt.bind (tame_readI32 s1) fun len s2 h2 => ?_
            have l2 := (tame_readI32 s1).2 len s2 h2
            refine TameAt.bind (tameAt_readAllElements g hA len .object .none s2
              (by simp at l1 l2 ⊢; omega)) fun vs s3 _ => tame_pure _ s3
          case arraySingleString =>
            refine TameAt.bind (tame_readI32 _) fun oid s1 h1 => ?_
            have l1 := (tame_readI32 ⟨tl, reg, lr⟩).2 oid s1 h1
            refine TameAt.bind (tame_readI32 s1) fun len s2 h2 => ?_
            have l2 := (tame_readI32 s1).2 len s2 h2
            refine TameAt.bind (tameAt_readAllElements g hA len .string .none s2
              (by simp at l1 l2 ⊢; omega)) fun vs s3 _ => tame_pure _ s3
          case messageEnd => exact tame_pure _ _
          case binaryMethodCall => exact tame_throwE _ (by simp) _
          case binaryMethodReturn => exact tame_throwE _ (by simp) _
        have hnf : decodeNext (g + 1) ⟨b :: tl, reg, lr⟩ ≠ .error .fuelOut := by
          simp only [decodeNext, Dec.bind_ok (readU8_cons b tl reg lr)]
          cases hlift : RecordType.fromByte (b % 256) with
          | error e =>
            simp only [Dec.bind_error (show liftE (Except.error e : Except Err RecordType)
                ⟨tl, reg, lr⟩ = .error e from rfl)]
            intro hbad
            obtain rfl := Except.error.inj hbad
            exact rtFromByte_not_fuelOut _ hlift
          | ok rt =>
            simp only [Dec.bind_ok (show liftE (Except.ok rt : Except Err RecordType)
                ⟨tl, reg, lr⟩ = .ok (rt, ⟨tl, reg, lr⟩) from rfl)]
            exact (hcomp rt).1
        have hpost : ∀ (res : Option Record) (st' : DecSt),
            decodeNext (g + 1) ⟨b :: tl, reg, lr⟩ = .ok (res, st') →
            st'.input.length ≤ tl.length := by
          intro res st' h
          revert h
          simp only [decodeNext, Dec.bind_ok (readU8_cons b tl reg lr)]
          cases hlift : RecordType.fromByte (b % 256) with
          | error e =>
            simp only [Dec.bind_error (show liftE (Except.error e : Except Err RecordType)
                ⟨tl, reg, lr⟩ = .error e from rfl)]
            intro h
            exact absurd h (by simp)
          | ok rt =>
            simp only [Dec.bind_ok (show liftE (Except.ok rt : Except Err RecordType)
                ⟨tl, reg, lr⟩ = .ok (rt, ⟨tl, reg, lr⟩) from rfl)]
            intro h
            exact (hcomp rt).2 res st' h
        refine ⟨⟨hnf, fun a st' h => ?_⟩, fun r st' h => ?_⟩
        · exact le_trans (hpost a st' h) (by simp)
        · exact lt_of_le_of_lt (hpost (some r) st' h) (by simp)


/-- The stream loop never exhausts its fuel either: each produced record
consumes at least one byte, so input length bounds the record count. -/
theorem decodeAll_no_fuelOut : ∀ (fuel : Nat) (st : DecSt),
    st.input.length < fuel → decodeAll fuel st ≠ .error .fuelOut := by
  intro fuel
  induction fuel with
  | zero =>
    intro st h
    exact absurd h (Nat.not_lt_zero _)
  | succ f ih =>
    intro st hst
    have hdn := decodeNext_tame (st.input.length + 1) st (by omega)
    cases h : decodeNext (st.input.length + 1) st with
    | error e =>
      rw [decodeAll_succ, h]
      intro hbad
      obtain rfl := Except.error.inj hbad
      exact hdn.1.1 h
    | ok p =>
      obtain ⟨res, st'⟩ := p
      cases res with
      | none =>
        rw [decodeAll_succ, h]
        intro hbad
        exact Except.noConfusion hbad
      | some r =>
        have hlt : st'.input.length < st.input.length := hdn.2 r st' h
        rw [decodeAll_succ, h]
        show (match decodeAll f st' with
          | .error e => (.error e : Except Err (List Record))
          | .ok rs => .ok (r :: rs)) ≠ .error .fuelOut
        cases hda : decodeAll f st' with
        | error e2 =>
          intro hbad
          obtain rfl := Except.error.inj hbad
          exact ih st' (by omega) hda
        | ok rs =>
          intro hbad
          exact Except.noConfusion hbad

/-- C10: the decoder terminates on every finite input. With fuel above the
input length — as the `parse` driver supplies — `decode_next` never
returns the embedding's fuel-exhaustion artifact: every run ends in a
record, clean end-of-stream, or a genuine error. In particular the
element loop cannot run forever: a decoded record (including a null run
of count 0) consumes at least its tag byte, a `Null`-typed primitive
element fills a slot, and reaching end of input inside an element is an
`Err.io` error. -/
theorem c10_decode_terminates :
    (∀ (f : Nat) (st : DecSt), st.input.length < f →
      decodeNext f st ≠ .error .fuelOut) ∧
    ∀ bytes : List Nat, parseStream bytes ≠ .error .fuelOut := by
  constructor
  · intro f st h
    exact ((decodeNext_tame f) st h).1.1
  · intro bytes
    unfold parseStream mkSt
    exact decodeAll_no_fuelOut (bytes.length + 1) ⟨bytes, [], []⟩ (by simp)

/-- C10 witness: the fuel-sufficiency statement instantiated on the empty
input with fuel 1. -/
theorem c10_decode_terminates_witness :
    (([] : List Nat) : List Nat).length < 1 ∧
    decodeNext 1 ⟨[], [], []⟩ ≠ .error .fuelOut :=
  ⟨by decide, c10_decode_terminates.1 1 ⟨[], [], []⟩ (by decide)⟩


/-! ## The interleaved JSON projection (`src/interleaved.rs`)

`serde_json::Value` is modelled with insertion-ordered objects (the spec
requires the JSON parser to preserve key insertion order) and a number
type mirroring `serde_json::Number`: an integer (covering the `i64`/`u64`
representations) or a finite `f64` kept as its bit pattern. `json!` of a
non-finite float is `Null`, as with `serde_json::Number::from_f64`. -/

/-- `serde_json::Number`. -/
inductive JNum where
  | int (i : Int)
  | dbl (bits : Nat)
  deriving DecidableEq

/-- `serde_json::Value`. -/
inductive Json where
  | null
  | bool (b : Bool)
  | num (n : JNum)
  | str (s : List Nat)
  | arr (xs : List Json)
  | obj (kvs : List (List Nat × Json))

/-- `Map::get`. -/
def jGet (k : List Nat) : List (List Nat × Json) → Option Json
  | [] => Option.none
  | (k', v) :: rest => if k' = k then some v else jGet k rest

/-- `Map::insert` on an insertion-ordered map: replace in place when the
key exists, append otherwise. -/
def jInsert (k : List Nat) (v : Json) : List (List Nat × Json) → List (List Nat × Json)
  | [] => [(k, v)]
  | (k', v') :: rest =>
    if k' = k then (k, v) :: rest else (k', v') :: jInsert k v rest

/-- The exponent field of the `f64` pattern is not all-ones. -/
def isFiniteBits64 (b : Nat) : Bool := b / 2 ^ 52 % 2 ^ 11 != 2047

/-- Round `m / 2^sh` to nearest, ties to even. -/
def roundShift (m sh : Nat) : Nat :=
  let q := m / 2 ^ sh
  let r := m % 2 ^ sh
  if 2 * r > 2 ^ sh ∨ (2 * r = 2 ^ sh ∧ q % 2 = 1) then q + 1 else q

/-- The `f64` bit pattern of an integer (`i as f64`), round to nearest. -/
def intToF64Bits (i : Int) : Nat :=
  let s : Nat := if i < 0 then 2 ^ 63 else 0
  let m : Nat := i.natAbs
  if m = 0 then s
  else
    let e := Nat.log2 m
    if e ≤ 52 then s + (e + 1023) * 2 ^ 52 + (m * 2 ^ (52 - e) - 2 ^ 52)
    else
      let q := roundShift m (e - 52)
      if q = 2 ^ 53 then s + (e + 1024) * 2 ^ 52
      else s + (e + 1023) * 2 ^ 52 + (q - 2 ^ 52)

/-- Exact widening `f32 → f64` on bit patterns (`x as f64`; a NaN keeps
its truncated payload with the quiet bit implied by the payload shift). -/
def singleToDoubleBits (b : Nat) : Nat :=
  let s := b / 2 ^ 31 % 2 * 2 ^ 63
  let e := b / 2 ^ 23 % 2 ^ 8
  let m := b % 2 ^ 23
  if e = 255 then s + 2047 * 2 ^ 52 + m * 2 ^ 29
  else if e = 0 then
    if m = 0 then s
    else
      let k := Nat.log2 m
      s + (k + 874) * 2 ^ 52 + (m - 2 ^ k) * 2 ^ (52 - k)
  else s + (e + 896) * 2 ^ 52 + m * 2 ^ 29

/-- Narrowing `f64 → f32` on bit patterns (`x as f32`), round to nearest
even, overflow to infinity. -/
def doubleToSingleBits (b : Nat) : Nat :=
  let s := b / 2 ^ 63 % 2 * 2 ^ 31
  let e := b / 2 ^ 52 % 2 ^ 11
  let m := b % 2 ^ 52
  if e = 2047 then
    if m = 0 then s + 255 * 2 ^ 23
    else s + 255 * 2 ^ 23 + (if m / 2 ^ 29 % 2 ^ 23 = 0 then 2 ^ 22 else m / 2 ^ 29 % 2 ^ 23)
  else if e + 127 ≥ 1023 + 255 then s + 255 * 2 ^ 23
  else if e + 127 ≥ 1023 + 1 then
    let q := roundShift (2 ^ 52 + m) 29
    if q = 2 ^ 24 then
      if e + 128 ≥ 1023 + 255 then s + 255 * 2 ^ 23
      else s + (e + 128 - 1022) * 2 ^ 23
    else s + (e + 127 - 1022) * 2 ^ 23 + (q - 2 ^ 23)
  else
    let sh := 29 + (1023 + 1 - (e + 127))
    if sh > 81 then s
    else s + roundShift (2 ^ 52 + m) sh

/-- UTF-8 bytes of a codepoint below 256 (`char::to_string` for the
byte-valued chars the decoder produces). -/
def charToUtf8 (c : Nat) : List Nat :=
  if c < 128 then [c] else [192 + c / 64, 128 + c % 64]

/-- The first scalar of a UTF-8 byte string (`str::chars().next()`). -/
def utf8First : List Nat → Option Nat
  | [] => Option.none
  | b :: rest =>
    if b < 128 then some b
    else if 194 ≤ b ∧ b ≤ 223 then
      match rest with
      | c :: _ => some ((b - 192) * 64 + (c - 128))
      | [] => Option.none
    else if 224 ≤ b ∧ b ≤ 239 then
      match rest with
      | c :: d :: _ => some ((b - 224) * 4096 + (c - 128) * 64 + (d - 128))
      | _ => Option.none
    else
      match rest with
      | c :: d :: e :: _ =>
        some ((b - 240) * 262144 + (c - 128) * 4096 + (d - 128) * 64 + (e - 128))
      | _ => Option.none

/-- `Value::as_object`. -/
def Json.asObj : Json → Option (List (List Nat × Json))
  | .obj kvs => some kvs
  | _ => Option.none

/-- `Value::as_str`. -/
def Json.asStr : Json → Option (List Nat)
  | .str s => some s
  | _ => Option.none

/-- `Value::as_bool`. -/
def Json.asBool : Json → Option Bool
  | .bool b => some b
  | _ => Option.none

/-- `Value::as_array`. -/
def Json.asArr : Json → Option (List Json)
  | .arr xs => some xs
  | _ => Option.none

/-- `Value::as_i64` (an integral number in `i64` range). -/
def Json.asI64 : Json → Option Int
  | .num (.int i) => if -9223372036854775808 ≤ i ∧ i < 9223372036854775808
      then some i else Option.none
  | _ => Option.none

/-- `Value::as_u64` (`serde_json::Number` holds only `u64`-representable
non-negative integers). -/
def Json.asU64 : Json → Option Int
  | .num (.int i) => if 0 ≤ i ∧ i < 18446744073709551616 then some i else Option.none
  | _ => Option.none

/-- `Value::as_f64`, as the `f64` bit pattern. -/
def Json.asF64 : Json → Option Nat
  | .num (.int i) => some (intToF64Bits i)
  | .num (.dbl b) => some b
  | _ => Option.none

/-- `json!` of an `f64` bit pattern (`Number::from_f64`: `Null` when not
finite). -/
def jsonOfF64Bits (b : Nat) : Json :=
  if isFiniteBits64 b then .num (.dbl b) else .null

/-- `Value::is_boolean` / `is_number` / `is_i64` / `is_u64` / `is_string`. -/
def Json.isBool : Json → Bool
  | .bool _ => true
  | _ => false

def Json.isNum : Json → Bool
  | .num _ => true
  | _ => false

def Json.isI64 : Json → Bool
  | .num (.int i) => decide (-9223372036854775808 ≤ i ∧ i < 9223372036854775808)
  | _ => false

def Json.isU64 : Json → Bool
  | .num (.int i) => decide (0 ≤ i ∧ i < 18446744073709551616)
  | _ => false

def Json.isStr : Json → Bool
  | .str _ => true
  | _ => false


/-- Rust `as i32` on an `i64` value. -/
def castI32 (i : Int) : Int := toSigned 4294967296 (wrap32 i)

/-- Rust `as i16`. -/
def castI16 (i : Int) : Int := toSigned 65536 ((i % 65536).toNat)

/-- Rust `as i8`. -/
def castI8 (i : Int) : Int := toSigned 256 ((i % 256).toNat)

/-- Rust `as u8`. -/
def castU8 (i : Int) : Nat := (i % 256).toNat

/-- Rust `as u16`. -/
def castU16 (i : Int) : Nat := (i % 65536).toNat

/-- Rust `as u32`. -/
def castU32 (i : Int) : Nat := (i % 4294967296).toNat

/-- Rust `as u64`. -/
def castU64 (i : Int) : Nat := (i % 18446744073709551616).toNat

/-! Serde codecs derived on the record types. A C-like enum variant is
serialised as its name string; a payload variant as a single-entry map;
derived struct deserialisation reads fields by key (order-insensitive,
unknown keys ignored, any missing field an error). -/

/-- Serde variant name of `BinaryType`. -/
def binaryTypeName : BinaryType → List Nat
  | .primitive => s2b "Primitive"
  | .string => s2b "String"
  | .object => s2b "Object"
  | .systemClass => s2b "SystemClass"
  | .classType => s2b "Class"
  | .objectArray => s2b "ObjectArray"
  | .stringArray => s2b "StringArray"
  | .primitiveArray => s2b "PrimitiveArray"

def binaryTypeToJson (bt : BinaryType) : Json := .str (binaryTypeName bt)

def binaryTypeFromJson : Json → Option BinaryType
  | .str s =>
    if s = s2b "Primitive" then some .primitive
    else if s = s2b "String" then some .string
    else if s = s2b "Object" then some .object
    else if s = s2b "SystemClass" then some .systemClass
    else if s = s2b "Class" then some .classType
    else if s = s2b "ObjectArray" then some .objectArray
    else if s = s2b "StringArray" then some .stringArray
    else if s = s2b "PrimitiveArray" then some .primitiveArray
    else Option.none
  | _ => Option.none

/-- Serde variant name of `PrimitiveType`. -/
def primitiveTypeName : PrimitiveType → List Nat
  | .boolean => s2b "Boolean"
  | .byte => s2b "Byte"
  | .char => s2b "Char"
  | .decimal => s2b "Decimal"
  | .double => s2b "Double"
  | .int16 => s2b "Int16"
  | .int32 => s2b "Int32"
  | .int64 => s2b "Int64"
  | .sbyte => s2b "SByte"
  | .single => s2b "Single"
  | .timeSpan => s2b "TimeSpan"
  | .dateTime => s2b "DateTime"
  | .uint16 => s2b "UInt16"
  | .uint32 => s2b "UInt32"
  | .uint64 => s2b "UInt64"
  | .null => s2b "Null"
  | .string => s2b "String"

def primitiveTypeToJson (pt : PrimitiveType) : Json := .str (primitiveTypeName pt)

def primitiveTypeFromJson : Json → Option PrimitiveType
  | .str s =>
    if s = s2b "Boolean" then some .boolean
    else if s = s2b "Byte" then some .byte
    else if s = s2b "Char" then some .char
    else if s = s2b "Decimal" then some .decimal
    else if s = s2b "Double" then some .double
    else if s = s2b "Int16" then some .int16
    else if s = s2b "Int32" then some .int32
    else if s = s2b "Int64" then some .int64
    else if s = s2b "SByte" then some .sbyte
    else if s = s2b "Single" then some .single
    else if s = s2b "TimeSpan" then some .timeSpan
    else if s = s2b "DateTime" then some .dateTime
    else if s = s2b "UInt16" then some .uint16
    else if s = s2b "UInt32" then some .uint32
    else if s = s2b "UInt64" then some .uint64
    else if s = s2b "Null" then some .null
    else if s = s2b "String" then some .string
    else Option.none
  | _ => Option.none

/-- Serde `i32` deserialisation from a JSON value: an integral number in
`i32` range; anything else (including floats) is an error. -/
def jsonToI32 (v : Json) : Option Int :=
  match v with
  | .num (.int i) => if -2147483648 ≤ i ∧ i < 2147483648 then some i else Option.none
  | _ => Option.none

/-- Effectful map over a list in the `Option` monad (derived `Vec`
deserialisation shape). -/
def mapMOpt {α β : Type} (f : α → Option β) : List α → Option (List β)
  | [] => some []
  | x :: xs => do
    let y ← f x
    let ys ← mapMOpt f xs
    pure (y :: ys)

def classTypeInfoToJson (c : ClassTypeInfo) : Json :=
  .obj [(s2b "type_name", .str c.type_name), (s2b "library_id", .num (.int c.library_id))]

def classTypeInfoFromJson (v : Json) : Option ClassTypeInfo := do
  let kvs ← v.asObj
  let tn ← (jGet (s2b "type_name") kvs).bind Json.asStr
  let lid ← (jGet (s2b "library_id") kvs).bind jsonToI32
  pure ⟨tn, lid⟩

def additionalTypeInfoToJson : AdditionalTypeInfo → Json
  | .primitive pt => .obj [(s2b "Primitive", primitiveTypeToJson pt)]
  | .systemClass s => .obj [(s2b "SystemClass", .str s)]
  | .classType c => .obj [(s2b "Class", classTypeInfoToJson c)]
  | .none => .str (s2b "None")

def additionalTypeInfoFromJson : Json → Option AdditionalTypeInfo
  | .str s => if s = s2b "None" then some .none else Option.none
  | .obj [(k, v)] =>
    if k = s2b "Primitive" then (primitiveTypeFromJson v).map .primitive
    else if k = s2b "SystemClass" then v.asStr.map .systemClass
    else if k = s2b "Class" then (classTypeInfoFromJson v).map .classType
    else Option.none
  | _ => Option.none

def mtiToJson (m : MemberTypeInfo) : Json :=
  .obj [(s2b "binary_type_enums", .arr (m.binary_type_enums.map binaryTypeToJson)),
        (s2b "additional_infos", .arr (m.additional_infos.map additionalTypeInfoToJson))]

def mtiFromJson (v : Json) : Option MemberTypeInfo := do
  let kvs ← v.asObj
  let btj ← (jGet (s2b "binary_type_enums") kvs).bind Json.asArr
  let bte ← mapMOpt binaryTypeFromJson btj
  let aij ← (jGet (s2b "additional_infos") kvs).bind Json.asArr
  let ais ← mapMOpt additionalTypeInfoFromJson aij
  pure ⟨bte, ais⟩

def vecI32ToJson (xs : List Int) : Json := .arr (xs.map fun i => .num (.int i))

def vecI32FromJson (v : Json) : Option (List Int) :=
  v.asArr.bind (mapMOpt jsonToI32)

def optVecI32ToJson : Option (List Int) → Json
  | some xs => vecI32ToJson xs
  | Option.none => .null

def optVecI32FromJson : Json → Option (Option (List Int))
  | .null => some Option.none
  | v => (vecI32FromJson v).map some

def serializationHeaderFromJson (v : Json) : Option SerializationHeaderRec := do
  let kvs ← v.asObj
  let r ← (jGet (s2b "root_id") kvs).bind jsonToI32
  let h ← (jGet (s2b "header_id") kvs).bind jsonToI32
  let ma ← (jGet (s2b "major_version") kvs).bind jsonToI32
  let mi ← (jGet (s2b "minor_version") kvs).bind jsonToI32
  pure ⟨r, h, ma, mi⟩

def binaryLibraryFromJson (v : Json) : Option BinaryLibraryRec := do
  let kvs ← v.asObj
  let lid ← (jGet (s2b "library_id") kvs).bind jsonToI32
  let nm ← (jGet (s2b "library_name") kvs).bind Json.asStr
  pure ⟨lid, nm⟩

/-- `primitive_value_to_json`. `json!` of an integer is an exact number;
of a float it goes through `Number::from_f64` (so a non-finite `Double`
or `Single` collapses to `Null`); a `Single` is first widened to `f64`. -/
def primitiveValueToJson : PrimitiveValue → Json
  | .boolean b => .bool b
  | .byte n => .num (.int n)
  | .char c => .str (charToUtf8 c)
  | .decimal s => .str s
  | .double bits => jsonOfF64Bits bits
  | .int16 i => .num (.int i)
  | .int32 i => .num (.int i)
  | .int64 i => .num (.int i)
  | .sbyte i => .num (.int i)
  | .single bits => jsonOfF64Bits (singleToDoubleBits bits)
  | .timeSpan i => .num (.int i)
  | .dateTime u => .num (.int u)
  | .uint16 n => .num (.int n)
  | .uint32 n => .num (.int n)
  | .uint64 n => .num (.int n)
  | .string s => .str s
  | .null => .null

mutual

/-- `record_to_value`. The source wraps every arm in `Some`, so the
`Option` is dropped (`unwrap_or(Value::Null)` at the use site can never
default). A `json!` object literal with distinct literal keys is the
corresponding insertion-ordered list. -/
def recordToValue : Record → Json
  | .serializationHeader h =>
    .obj [(s2b "$record", .str (s2b "SerializationHeader")),
          (s2b "root_id", .num (.int h.root_id)),
          (s2b "header_id", .num (.int h.header_id)),
          (s2b "major_version", .num (.int h.major_version)),
          (s2b "minor_version", .num (.int h.minor_version))]
  | .binaryLibrary l =>
    .obj [(s2b "$record", .str (s2b "BinaryLibrary")),
          (s2b "library_id", .num (.int l.library_id)),
          (s2b "library_name", .str l.library_name)]
  | .classWithMembersAndTypes ci mti lid vals =>
    .obj (jInsert (s2b "$member_type_info") (mtiToJson mti)
      (jInsert (s2b "$record") (.str (s2b "ClassWithMembersAndTypes"))
        (classToValue ci.name ci.object_id ci.member_names vals (some lid))))
  | .systemClassWithMembersAndTypes ci mti vals =>
    .obj (jInsert (s2b "$member_type_info") (mtiToJson mti)
      (jInsert (s2b "$record") (.str (s2b "SystemClassWithMembersAndTypes"))
        (classToValue ci.name ci.object_id ci.member_names vals Option.none)))
  | .systemClassWithMembers ci vals =>
    .obj (jInsert (s2b "$record") (.str (s2b "SystemClassWithMembers"))
      (classToValue ci.name ci.object_id ci.member_names vals Option.none))
  | .classWithMembers ci lid vals =>
    .obj (jInsert (s2b "$record") (.str (s2b "ClassWithMembers"))
      (classToValue ci.name ci.object_id ci.member_names vals (some lid)))
  | .classWithId oid mid vals =>
    .obj [(s2b "$record", .str (s2b "ClassWithId")),
          (s2b "object_id", .num (.int oid)),
          (s2b "metadata_id", .num (.int mid)),
          (s2b "$values", .arr (objectValuesToJson vals))]
  | .binaryObjectString oid v =>
    .obj [(s2b "$record", .str (s2b "BinaryObjectString")),
          (s2b "object_id", .num (.int oid)),
          (s2b "value", .str v)]
  | .binaryArray oid bate rank lengths lb te ati elems =>
    .obj [(s2b "$record", .str (s2b "BinaryArray")),
          (s2b "object_id", .num (.int oid)),
          (s2b "binary_array_type_enum", .num (.int bate)),
          (s2b "rank", .num (.int rank)),
          (s2b "lengths", vecI32ToJson lengths),
          (s2b "lower_bounds", optVecI32ToJson lb),
          (s2b "type_enum", binaryTypeToJson te),
          (s2b "additional_type_info", additionalTypeInfoToJson ati),
          (s2b "$values", .arr (objectValuesToJson elems))]
  | .arraySingleObject oid len vals =>
    .obj [(s2b "$record", .str (s2b "ArraySingleObject")),
          (s2b "object_id", .num (.int oid)),
          (s2b "length", .num (.int len)),
          (s2b "$values", .arr (objectValuesToJson vals))]
  | .arraySinglePrimitive oid len pt elems =>
    .obj [(s2b "$record", .str (s2b "ArraySinglePrimitive")),
          (s2b "object_id", .num (.int oid)),
          (s2b "length", .num (.int len)),
          (s2b "primitive_type_enum", primitiveTypeToJson pt),
          (s2b "$values", .arr (elems.map primitiveValueToJson))]
  | .arraySingleString oid len vals =>
    .obj [(s2b "$record", .str (s2b "ArraySingleString")),
          (s2b "object_id", .num (.int oid)),
          (s2b "length", .num (.int len)),
          (s2b "$values", .arr (objectValuesToJson vals))]
  | .memberPrimitiveTyped pt v =>
    .obj [(s2b "$record", .str (s2b "MemberPrimitiveTyped")),
          (s2b "primitive_type_enum", primitiveTypeToJson pt),
          (s2b "value", primitiveValueToJson v)]
  | .memberReference idr =>
    .obj [(s2b "$record", .str (s2b "MemberReference")),
          (s2b "id_ref", .num (.int idr))]
  | .objectNull => .obj [(s2b "$record", .str (s2b "ObjectNull"))]
  | .objectNullMultiple c =>
    .obj [(s2b "$record", .str (s2b "ObjectNullMultiple")),
          (s2b "null_count", .num (.int c))]
  | .objectNullMultiple256 c =>
    .obj [(s2b "$record", .str (s2b "ObjectNullMultiple256")),
          (s2b "null_count", .num (.int c))]
  | .messageEnd => .obj [(s2b "$record", .str (s2b "MessageEnd"))]

/-- `class_to_value`, as the built key/value list. -/
def classToValue (name : List Nat) (oid : Int) (names : List (List Nat))
    (vals : List ObjectValue) (lid : Option Int) : List (List Nat × Json) :=
  classMembersInto names vals
    (match lid with
     | some l =>
       jInsert (s2b "library_id") (.num (.int l))
         (jInsert (s2b "$id") (.num (.int oid)) (jInsert (s2b "$type") (.str name) []))
     | Option.none =>
       jInsert (s2b "$id") (.num (.int oid)) (jInsert (s2b "$type") (.str name) []))

/-- The `zip` loop of `class_to_value` (stops at the shorter list). -/
def classMembersInto : List (List Nat) → List ObjectValue → List (List Nat × Json) →
    List (List Nat × Json)
  | n :: ns, v :: vs, m => classMembersInto ns vs (jInsert n (objectValueToJson v) m)
  | _, _, m => m

/-- `object_value_to_json`. -/
def objectValueToJson : ObjectValue → Json
  | .primitive p => primitiveValueToJson p
  | .record r => recordToValue r

def objectValuesToJson : List ObjectValue → List Json
  | [] => []
  | v :: vs => objectValueToJson v :: objectValuesToJson vs

end

/-- `to_interleaved` (every record converts, so the filtering push keeps
all entries). -/
def toInterleaved (rs : List Record) : Json := .arr (rs.map recordToValue)


/-! The deserialiser (`from_interleaved`). The registry threading of
`&mut self` is explicit; the `value_to_record` / `json_to_object_value`
recursion on JSON values is fuelled (the fuel is an embedding artifact:
every recursive conversion descends to a strict subterm of the value, so
the `sizeOf`-based fuel supplied by `deserializeAux` is never exhausted). -/

abbrev IReg := List (Int × MemberTypeInfo)

mutual

/-- Structural size of a JSON value (the auto-generated `sizeOf` is not
executable on this nested inductive). -/
def jsize : Json → Nat
  | .null => 1
  | .bool _ => 1
  | .num _ => 1
  | .str _ => 1
  | .arr xs => 1 + jsizeL xs
  | .obj kvs => 1 + jsizeKV kvs

def jsizeL : List Json → Nat
  | [] => 0
  | x :: xs => jsize x + jsizeL xs

def jsizeKV : List (List Nat × Json) → Nat
  | [] => 0
  | (_, x) :: xs => jsize x + jsizeKV xs

end

/-- `value_to_class_info`. The `unwrap` panics on a malformed value are
modelled by junk defaults (never reached under the hypotheses used). -/
def valueToClassInfo (v : Json) : ClassInfo :=
  match v.asObj with
  | Option.none => ⟨0, [], 0, []⟩
  | some kvs =>
    let name := ((jGet (s2b "$type") kvs).bind Json.asStr).getD []
    let oid := castI32 (((jGet (s2b "$id") kvs).bind Json.asI64).getD 0)
    let names := (kvs.map Prod.fst).filter
      fun k => !(k.head? == some 36) && !(k == s2b "library_id")
    ⟨oid, name, names.length, names⟩

/-- `json_to_primitive_value` (pure; `unwrap_or` defaults on a
type-mismatched value). -/
def jsonToPrimitiveValue (v : Json) (t : PrimitiveType) : PrimitiveValue :=
  match t with
  | .boolean => .boolean (v.asBool.getD false)
  | .byte => .byte (castU8 (v.asI64.getD 0))
  | .uint16 => .uint16 (castU16 (v.asU64.getD 0))
  | .uint32 => .uint32 (castU32 (v.asU64.getD 0))
  | .char => .char ((v.asStr.bind utf8First).getD 0)
  | .decimal => .decimal (v.asStr.getD (s2b "0"))
  | .double => .double (v.asF64.getD 0)
  | .int16 => .int16 (castI16 (v.asI64.getD 0))
  | .int32 => .int32 (castI32 (v.asI64.getD 0))
  | .int64 => .int64 (v.asI64.getD 0)
  | .sbyte => .sbyte (castI8 (v.asI64.getD 0))
  | .single => .single (doubleToSingleBits (v.asF64.getD 0))
  | .timeSpan => .timeSpan (v.asI64.getD 0)
  | .dateTime => .dateTime
      (match v.asU64 with
       | some u => u.toNat
       | Option.none =>
         match v.asI64 with
         | some i => castU64 i
         | Option.none => 0)
  | .uint64 => .uint64
      (match v.asU64 with
       | some u => u.toNat
       | Option.none =>
         match v.asI64 with
         | some i => castU64 i
         | Option.none => 0)
  | .string => .string (v.asStr.getD [])
  | .null => .null

mutual

/-- `value_to_record`. Failing `?` lookups return `None` with the registry
in whatever state the already-executed steps left it; in particular every
`?` of the class arms runs before the registry insert. Out-of-range
indexing into `binary_type_enums`/`additional_infos` (a Rust panic) is
modelled by `getD` defaults, never reached under the arity hypotheses. -/
def valueToRecord : Nat → IReg → Json → Option Record × IReg
  | 0, reg, _ => (Option.none, reg)
  | f + 1, reg, v =>
    match v.asObj with
    | Option.none => (Option.none, reg)
    | some kvs =>
      match (jGet (s2b "$record") kvs).bind Json.asStr with
      | Option.none => (Option.none, reg)
      | some name =>
        if name = s2b "SerializationHeader" then
          match serializationHeaderFromJson v with
          | some h => (some (.serializationHeader h), reg)
          | Option.none => (Option.none, reg)
        else if name = s2b "BinaryLibrary" then
          match binaryLibraryFromJson v with
          | some l => (some (.binaryLibrary l), reg)
          | Option.none => (Option.none, reg)
        else if name = s2b "ClassWithMembersAndTypes" then
          let ci := valueToClassInfo v
          match (jGet (s2b "$member_type_info") kvs).bind mtiFromJson with
          | Option.none => (Option.none, reg)
          | some mti =>
            match (jGet (s2b "library_id") kvs).bind Json.asI64 with
            | Option.none => (Option.none, reg)
            | some lid =>
              let reg₁ := regInsert ci.object_id mti reg
              let p := valueToMemberValuesTyped f reg₁ kvs ci.member_names mti 0
              (some (.classWithMembersAndTypes ci mti (castI32 lid) p.1), p.2)
        else if name = s2b "SystemClassWithMembersAndTypes" then
          let ci := valueToClassInfo v
          match (jGet (s2b "$member_type_info") kvs).bind mtiFromJson with
          | Option.none => (Option.none, reg)
          | some mti =>
            let reg₁ := regInsert ci.object_id mti reg
            let p := valueToMemberValuesTyped f reg₁ kvs ci.member_names mti 0
            (some (.systemClassWithMembersAndTypes ci mti p.1), p.2)
        else if name = s2b "SystemClassWithMembers" then
          let ci := valueToClassInfo v
          let p := valueToMemberValues f reg kvs ci.member_names
          (some (.systemClassWithMembers ci p.1), p.2)
        else if name = s2b "ClassWithMembers" then
          let ci := valueToClassInfo v
          match (jGet (s2b "library_id") kvs).bind Json.asI64 with
          | Option.none => (Option.none, reg)
          | some lid =>
            let p := valueToMemberValues f reg kvs ci.member_names
            (some (.classWithMembers ci (castI32 lid) p.1), p.2)
        else if name = s2b "ClassWithId" then
          match (jGet (s2b "object_id") kvs).bind Json.asI64 with
          | Option.none => (Option.none, reg)
          | some oid =>
            match (jGet (s2b "metadata_id") kvs).bind Json.asI64 with
            | Option.none => (Option.none, reg)
            | some mid =>
              match regGet (castI32 mid) reg with
              | some mti =>
                match (jGet (s2b "$values") kvs).bind Json.asArr with
                | Option.none => (Option.none, reg)
                | some vals =>
                  let p := valueToTypedElems f reg mti vals 0
                  (some (.classWithId (castI32 oid) (castI32 mid) p.1), p.2)
              | Option.none =>
                match (jGet (s2b "$values") kvs).bind Json.asArr with
                | Option.none => (Option.none, reg)
                | some vals =>
                  let p := valueToObjElems f reg vals
                  (some (.classWithId (castI32 oid) (castI32 mid) p.1), p.2)
        else if name = s2b "BinaryObjectString" then
          match (jGet (s2b "object_id") kvs).bind Json.asI64 with
          | Option.none => (Option.none, reg)
          | some oid =>
            match (jGet (s2b "value") kvs).bind Json.asStr with
            | Option.none => (Option.none, reg)
            | some s => (some (.binaryObjectString (castI32 oid) s), reg)
        else if name = s2b "BinaryArray" then
          match (jGet (s2b "type_enum") kvs).bind binaryTypeFromJson with
          | Option.none => (Option.none, reg)
          | some te =>
            match (jGet (s2b "additional_type_info") kvs).bind additionalTypeInfoFromJson with
            | Option.none => (Option.none, reg)
            | some ati =>
              match (jGet (s2b "$values") kvs).bind Json.asArr with
              | Option.none => (Option.none, reg)
              | some vals =>
                let p := valueToUniformElems f reg te ati vals
                match (jGet (s2b "object_id") kvs).bind Json.asI64 with
                | Option.none => (Option.none, p.2)
                | some oid =>
                  match (jGet (s2b "binary_array_type_enum") kvs).bind Json.asI64 with
                  | Option.none => (Option.none, p.2)
                  | some bate =>
                    match (jGet (s2b "rank") kvs).bind Json.asI64 with
                    | Option.none => (Option.none, p.2)
                    | some rank =>
                      match (jGet (s2b "lengths") kvs).bind vecI32FromJson with
                      | Option.none => (Option.none, p.2)
                      | some lens =>
                        match (jGet (s2b "lower_bounds") kvs).bind optVecI32FromJson with
                        | Option.none => (Option.none, p.2)
                        | some lb =>
                          (some (.binaryArray (castI32 oid) (castU8 bate) (castI32 rank)
                            lens lb te ati p.1), p.2)
        else if name = s2b "ArraySingleObject" then
          match (jGet (s2b "object_id") kvs).bind Json.asI64 with
          | Option.none => (Option.none, reg)
          | some oid =>
            match (jGet (s2b "length") kvs).bind Json.asI64 with
            | Option.none => (Option.none, reg)
            | some len =>
              match (jGet (s2b "$values") kvs).bind Json.asArr with
              | Option.none => (Option.none, reg)
              | some vals =>
                let p := valueToObjElems f reg vals
                (some (.arraySingleObject (castI32 oid) (castI32 len) p.1), p.2)
        else if name = s2b "ArraySinglePrimitive" then
          match (jGet (s2b "primitive_type_enum") kvs).bind primitiveTypeFromJson with
          | Option.none => (Option.none, reg)
          | some pt =>
            match (jGet (s2b "$values") kvs).bind Json.asArr with
            | Option.none => (Option.none, reg)
            | some vals =>
              match (jGet (s2b "object_id") kvs).bind Json.asI64 with
              | Option.none => (Option.none, reg)
              | some oid =>
                match (jGet (s2b "length") kvs).bind Json.asI64 with
                | Option.none => (Option.none, reg)
                | some len =>
                  (some (.arraySinglePrimitive (castI32 oid) (castI32 len) pt
                    (vals.map fun w => jsonToPrimitiveValue w pt)), reg)
        else if name = s2b "ArraySingleString" then
          match (jGet (s2b "object_id") kvs).bind Json.asI64 with
          | Option.none => (Option.none, reg)
          | some oid =>
            match (jGet (s2b "length") kvs).bind Json.asI64 with
            | Option.none => (Option.none, reg)
            | some len =>
              match (jGet (s2b "$values") kvs).bind Json.asArr with
              | Option.none => (Option.none, reg)
              | some vals =>
                let p := valueToObjElems f reg vals
                (some (.arraySingleString (castI32 oid) (castI32 len) p.1), p.2)
        else if name = s2b "MemberPrimitiveTyped" then
          match (jGet (s2b "primitive_type_enum") kvs).bind primitiveTypeFromJson with
          | Option.none => (Option.none, reg)
          | some pt =>
            match jGet (s2b "value") kvs with
            | Option.none => (Option.none, reg)
            | some w => (some (.memberPrimitiveTyped pt (jsonToPrimitiveValue w pt)), reg)
        else if name = s2b "MemberReference" then
          match (jGet (s2b "id_ref") kvs).bind Json.asI64 with
          | Option.none => (Option.none, reg)
          | some idr => (some (.memberReference (castI32 idr)), reg)
        else if name = s2b "ObjectNull" then (some .objectNull, reg)
        else if name = s2b "ObjectNullMultiple" then
          match (jGet (s2b "null_count") kvs).bind Json.asI64 with
          | Option.none => (Option.none, reg)
          | some c => (some (.objectNullMultiple (castI32 c)), reg)
        else if name = s2b "ObjectNullMultiple256" then
          match (jGet (s2b "null_count") kvs).bind Json.asI64 with
          | Option.none => (Option.none, reg)
          | some c => (some (.objectNullMultiple256 (castU8 c)), reg)
        else if name = s2b "MessageEnd" then (some .messageEnd, reg)
        else (Option.none, reg)
termination_by f reg v => (f, 0, 0)

/-- `value_to_member_values` (a name missing from the object is skipped). -/
def valueToMemberValues (f : Nat) (reg : IReg) (kvs : List (List Nat × Json)) :
    List (List Nat) → List ObjectValue × IReg
  | [] => ([], reg)
  | n :: rest =>
    match jGet n kvs with
    | Option.none => valueToMemberValues f reg kvs rest
    | some w =>
      let p := jsonToObjectValue f reg w
      let q := valueToMemberValues f p.2 kvs rest
      (p.1 :: q.1, q.2)
termination_by names => (f, 2, names.length)

/-- `value_to_member_values_typed` (the `enumerate` index `i` selects the
binary type for the member even when an earlier name was skipped). -/
def valueToMemberValuesTyped (f : Nat) (reg : IReg) (kvs : List (List Nat × Json))
    (names : List (List Nat)) (mti : MemberTypeInfo) (i : Nat) : List ObjectValue × IReg :=
  match names with
  | [] => ([], reg)
  | n :: rest =>
    match jGet n kvs with
    | Option.none => valueToMemberValuesTyped f reg kvs rest mti (i + 1)
    | some w =>
      match mti.binary_type_enums.getD i .object, mti.additional_infos.getD i .none with
      | .primitive, .primitive pt =>
        let q := valueToMemberValuesTyped f reg kvs rest mti (i + 1)
        (.primitive (jsonToPrimitiveValue w pt) :: q.1, q.2)
      | .primitive, _ =>
        let p := jsonToObjectValue f reg w
        let q := valueToMemberValuesTyped f p.2 kvs rest mti (i + 1)
        (p.1 :: q.1, q.2)
      | _, _ =>
        let p := jsonToObjectValue f reg w
        let q := valueToMemberValuesTyped f p.2 kvs rest mti (i + 1)
        (p.1 :: q.1, q.2)
termination_by (f, 2, names.length)

/-- The indexed element loop of the `ClassWithId` registered-metadata
branch. -/
def valueToTypedElems (f : Nat) (reg : IReg) (mti : MemberTypeInfo) :
    List Json → Nat → List ObjectValue × IReg
  | [], _ => ([], reg)
  | w :: rest, i =>
    match mti.binary_type_enums.getD i .object, mti.additional_infos.getD i .none with
    | .primitive, .primitive pt =>
      let q := valueToTypedElems f reg mti rest (i + 1)
      (.primitive (jsonToPrimitiveValue w pt) :: q.1, q.2)
    | .primitive, _ =>
      let p := jsonToObjectValue f reg w
      let q := valueToTypedElems f p.2 mti rest (i + 1)
      (p.1 :: q.1, q.2)
    | _, _ =>
      let p := jsonToObjectValue f reg w
      let q := valueToTypedElems f p.2 mti rest (i + 1)
      (p.1 :: q.1, q.2)
termination_by ws i => (f, 2, ws.length)

/-- The element loop of `BinaryArray` (one type for every element). -/
def valueToUniformElems (f : Nat) (reg : IReg) (te : BinaryType)
    (ati : AdditionalTypeInfo) : List Json → List ObjectValue × IReg
  | [] => ([], reg)
  | w :: rest =>
    match te, ati with
    | .primitive, .primitive pt =>
      let q := valueToUniformElems f reg te ati rest
      (.primitive (jsonToPrimitiveValue w pt) :: q.1, q.2)
    | .primitive, _ =>
      let p := jsonToObjectValue f reg w
      let q := valueToUniformElems f p.2 te ati rest
      (p.1 :: q.1, q.2)
    | _, _ =>
      let p := jsonToObjectValue f reg w
      let q := valueToUniformElems f p.2 te ati rest
      (p.1 :: q.1, q.2)
termination_by ws => (f, 2, ws.length)

/-- The untyped element map of `ClassWithId` / `ArraySingleObject` /
`ArraySingleString`. -/
def valueToObjElems (f : Nat) (reg : IReg) : List Json → List ObjectValue × IReg
  | [] => ([], reg)
  | w :: rest =>
    let p := jsonToObjectValue f reg w
    let q := valueToObjElems f p.2 rest
    (p.1 :: q.1, q.2)
termination_by ws => (f, 2, ws.length)

/-- `json_to_object_value`: a convertible record value, else the
primitive fallback (the `unwrap`s are guarded by the `is_*` tests). -/
def jsonToObjectValue (f : Nat) (reg : IReg) (v : Json) : ObjectValue × IReg :=
  match valueToRecord f reg v with
  | (some r, reg₁) => (.record r, reg₁)
  | (Option.none, reg₁) =>
    if v.isBool then (.primitive (.boolean (v.asBool.getD false)), reg₁)
    else if v.isNum then
      if v.isI64 then (.primitive (.int32 (castI32 (v.asI64.getD 0))), reg₁)
      else if v.isU64 then (.primitive (.uint32 (castU32 (v.asU64.getD 0))), reg₁)
      else (.primitive (.double (v.asF64.getD 0)), reg₁)
    else if v.isStr then (.primitive (.string (v.asStr.getD [])), reg₁)
    else (.primitive .null, reg₁)
termination_by (f, 1, 0)

end

/-- The `deserialize` loop: convertible entries are kept, the rest
dropped, with the metadata registry threaded left to right. `jsize`
strictly bounds the record-nesting depth of the entry, so the fuel never
runs out. -/
def deserializeAux : List Json → IReg → List Record
  | [], _ => []
  | v :: rest, reg =>
    match valueToRecord (jsize v) reg v with
    | (some r, reg₁) => r :: deserializeAux rest reg₁
    | (Option.none, reg₁) => deserializeAux rest reg₁

/-- `from_interleaved`. -/
def fromInterleaved (v : Json) : List Record :=
  match v with
  | .arr xs => deserializeAux xs []
  | _ => []


/-- The `$record` names `value_to_record` dispatches on. -/
def knownRecordNames : List (List Nat) :=
  [s2b "SerializationHeader", s2b "BinaryLibrary", s2b "ClassWithMembersAndTypes",
   s2b "SystemClassWithMembersAndTypes", s2b "SystemClassWithMembers", s2b "ClassWithMembers",
   s2b "ClassWithId", s2b "BinaryObjectString", s2b "BinaryArray", s2b "ArraySingleObject",
   s2b "ArraySinglePrimitive", s2b "ArraySingleString", s2b "MemberPrimitiveTyped",
   s2b "MemberReference", s2b "ObjectNull", s2b "ObjectNullMultiple",
   s2b "ObjectNullMultiple256", s2b "MessageEnd"]

/-- A top-level entry `value_to_record` cannot use: not an object, no
`$record` string, or a `$record` value that is not a known variant name. -/
def unusableEntry (v : Json) : Prop :=
  match v.asObj with
  | Option.none => True
  | some kvs =>
    match (jGet (s2b "$record") kvs).bind Json.asStr with
    | Option.none => True
    | some name => name ∉ knownRecordNames

/-- C8: an entry with an unknown (or missing/non-string) `$record` is
silently dropped by `from_interleaved`: `value_to_record` returns no
record, leaves the metadata registry untouched, and the remaining
entries are converted exactly as if the entry were absent. -/
theorem c8_unknown_record_skipped (v : Json) (h : unusableEntry v) :
    (∀ f reg, valueToRecord f reg v = (Option.none, reg)) ∧
    (∀ rest reg, deserializeAux (v :: rest) reg = deserializeAux rest reg) ∧
    (∀ rest, fromInterleaved (.arr (v :: rest)) = fromInterleaved (.arr rest)) := by
  have main : ∀ f reg, valueToRecord f reg v = (Option.none, reg) := by
    intro f reg
    match f with
    | 0 => rw [valueToRecord]
    | f + 1 =>
      rw [valueToRecord]
      unfold unusableEntry at h
      cases hv : v.asObj with
      | none => simp [hv]
      | some kvs =>
        simp only [hv] at h ⊢
        cases hget : (jGet (s2b "$record") kvs).bind Json.asStr with
        | none => simp [hget]
        | some name =>
          simp only [hget] at h ⊢
          simp only [knownRecordNames, List.mem_cons, List.not_mem_nil, or_false,
            not_or] at h
          obtain ⟨h1, h2, h3, h4, h5, h6, h7, h8, h9, h10, h11, h12, h13, h14,
            h15, h16, h17, h18⟩ := h
          rw [if_neg h1, if_neg h2, if_neg h3, if_neg h4, if_neg h5, if_neg h6,
            if_neg h7, if_neg h8, if_neg h9, if_neg h10, if_neg h11, if_neg h12,
            if_neg h13, if_neg h14, if_neg h15, if_neg h16, if_neg h17, if_neg h18]
  refine ⟨main, ?_, ?_⟩
  · intro rest reg
    rw [deserializeAux, main (jsize v) reg]
  · intro rest
    show deserializeAux (v :: rest) [] = deserializeAux rest []
    rw [deserializeAux, main (jsize v) []]

/-- Witness: a `{"$record": "Bogus"}` entry is dropped and the following
`MessageEnd` entry still converts. -/
theorem c8_unknown_record_skipped_witness :
    valueToRecord 5 [] (.obj [(s2b "$record", .str (s2b "Bogus"))]) = (Option.none, []) ∧
    deserializeAux [.obj [(s2b "$record", .str (s2b "Bogus"))],
        .obj [(s2b "$record", .str (s2b "MessageEnd"))]] []
      = deserializeAux [.obj [(s2b "$record", .str (s2b "MessageEnd"))]] [] :=
  ⟨(c8_unknown_record_skipped _ (by show s2b "Bogus" ∉ knownRecordNames; decide)).1 5 [],
   (c8_unknown_record_skipped _ (by show s2b "Bogus" ∉ knownRecordNames; decide)).2.1 _ []⟩

end Nrbf
